import Mathlib

/-!
# Terraform operator: watch registry, manager, status model and reconciler

A shallow embedding of

* `internal/terraform/watches/watches.go` (`LoadReader`, `verifyGVK`,
  `expandOverrideEnvs`),
* `internal/terraform/config/manager_factory.go` (`NewManager`,
  `parseOverrides`, `mergeMaps`),
* `internal/terraform/config/manager.go` (`Refresh`, `Create`, `Update`,
  `Reconcile`, `Delete`),
* `internal/terraform/internal/types/types.go` (`SetCondition`,
  `RemoveCondition`, `StatusFor`),
* `internal/terraform/controller/reconcile.go` (`Reconcile`, `createHandler`,
  `updateHandler`, `deleteHandler`, `updateResource`, `updateResourceStatus`,
  `waitForDeletion`, `contains`),

followed by the statements proved about them.

The reconciler talks to an object store, a command-line tool and a clock.  A
`Cluster` fixes the answer of each call one reconcile may make to them, and a
reconcile returns, next to its result and error, the trace of what it did.

Conventions.  A Go `error` value is `Option GoError` (`none` is `nil`).  A Go
slice result that may be `nil` is an `Option (List _)`.  A Go map is an
association list that is read with a first-match lookup and written with
replace-or-append, so a list with pairwise distinct keys stands for a map; the
order of the list is the order in which `range` visits the map.
-/

namespace Terraform

/-! ## Errors -/

/-- Go error values: `msg` is `errors.New` (or `fmt.Errorf` without `%w`),
`wrap pre cause` is `fmt.Errorf(pre + "%w", cause)`. -/
inductive GoError where
  | msg (text : String)
  | wrap (pre : String) (cause : GoError)
  deriving DecidableEq, Repr

/-- The `Error()` text of an error. -/
def GoError.Error : GoError → String
  | .msg text => text
  | .wrap pre cause => pre ++ cause.Error

/-- The `Unwrap()` of an error: the wrapped cause, when there is one. -/
def GoError.Unwrap : GoError → Option GoError
  | .msg _ => none
  | .wrap _ cause => some cause

/-! ## Environment-variable expansion (Go `os.Expand`, `os.Getenv`) -/

/-- The process environment: `none` for a variable that is not set. -/
abbrev Env := String → Option String

/-- Go `os.Getenv`: the value of the variable, empty when it is not set. -/
def Getenv (env : Env) (key : String) : String :=
  (env key).getD ""

/-- Go `os.isShellSpecialVar`. -/
def isShellSpecialVar (c : Char) : Bool :=
  c == '*' || c == '#' || c == '$' || c == '@' || c == '!' || c == '?' || c == '-' ||
    (48 ≤ c.toNat && c.toNat ≤ 57)

/-- Go `os.isAlphaNum`: underscore, digit or ASCII letter. -/
def isAlphaNum (c : Char) : Bool :=
  c == '_' || (48 ≤ c.toNat && c.toNat ≤ 57) || (97 ≤ c.toNat && c.toNat ≤ 122) ||
    (65 ≤ c.toNat && c.toNat ≤ 90)

/-- Position of the first closing brace of a text, if it has one. -/
def closeBraceAt : List Char → Option Nat
  | [] => none
  | c :: t => if c = '\x7d' then some 0 else (closeBraceAt t).map (· + 1)

/-- Go `os.getShellName` on the non-empty text `c :: t` that follows a dollar
sign: the variable name and the number of characters it takes up. -/
def getShellName (c : Char) (t : List Char) : List Char × Nat :=
  if c = '\x7b' then
    match t with
    | c1 :: c2 :: _ =>
      if isShellSpecialVar c1 && c2 == '\x7d' then ([c1], 3)
      else
        match closeBraceAt t with
        | none => ([], 1)
        | some 0 => ([], 2)
        | some (n + 1) => (t.take (n + 1), n + 3)
    | _ =>
      match closeBraceAt t with
      | none => ([], 1)
      | some 0 => ([], 2)
      | some (n + 1) => (t.take (n + 1), n + 3)
  else if isShellSpecialVar c then ([c], 1)
  else ((c :: t).takeWhile isAlphaNum, ((c :: t).takeWhile isAlphaNum).length)

/-- The loop of Go `os.Expand`.  `skip` counts the characters that the last
reference still covers (`j += w`); a dollar sign that is the last character is
copied like any other character. -/
def expandFrom (mapping : String → String) : Nat → List Char → List Char
  | _, [] => []
  | skip + 1, _ :: rest => expandFrom mapping skip rest
  | 0, c :: rest =>
    match rest with
    | [] => [c]
    | d :: t =>
      if c = '$' then
        (if (getShellName d t).1 = [] ∧ 0 < (getShellName d t).2 then []
         else if (getShellName d t).1 = [] then [c]
         else (mapping (String.mk (getShellName d t).1)).data)
          ++ expandFrom mapping (getShellName d t).2 (d :: t)
      else c :: expandFrom mapping 0 (d :: t)

/-- Go `os.Expand`. -/
def Expand (s : String) (mapping : String → String) : String :=
  String.mk (expandFrom mapping 0 s.data)

/-- Go `os.ExpandEnv`: `os.Expand(s, os.Getenv)`. -/
def ExpandEnv (env : Env) (s : String) : String :=
  Expand s (Getenv env)

/-! ## Watch registry (`watches.go`) -/

/-- The `schema.GroupVersionKind` triple. -/
structure GroupVersionKind where
  Group : String
  Version : String
  Kind : String
  deriving DecidableEq, Repr

/-- The `String()` rendering of a triple, used in error texts. -/
def gvkString (gvk : GroupVersionKind) : String :=
  gvk.Group ++ "/" ++ gvk.Version ++ ", Kind=" ++ gvk.Kind

/-- A Go `map[string]string`. -/
abbrev StrMap := List (String × String)

/-- The read `m[k]` of a `map[string]string`. -/
def strMapGet (m : StrMap) (k : String) : Option String :=
  match m with
  | [] => none
  | (k1, v1) :: rest => if k1 = k then some v1 else strMapGet rest k

/-- The write `m[k] = v` of a `map[string]string`. -/
def strMapSet (m : StrMap) (k v : String) : StrMap :=
  match m with
  | [] => [(k, v)]
  | (k1, v1) :: rest => if k1 = k then (k, v) :: rest else (k1, v1) :: strMapSet rest k v

/-- The `Watch` struct; a `nil` pointer or `nil` map is `none`. -/
structure Watch where
  GVK : GroupVersionKind
  TemplateDir : String
  WatchDependentResources : Option Bool
  OverrideValues : Option StrMap
  deriving DecidableEq, Repr

/-- The function `verifyGVK`. -/
def verifyGVK (gvk : GroupVersionKind) : Option GoError :=
  if gvk.Version = "" then some (.msg "version must not be empty")
  else if gvk.Kind = "" then some (.msg "kind must not be empty")
  else none

/-- The function `expandOverrideEnvs`. -/
def expandOverrideEnvs (env : Env) (input : Option StrMap) : Option StrMap :=
  match input with
  | none => none
  | some m => some (m.foldl (fun out kv => strMapSet out kv.1 (ExpandEnv env kv.2)) [])

/-- The `for i, w := range watches` loop of `LoadReader`.  `watchesMap` holds
the triples seen so far, `done` the entries already written back
(`watches[i] = w`), and the last argument the entries still to visit. -/
def loadLoop (env : Env) :
    List GroupVersionKind → List Watch → List Watch → Option (List Watch) × Option GoError
  | _, done, [] => (some done, none)
  | watchesMap, done, w :: todo =>
    match verifyGVK w.GVK with
    | some err => (none, some (.wrap ("invalid GVK: " ++ gvkString w.GVK ++ ": ") err))
    | none =>
      if w.GVK ∈ watchesMap then (none, some (.msg ("duplicate GVK: " ++ gvkString w.GVK)))
      else
        loadLoop env (w.GVK :: watchesMap)
          (done ++ [{ w with
            WatchDependentResources :=
              if w.WatchDependentResources = none then some true else w.WatchDependentResources
            OverrideValues := expandOverrideEnvs env w.OverrideValues }])
          todo

/-- The function `LoadReader`.  `decoded` is the outcome of `ioutil.ReadAll`
followed by `yaml.Unmarshal`: the decoded entries, or the error of either. -/
def LoadReader (env : Env) (decoded : Except GoError (List Watch)) :
    Option (List Watch) × Option GoError :=
  match decoded with
  | .error err => (none, some err)
  | .ok watches => loadLoop env [] [] watches

/-! ## Status model (`types.go`) -/

/-- The `metav1.Time` of a condition, as a clock reading; the zero value is `0`. -/
abbrev Time := Nat

/-- The `TFConfigCondition` struct (`CondType` is its field `Type`). -/
structure TFConfigCondition where
  CondType : String
  Status : String
  Reason : String
  Message : String
  LastTransitionTime : Time
  deriving DecidableEq, Repr

/-- The `TFDeploy` struct. -/
structure TFDeploy where
  Name : String
  Manifest : String
  deriving DecidableEq, Repr

/-- The `TFConfigStatus` struct; its zero value is the empty status. -/
structure TFConfigStatus where
  Conditions : List TFConfigCondition := []
  DeployedConfig : Option TFDeploy := none
  deriving DecidableEq, Repr

/-! ## Dynamic values and `map[string]interface{}` -/

mutual
/-- A Go `interface{}` value as found in an unstructured object: JSON scalars,
slices, string-keyed maps, and the typed status pointer that the controller
stores under `"status"`.  A `float64` is kept as its bit pattern. -/
inductive Value where
  | null : Value
  | bool : Bool → Value
  | int : Int → Value
  | float : Nat → Value
  | str : String → Value
  | list : List Value → Value
  | map : GoMap → Value
  | status : TFConfigStatus → Value
/-- A Go `map[string]interface{}`, as a list of key-value entries. -/
inductive GoMap where
  | nil : GoMap
  | cons : String → Value → GoMap → GoMap
end

/-- The read `m[k]` of a `map[string]interface{}`. -/
def mapGet (m : GoMap) (k : String) : Option Value :=
  match m with
  | .nil => none
  | .cons k1 v1 rest => if k1 = k then some v1 else mapGet rest k

/-- The write `m[k] = v` of a `map[string]interface{}`. -/
def mapSet (m : GoMap) (k : String) (v : Value) : GoMap :=
  match m with
  | .nil => .cons k v .nil
  | .cons k1 v1 rest => if k1 = k then .cons k v rest else .cons k1 v1 (mapSet rest k v)

/-- The keys of a map, in entry order. -/
def mapKeys : GoMap → List String
  | .nil => []
  | .cons k _ rest => k :: mapKeys rest

/-- Whether the entries of a map have pairwise distinct keys, at the top level
and in every map reached through map values. -/
def uniqueKeys : GoMap → Bool
  | .nil => true
  | .cons k (.map m) rest => uniqueKeys m && !(mapKeys rest).contains k && uniqueKeys rest
  | .cons k _ rest => !(mapKeys rest).contains k && uniqueKeys rest

/-! ## Manager factory (`manager_factory.go`) -/

/-- The first loop of `mergeMaps`: `for k, v := range a { out[k] = v }`. -/
def copyLoop (out : GoMap) (a : GoMap) : GoMap :=
  match a with
  | .nil => out
  | .cons k v rest => copyLoop (mapSet out k v) rest

/-- The second loop of `mergeMaps`, `for k, v := range b`, with the recursive
call `mergeMaps(bv, v)` written out as the two loops it consists of. -/
def mergeLoop (out : GoMap) (b : GoMap) : GoMap :=
  match b with
  | .nil => out
  | .cons k (.map v) rest =>
    match mapGet out k with
    | some (.map bv) => mergeLoop (mapSet out k (.map (mergeLoop (copyLoop .nil bv) v))) rest
    | _ => mergeLoop (mapSet out k (.map v)) rest
  | .cons k v rest => mergeLoop (mapSet out k v) rest
termination_by structural b

/-- The function `mergeMaps`. -/
def mergeMaps (a b : GoMap) : GoMap :=
  mergeLoop (copyLoop .nil a) b

/-- The accessor `GetName` of an unstructured object: the string at
`metadata.name`, empty when it is missing or not a string. -/
def GetName (cr : GoMap) : String :=
  match mapGet cr "metadata" with
  | some (.map md) =>
    match mapGet md "name" with
    | some (.str s) => s
    | _ => ""
  | _ => ""

/-- The accessor `GetNamespace` of an unstructured object. -/
def GetNamespace (cr : GoMap) : String :=
  match mapGet cr "metadata" with
  | some (.map md) =>
    match mapGet md "namespace" with
    | some (.str s) => s
    | _ => ""
  | _ => ""

/-- The function `getDeployName`: the resource name, and never an error. -/
def getDeployName (cr : GoMap) : String × Option GoError :=
  (GetName cr, none)

/-- The loop of `parseOverrides`.  `parseInto` is `strvals.ParseIntoString` of
the Helm library: the destination map after parsing one `key=value` text into
it, or an error. -/
def parseOverridesLoop (parseInto : String → GoMap → Except GoError GoMap) :
    GoMap → StrMap → Except GoError GoMap
  | out, [] => .ok out
  | out, (k, v) :: rest =>
    match parseInto (k ++ "=" ++ v) out with
    | .error err => .error err
    | .ok out1 => parseOverridesLoop parseInto out1 rest

/-- The function `parseOverrides`; ranging over a `nil` map visits nothing. -/
def parseOverrides (parseInto : String → GoMap → Except GoError GoMap)
    (input : Option StrMap) : Except GoError GoMap :=
  parseOverridesLoop parseInto .nil (input.getD [])

/-- The function `StatusFor` of `types.go`.  `fromUnstructured` is the
conversion `runtime.DefaultUnstructuredConverter.FromUnstructured`. -/
def StatusFor (fromUnstructured : GoMap → Except GoError TFConfigStatus) (cr : GoMap) :
    TFConfigStatus :=
  match mapGet cr "status" with
  | some (.status s) => s
  | some (.map m) =>
    match fromUnstructured m with
    | .error _ => {}
    | .ok s => s
  | _ => {}

/-- The `manager` struct; `nspace` is its field `namespace` and `existsFlag`
its field `exists`.  Both flags are `false` in a struct literal that leaves
them out. -/
structure manager where
  deployName : String
  nspace : String
  values : GoMap
  status : TFConfigStatus
  existsFlag : Bool := false
  isUpdateRequired : Bool := false

/-- The method `managerFactory.NewManager`. -/
def NewManager (parseInto : String → GoMap → Except GoError GoMap)
    (fromUnstructured : GoMap → Except GoError TFConfigStatus)
    (cr : GoMap) (overrideValues : Option StrMap) : Option manager × Option GoError :=
  match getDeployName cr with
  | (_, some err) => (none, some (.wrap "failed to get Terraform deployment name: " err))
  | (deployName, none) =>
    match mapGet cr "spec" with
    | some (.map crValues) =>
      match parseOverrides parseInto overrideValues with
      | .error err => (none, some (.wrap "failed to parse override values: " err))
      | .ok expOverrides =>
        (some
          { deployName := deployName
            nspace := GetNamespace cr
            values := mergeMaps crValues expOverrides
            status := StatusFor fromUnstructured cr },
         none)
    | _ => (none, some (.msg "failed to get spec: expected map"))

/-! ## Manager (`manager.go`) -/

/-- An external command: the program name followed by its arguments. -/
abbrev Command := List String

/-- How one run of an external command ended: the process exited with a
status code, it was ended by a signal, or it could not be started. -/
inductive CmdResult where
  | exited (code : Nat)
  | signaled (desc : String)
  | notStarted (err : GoError)
  deriving DecidableEq, Repr

/-- The error of `exec.Cmd.Run`: `nil` exactly for exit status zero. -/
def CmdResult.runErr : CmdResult → Option GoError
  | .exited 0 => none
  | .exited (n + 1) => some (.msg ("exit status " ++ toString (n + 1)))
  | .signaled desc => some (.msg ("signal: " ++ desc))
  | .notStarted err => some err

/-- The value of `cmd.ProcessState.ExitCode()` after `Run`: the status code of
an exited process and `-1` otherwise. -/
def CmdResult.ExitCode : CmdResult → Int
  | .exited code => code
  | .signaled _ => -1
  | .notStarted _ => -1

/-- The provisioning tool as seen by one manager operation: the outcome of
each command the operation may run. -/
abbrev Runner := Command → CmdResult

namespace manager

/-- The method `DeploymentName`. -/
def DeploymentName (m : manager) : String := m.deployName

/-- The method `Exists`. -/
def Exists (m : manager) : Bool := m.existsFlag

/-- The method `IsUpdateRequired`. -/
def IsUpdateRequired (m : manager) : Bool := m.isUpdateRequired

/-- The method `Refresh` (pointer receiver): the manager after the call and
the returned error. -/
def Refresh (m : manager) (run : Runner) : manager × Option GoError :=
  let m1 : manager :=
    match (run ["terraform", "state", "list"]).runErr with
    | some _ => { m with existsFlag := false }
    | none => { m with existsFlag := true }
  match (run ["terraform", "plan", "--detailed-exitcode"]).runErr with
  | some err =>
    if (run ["terraform", "plan", "--detailed-exitcode"]).ExitCode = 2 then
      ({ m1 with isUpdateRequired := true }, none)
    else (m1, some (.wrap "failed to check deployment status: " err))
  | none => ({ m1 with isUpdateRequired := false }, none)

/-- The method `Create` (value receiver: the caller keeps its manager as it
was): the manager after the call and the returned error. -/
def Create (m : manager) (run : Runner) : manager × Option GoError :=
  match (run ["terraform", "apply", "-auto-approve"]).runErr with
  | some err => (m, some (.wrap "failed to create deployment: " err))
  | none => (m, none)

/-- The method `Update` (value receiver). -/
def Update (m : manager) (run : Runner) : manager × Option GoError :=
  match (run ["terraform", "apply", "-auto-approve"]).runErr with
  | some err => (m, some (.wrap "failed to create deployment: " err))
  | none => (m, none)

/-- The method `Reconcile` (value receiver): it runs nothing. -/
def Reconcile (m : manager) (_run : Runner) : manager × Option GoError :=
  (m, none)

/-- The method `Delete` (value receiver). -/
def Delete (m : manager) (run : Runner) : manager × Option GoError :=
  match (run ["terraform", "destroy", "-auto-approve"]).runErr with
  | some err => (m, some (.wrap "failed to delete deployment: " err))
  | none => (m, none)

end manager

/-! ## Auxiliary functions on maps, used to state facts about `mergeMaps` -/

/-- The value that the second loop of `mergeMaps` writes for an entry `v` of
`b` when the output currently holds `cur` under the same key. -/
def mergedValue (cur : Option Value) (v : Value) : Value :=
  match v with
  | .map bm =>
    match cur with
    | some (.map om) => .map (mergeMaps om bm)
    | _ => .map bm
  | other => other

/-- The entries of one map followed by the entries of another. -/
def mapAppend : GoMap → GoMap → GoMap
  | .nil, m2 => m2
  | .cons k v rest, m2 => .cons k v (mapAppend rest m2)

/-- The number of entries of a map, counting those of nested maps. -/
def mapSize : GoMap → Nat
  | .nil => 0
  | .cons _ (.map m) rest => mapSize m + mapSize rest + 1
  | .cons _ _ rest => mapSize rest + 1

/-- A sample desired spec: `{a: {x: 1, y: 2}, b: 3, d: {z: 0}}`. -/
def sampleSpec : GoMap :=
  .cons "a" (.map (.cons "x" (.int 1) (.cons "y" (.int 2) .nil)))
    (.cons "b" (.int 3) (.cons "d" (.map (.cons "z" (.int 0) .nil)) .nil))

/-- A sample override set: `{a: {y: 9}, b: {}, d: "s", c: null}`. -/
def sampleOverrides : GoMap :=
  .cons "a" (.map (.cons "y" (.int 9) .nil))
    (.cons "b" (.map .nil) (.cons "d" (.str "s") (.cons "c" .null .nil)))

/-! ## Status model operations (`types.go`) -/

/-- The constant `ConditionInitialized`. -/
def ConditionInitialized : String := "Initialized"
/-- The constant `ConditionDeployed`. -/
def ConditionDeployed : String := "Deployed"
/-- The constant `ConditionConfigFailed`. -/
def ConditionConfigFailed : String := "ConfigFailed"
/-- The constant `ConditionIrreconcilable`. -/
def ConditionIrreconcilable : String := "Irreconcilable"
/-- The constant `StatusTrue`. -/
def StatusTrue : String := "True"
/-- The constant `StatusFalse`. -/
def StatusFalse : String := "False"
/-- The constant `StatusUnknown`. -/
def StatusUnknown : String := "Unknown"
/-- The constant `ReasonCreateSuccessful`. -/
def ReasonCreateSuccessful : String := "CreateSuccessful"
/-- The constant `ReasonUpdateSuccessful`. -/
def ReasonUpdateSuccessful : String := "UpdateSuccessful"
/-- The constant `ReasonDeleteSuccessful`. -/
def ReasonDeleteSuccessful : String := "DeleteSuccessful"
/-- The constant `ReasonCreateError`. -/
def ReasonCreateError : String := "CreateError"
/-- The constant `ReasonUpdateError`. -/
def ReasonUpdateError : String := "UpdateError"
/-- The constant `ReasonReconcileError`. -/
def ReasonReconcileError : String := "ReconcileError"
/-- The constant `ReasonDeleteError`. -/
def ReasonDeleteError : String := "DeleteError"

/-- The body of `SetCondition` on the condition slice: the `for` loop that
replaces the first condition of the same type, and the `append` that runs when
the loop finds none.  `now` is the value of `metav1.Now()`. -/
def setConditionLoop (now : Time) (condition : TFConfigCondition) :
    List TFConfigCondition → List TFConfigCondition
  | [] => [{ condition with LastTransitionTime := now }]
  | c :: rest =>
    if c.CondType = condition.CondType then
      (if c.Status ≠ condition.Status then { condition with LastTransitionTime := now }
       else { condition with LastTransitionTime := c.LastTransitionTime }) :: rest
    else c :: setConditionLoop now condition rest

/-- The method `SetCondition` (pointer receiver): the status after the call. -/
def TFConfigStatus.SetCondition (s : TFConfigStatus) (now : Time)
    (condition : TFConfigCondition) : TFConfigStatus :=
  { s with Conditions := setConditionLoop now condition s.Conditions }

/-- The loop of `RemoveCondition` on the condition slice: it cuts out the
first condition of the given type and stops. -/
def removeConditionLoop (conditionType : String) :
    List TFConfigCondition → List TFConfigCondition
  | [] => []
  | c :: rest =>
    if c.CondType = conditionType then rest else c :: removeConditionLoop conditionType rest

/-- The method `RemoveCondition` (pointer receiver): the status after the
call. -/
def TFConfigStatus.RemoveCondition (s : TFConfigStatus) (conditionType : String) :
    TFConfigStatus :=
  { s with Conditions := removeConditionLoop conditionType s.Conditions }

/-- The command line that `Create` and `Update` hand to `exec.Command`. -/
def manager.applyInvocation (_m : manager) : Command :=
  ["terraform", "apply", "-auto-approve"]

/-- The command line that `Delete` hands to `exec.Command`. -/
def manager.destroyInvocation (_m : manager) : Command :=
  ["terraform", "destroy", "-auto-approve"]

/-- A tool that fails every command with exit status one. -/
def failingTool : Runner := fun _ => .exited 1

/-! ## Unstructured accessors (`apimachinery`, `controller-runtime`) -/

/-- The helper `NestedFieldNoCopy(obj, a, b)`: the value under `a.b`, when `a`
holds a map that has the key `b`. -/
def nestedGet (obj : GoMap) (a b : String) : Option Value :=
  match mapGet obj a with
  | some (.map m) => mapGet m b
  | _ => none

/-- The strings of a slice whose elements are all strings. -/
def stringsOf : List Value → Option (List String)
  | [] => some []
  | .str s :: rest => (stringsOf rest).map (fun l => s :: l)
  | _ :: _ => none

/-- The accessor `GetFinalizers`: the string slice at `metadata.finalizers`,
`nil` when it is missing or is not a slice of strings. -/
def GetFinalizers (o : GoMap) : List String :=
  match nestedGet o "metadata" "finalizers" with
  | some (.list vs) => (stringsOf vs).getD []
  | _ => []

/-- The built-in `delete(m, k)`. -/
def mapDelete : GoMap → String → GoMap
  | .nil, _ => .nil
  | .cons k v rest, key => if k = key then mapDelete rest key else .cons k v (mapDelete rest key)

/-- The slice that `GetFinalizers` returns, with the nil slice told apart from
the empty one: `none` is the nil slice, returned when `metadata.finalizers` is
missing or is not a slice of strings. -/
def finalizersSlice (o : GoMap) : Option (List String) :=
  match nestedGet o "metadata" "finalizers" with
  | some (.list vs) => stringsOf vs
  | _ => none

/-- The accessor `SetFinalizers`: the nil slice (`none`) removes
`metadata.finalizers`; every other slice, the empty one included, is stored
there, creating `metadata` when it is missing, and is dropped when `metadata`
is not a map (the error is ignored). -/
def SetFinalizers (o : GoMap) (finalizers : Option (List String)) : GoMap :=
  match finalizers with
  | none =>
    match mapGet o "metadata" with
    | some (.map md) => mapSet o "metadata" (.map (mapDelete md "finalizers"))
    | _ => o
  | some fs =>
    match mapGet o "metadata" with
    | some (.map md) =>
      mapSet o "metadata" (.map (mapSet md "finalizers" (.list (fs.map Value.str))))
    | some _ => o
    | none =>
      mapSet o "metadata" (.map (.cons "finalizers" (.list (fs.map Value.str)) .nil))

/-- The function `controllerutil.AddFinalizer`: the slice handed to
`SetFinalizers` is the result of an `append` and so is never nil. -/
def AddFinalizer (o : GoMap) (fin : String) : GoMap :=
  if fin ∈ GetFinalizers o then o else SetFinalizers o (some (GetFinalizers o ++ [fin]))

/-- The function `controllerutil.RemoveFinalizer`: every occurrence goes.  The
slice handed to `SetFinalizers` is nil only when `GetFinalizers` returned the
nil slice; otherwise it is the filtered slice, which may be empty and is then
stored as an empty list. -/
def RemoveFinalizer (o : GoMap) (fin : String) : GoMap :=
  SetFinalizers o ((finalizersSlice o).map (fun l => l.filter (fun e => e ≠ fin)))

/-- The accessor `GetDeletionTimestamp`: the time at
`metadata.deletionTimestamp` when that text parses as a time other than the
zero time, and `nil` otherwise.  `parseTime` is the RFC 3339 parser. -/
def GetDeletionTimestamp (parseTime : String → Option Time) (o : GoMap) : Option Time :=
  match nestedGet o "metadata" "deletionTimestamp" with
  | some (.str s) =>
    if s = "" then none
    else
      match parseTime s with
      | some t => if t = 0 then none else some t
      | none => none
  | _ => none

/-! ## Reconciler (`reconcile.go`) -/

/-- The constant `finalizer`. -/
def finalizer : String := "destroy-terraform-config"

/-- The function `contains`. -/
def contains (l : List String) (s : String) : Bool :=
  match l with
  | [] => false
  | e :: rest => if e = s then true else contains rest s

/-- The lifecycle operations of a manager. -/
inductive ManagerOp where
  | Refresh
  | Create
  | Update
  | Reconcile
  | Delete
  deriving DecidableEq, Repr

/-- What one reconcile meets outside the process: the answer of every call it
may make to the object store, the tool, the clock and the libraries.
`Update n` and `StatusUpdate n` answer the attempt number `n` of the one
resource write and the one status write of a reconcile, with an error, which
leaves the object as it was, or with the contents of the object after the call; `PollGet n` answers poll number `n`
of the deletion wait and `PollBudget` is the number of polls after the first
that fit before the five seconds are over; `Now k` is reading number `k` of
the clock; `tool op` gives the outcome of every command during the manager
operation `op`. -/
structure Cluster where
  Get : String → String → Except GoError GoMap
  Update : Nat → GoMap → Except GoError GoMap
  StatusUpdate : Nat → GoMap → Except GoError GoMap
  PollGet : Nat → Except GoError GoMap
  PollBudget : Nat
  IsNotFound : GoError → Bool
  IsConflict : GoError → Bool
  Now : Nat → Time
  tool : ManagerOp → Runner
  parseTime : String → Option Time
  parseInto : String → GoMap → Except GoError GoMap
  fromUnstructured : GoMap → Except GoError TFConfigStatus

/-- What a reconcile does that can be seen from outside, in order. -/
inductive Event where
  | get : Event
  | newManager : Event
  | op : ManagerOp → Option GoError → Event
  | eventf : String → String → Event
  | writeResource : GoMap → Option GoError → Event
  | writeStatus : GoMap → TFConfigStatus → Option GoError → Event

/-- The manager operations of a trace, in order. -/
def opsOf : List Event → List ManagerOp
  | [] => []
  | .op o _ :: rest => o :: opsOf rest
  | _ :: rest => opsOf rest

/-- The objects of a trace handed to `Client.Update`, with the error of each
attempt. -/
def resourceWrites : List Event → List (GoMap × Option GoError)
  | [] => []
  | .writeResource o err :: rest => (o, err) :: resourceWrites rest
  | _ :: rest => resourceWrites rest

/-- The statuses of a trace handed to `Client.Status().Update`, with the error
of each attempt. -/
def statusWrites : List Event → List (TFConfigStatus × Option GoError)
  | [] => []
  | .writeStatus _ st err :: rest => (st, err) :: statusWrites rest
  | _ :: rest => statusWrites rest

/-- The object of the first resource write of a trace that succeeded. -/
def persistedResource (trace : List Event) : Option GoMap :=
  ((resourceWrites trace).find? (fun p => p.2.isNone)).map (fun p => p.1)

/-- The status of the first status write of a trace that succeeded. -/
def persistedStatus (trace : List Event) : Option TFConfigStatus :=
  ((statusWrites trace).find? (fun p => p.2.isNone)).map (fun p => p.1)

/-- Whether a trace builds a manager. -/
def buildsManager : List Event → Bool
  | [] => false
  | .newManager :: _ => true
  | _ :: rest => buildsManager rest

/-- The struct `reconcile.Result`; durations are in nanoseconds. -/
structure Result where
  Requeue : Bool := false
  RequeueAfter : Int := 0
  deriving DecidableEq, Repr

/-- The struct `reconcile.Request`. -/
structure Request where
  Namespace : String
  Name : String
  deriving DecidableEq, Repr

/-- The fields of `TerraformReconciler` that are data; the client, the event
recorder and the manager factory are in the `Cluster`. -/
structure TerraformReconciler where
  GVK : GroupVersionKind
  ReconcilePeriod : Int
  OverrideValues : Option StrMap

/-- What a reconcile returns, and the trace of what it did. -/
structure Outcome where
  result : Result
  err : Option GoError
  trace : List Event

/-- The outcome of a write with retries: the returned error, the object after
the last attempt, and the attempts made. -/
structure WriteOutcome where
  err : Option GoError
  o : GoMap
  events : List Event

/-- The function `retry.RetryOnConflict` around `Client.Update`: attempt number
`n`, with `more` attempts left after it.  A conflict is retried while attempts
are left; the last conflict is returned when none is left. -/
def updateResourceLoop (c : Cluster) : Nat → Nat → GoMap → WriteOutcome
  | 0, n, o =>
    match c.Update n o with
    | .ok o1 => ⟨none, o1, [.writeResource o none]⟩
    | .error e => ⟨some e, o, [.writeResource o (some e)]⟩
  | more + 1, n, o =>
    match c.Update n o with
    | .ok o1 => ⟨none, o1, [.writeResource o none]⟩
    | .error e =>
      if c.IsConflict e then
        ⟨(updateResourceLoop c more (n + 1) o).err, (updateResourceLoop c more (n + 1) o).o,
         .writeResource o (some e) :: (updateResourceLoop c more (n + 1) o).events⟩
      else ⟨some e, o, [.writeResource o (some e)]⟩

/-- The method `updateResource`: `retry.DefaultBackoff` allows four attempts. -/
def updateResource (c : Cluster) (o : GoMap) : WriteOutcome :=
  updateResourceLoop c 3 0 o

/-- The function `retry.RetryOnConflict` around the body of
`updateResourceStatus`, which stores the status pointer under `"status"` and
calls `Client.Status().Update`. -/
def updateResourceStatusLoop (c : Cluster) (status : TFConfigStatus) :
    Nat → Nat → GoMap → WriteOutcome
  | 0, n, o =>
    match c.StatusUpdate n (mapSet o "status" (.status status)) with
    | .ok o1 => ⟨none, o1, [.writeStatus (mapSet o "status" (.status status)) status none]⟩
    | .error e =>
      ⟨some e, mapSet o "status" (.status status),
       [.writeStatus (mapSet o "status" (.status status)) status (some e)]⟩
  | more + 1, n, o =>
    match c.StatusUpdate n (mapSet o "status" (.status status)) with
    | .ok o1 => ⟨none, o1, [.writeStatus (mapSet o "status" (.status status)) status none]⟩
    | .error e =>
      if c.IsConflict e then
        ⟨(updateResourceStatusLoop c status more (n + 1)
            (mapSet o "status" (.status status))).err,
         (updateResourceStatusLoop c status more (n + 1)
            (mapSet o "status" (.status status))).o,
         .writeStatus (mapSet o "status" (.status status)) status (some e) ::
           (updateResourceStatusLoop c status more (n + 1)
            (mapSet o "status" (.status status))).events⟩
      else
        ⟨some e, mapSet o "status" (.status status),
         [.writeStatus (mapSet o "status" (.status status)) status (some e)]⟩

/-- The method `updateResourceStatus`. -/
def updateResourceStatus (c : Cluster) (o : GoMap) (status : TFConfigStatus) : WriteOutcome :=
  updateResourceStatusLoop c status 3 0 o

/-- The error `wait.ErrWaitTimeout`. -/
def ErrWaitTimeout : GoError := .msg "timed out waiting for the condition"

/-- The poll of `waitForDeletion`: poll number `n` with `budget` polls left
after it.  A poll that finds the resource gone ends the wait with success, a
poll that fails otherwise ends it with that error, and the wait times out when
the resource is still there and no poll is left. -/
def waitLoop (c : Cluster) : Nat → Nat → Option GoError × List Event
  | 0, n =>
    match c.PollGet n with
    | .error e => if c.IsNotFound e then (none, [.get]) else (some e, [.get])
    | .ok _ => (some ErrWaitTimeout, [.get])
  | budget + 1, n =>
    match c.PollGet n with
    | .error e => if c.IsNotFound e then (none, [.get]) else (some e, [.get])
    | .ok _ => ((waitLoop c budget (n + 1)).1, .get :: (waitLoop c budget (n + 1)).2)

/-- The method `waitForDeletion`. -/
def waitForDeletion (c : Cluster) : Option GoError × List Event :=
  waitLoop c c.PollBudget 0

/-- Whether `StatusFor` returns the very pointer stored in the object, so that
a change made through the returned status is seen in the object too. -/
def statusAliased (o : GoMap) : Bool :=
  match mapGet o "status" with
  | some (.status _) => true
  | _ => false

/-- The object after a change made through a status pointer: when the pointer
is the one stored in the object, the object shows the changed status. -/
def syncStatus (aliased : Bool) (o : GoMap) (status : TFConfigStatus) : GoMap :=
  if aliased then mapSet o "status" (.status status) else o

/-- The `Eventf` calls of the `range r.OverrideValues` loop. -/
def overrideEvents (r : TerraformReconciler) : List Event :=
  (r.OverrideValues.getD []).map (fun kv => Event.eventf kv.1 kv.2)

/-- An outcome with the events that came before it put in front. -/
def Outcome.after (pre : List Event) (out : Outcome) : Outcome :=
  { out with trace := pre ++ out.trace }

/-- The method `deleteHandler`.  On the deletion path its `SetCondition` takes
the first reading of the clock. -/
def deleteHandler (c : Cluster) (_r : TerraformReconciler) (o : GoMap) (m : manager) : Outcome :=
  let status := StatusFor c.fromUnstructured o
  if !contains (GetFinalizers o) finalizer then ⟨{}, none, []⟩
  else
    match (manager.Delete m (c.tool .Delete)).2 with
    | some err =>
      let status1 := status.SetCondition (c.Now 0)
        ⟨ConditionConfigFailed, StatusTrue, ReasonDeleteError, err.Error, 0⟩
      let w := updateResourceStatus c o status1
      ⟨{}, some err, .op .Delete (some err) :: w.events⟩
    | none =>
      let status1 := status.RemoveCondition ConditionConfigFailed
      let status2 := status1.SetCondition (c.Now 0)
        ⟨ConditionDeployed, StatusFalse, ReasonDeleteSuccessful, "", 0⟩
      let status3 : TFConfigStatus := { status2 with DeployedConfig := none }
      let w := updateResourceStatus c o status3
      match w.err with
      | some e => ⟨{}, some e, .op .Delete none :: w.events⟩
      | none =>
        let u := updateResource c (RemoveFinalizer w.o finalizer)
        match u.err with
        | some e => ⟨{}, some e, .op .Delete none :: (w.events ++ u.events)⟩
        | none =>
          let p := waitForDeletion c
          ⟨{}, p.1, .op .Delete none :: (w.events ++ u.events ++ p.2)⟩

/-- The method `createHandler`.  It runs after the first reading of the clock,
so its `SetCondition` takes reading number one. -/
def createHandler (c : Cluster) (r : TerraformReconciler) (o : GoMap) (m : manager) : Outcome :=
  let status := StatusFor c.fromUnstructured o
  match (manager.Create m (c.tool .Create)).2 with
  | some err =>
    let status1 := status.SetCondition (c.Now 1)
      ⟨ConditionConfigFailed, StatusTrue, ReasonCreateError, err.Error, 0⟩
    let w := updateResourceStatus c o status1
    ⟨{}, some err, overrideEvents r ++ .op .Create (some err) :: w.events⟩
  | none =>
    let status1 := status.RemoveCondition ConditionConfigFailed
    let o1 := AddFinalizer (syncStatus (statusAliased o) o status1) finalizer
    let u := updateResource c o1
    match u.err with
    | some e => ⟨{}, some e, overrideEvents r ++ .op .Create none :: u.events⟩
    | none =>
      let status2 := status1.SetCondition (c.Now 1)
        ⟨ConditionDeployed, StatusTrue, ReasonCreateSuccessful, "", 0⟩
      let w := updateResourceStatus c u.o status2
      ⟨{ RequeueAfter := r.ReconcilePeriod }, w.err,
       overrideEvents r ++ .op .Create none :: (u.events ++ w.events)⟩

/-- The method `updateHandler`; its `SetCondition` takes reading number one of
the clock. -/
def updateHandler (c : Cluster) (r : TerraformReconciler) (o : GoMap) (m : manager) : Outcome :=
  let status := StatusFor c.fromUnstructured o
  match (manager.Update m (c.tool .Update)).2 with
  | some err =>
    let status1 := status.SetCondition (c.Now 1)
      ⟨ConditionConfigFailed, StatusTrue, ReasonUpdateError, err.Error, 0⟩
    let w := updateResourceStatus c o status1
    ⟨{}, some err, overrideEvents r ++ .op .Update (some err) :: w.events⟩
  | none =>
    let status1 := status.RemoveCondition ConditionConfigFailed
    let status2 := status1.SetCondition (c.Now 1)
      ⟨ConditionDeployed, StatusTrue, ReasonUpdateSuccessful, "Configuration change updated", 0⟩
    let w := updateResourceStatus c o status2
    ⟨{ RequeueAfter := r.ReconcilePeriod }, w.err,
     overrideEvents r ++ .op .Update none :: w.events⟩

/-- The end of `Reconcile`, from the check of `IsUpdateRequired` on: the update
handler, or the steady state with the `Reconcile` hook.  `status` is the status
variable of `Reconcile` at that point. -/
def reconcileTail (c : Cluster) (r : TerraformReconciler) (o : GoMap) (m : manager)
    (status : TFConfigStatus) : Outcome :=
  if m.IsUpdateRequired then updateHandler c r o m
  else
    let status1 := status.RemoveCondition ConditionConfigFailed
    match (manager.Reconcile m (c.tool .Reconcile)).2 with
    | some err =>
      let status2 := status1.SetCondition (c.Now 1)
        ⟨ConditionIrreconcilable, StatusTrue, ReasonReconcileError, err.Error, 0⟩
      let w := updateResourceStatus c o status2
      ⟨{}, some err, .op .Reconcile (some err) :: w.events⟩
    | none =>
      let status2 := status1.RemoveCondition ConditionIrreconcilable
      let status3 := status2.SetCondition (c.Now 1)
        ⟨ConditionDeployed, StatusTrue, ReasonUpdateSuccessful, "", 0⟩
      let w := updateResourceStatus c o status3
      ⟨{ RequeueAfter := r.ReconcilePeriod }, w.err, .op .Reconcile none :: w.events⟩

/-- The part of `Reconcile` for a resource that is not being deleted, from
`StatusFor` on.  When `StatusFor` returns the pointer stored in the object,
what `Reconcile` changes through it shows in the object it passes on. -/
def reconcileActive (c : Cluster) (r : TerraformReconciler) (o : GoMap) (m : manager) :
    Outcome :=
  let status := StatusFor c.fromUnstructured o
  let status1 := status.SetCondition (c.Now 0) ⟨ConditionInitialized, StatusTrue, "", "", 0⟩
  match manager.Refresh m (c.tool .Refresh) with
  | (_, some err) =>
    let status2 := status1.SetCondition (c.Now 1)
      ⟨ConditionIrreconcilable, StatusTrue, ReasonReconcileError, err.Error, 0⟩
    let w := updateResourceStatus c o status2
    ⟨{}, some err, .op .Refresh (some err) :: w.events⟩
  | (m1, none) =>
    let status2 := status1.RemoveCondition ConditionIrreconcilable
    let o1 := syncStatus (statusAliased o) o status2
    if !m1.Exists then (createHandler c r o1 m1).after [.op .Refresh none]
    else if !contains (GetFinalizers o1) finalizer then
      let u := updateResource c (AddFinalizer o1 finalizer)
      match u.err with
      | some e => ⟨{}, some e, .op .Refresh none :: u.events⟩
      | none => (reconcileTail c r u.o m1 status2).after (.op .Refresh none :: u.events)
    else (reconcileTail c r o1 m1 status2).after [.op .Refresh none]

/-- The method `TerraformReconciler.Reconcile`.  The factory is the one of
`manager_factory.go`, which returns a manager whenever it returns no error. -/
def Reconcile (c : Cluster) (r : TerraformReconciler) (request : Request) : Outcome :=
  match c.Get request.Namespace request.Name with
  | .error e => if c.IsNotFound e then ⟨{}, none, [.get]⟩ else ⟨{}, some e, [.get]⟩
  | .ok o =>
    match NewManager c.parseInto c.fromUnstructured o r.OverrideValues with
    | (_, some err) => ⟨{}, some err, [.get, .newManager]⟩
    | (none, none) => ⟨{}, some (.msg "nil manager"), [.get, .newManager]⟩
    | (some m, none) =>
      if (GetDeletionTimestamp c.parseTime o).isSome then
        (deleteHandler c r o m).after [.get, .newManager]
      else (reconcileActive c r o m).after [.get, .newManager]

/-! ## Sample inputs -/

/-- A cluster in which the store holds `o`, every write succeeds and gives the
object back unchanged, the resource is gone at the first poll, the tool behaves
as `tool` says, and the only not-found error is `not found`. -/
def sampleCluster (o : GoMap) (tool : ManagerOp → Runner) : Cluster where
  Get := fun _ _ => .ok o
  Update := fun _ obj => .ok obj
  StatusUpdate := fun _ obj => .ok obj
  PollGet := fun _ => .error (.msg "not found")
  PollBudget := 0
  IsNotFound := fun e => decide (e = .msg "not found")
  IsConflict := fun _ => false
  Now := fun k => 100 + k
  tool := tool
  parseTime := fun s => if s = "" then none else some 1
  parseInto := fun _ out => .ok out
  fromUnstructured := fun _ => .ok {}

/-- A reconciler with a period of one minute and no override values. -/
def sampleReconciler : TerraformReconciler :=
  ⟨⟨"example.com", "v1", "Config"⟩, 60000000000, none⟩

/-- A resource that is being deleted, has no finalizer and has no `spec`. -/
def deletingWithoutSpec : GoMap :=
  .cons "metadata"
    (.map (.cons "name" (.str "x") (.cons "deletionTimestamp" (.str "2021-01-01T00:00:00Z") .nil)))
    .nil

/-- A resource that is being deleted, has the finalizer and has no `spec`. -/
def deletingWithFinalizerWithoutSpec : GoMap :=
  .cons "metadata"
    (.map (.cons "name" (.str "x")
      (.cons "deletionTimestamp" (.str "2021-01-01T00:00:00Z")
        (.cons "finalizers" (.list [.str "destroy-terraform-config"]) .nil))))
    .nil

/-- A resource that is being deleted, has the finalizer and an empty `spec`. -/
def deletingWithFinalizer : GoMap :=
  .cons "metadata"
    (.map (.cons "name" (.str "x")
      (.cons "deletionTimestamp" (.str "2021-01-01T00:00:00Z")
        (.cons "finalizers" (.list [.str "destroy-terraform-config"]) .nil))))
    (.cons "spec" (.map .nil) .nil)

/-- A resource that is being deleted, has no finalizer and an empty `spec`. -/
def deletingWithoutFinalizer : GoMap :=
  .cons "metadata"
    (.map (.cons "name" (.str "x") (.cons "deletionTimestamp" (.str "2021-01-01T00:00:00Z") .nil)))
    (.cons "spec" (.map .nil) .nil)

/-- A fresh resource: a name, an empty `spec`, nothing else. -/
def freshResource : GoMap :=
  .cons "metadata" (.map (.cons "name" (.str "x") .nil)) (.cons "spec" (.map .nil) .nil)

/-- A tool for a deployment that does not exist yet: the state inspection
fails and every other command succeeds. -/
def freshTool : ManagerOp → Runner :=
  fun _ cmd => if cmd = ["terraform", "state", "list"] then .exited 1 else .exited 0

/-- A tool whose every command succeeds. -/
def okTool : ManagerOp → Runner := fun _ _ => .exited 0

/-- A cluster whose store does not hold the requested resource. -/
def absentCluster : Cluster :=
  { sampleCluster .nil okTool with Get := fun _ _ => .error (.msg "not found") }

/-- The request used in the samples. -/
def sampleRequest : Request := ⟨"ns", "x"⟩

/-- The manager that the factory builds for the sample resources: the name
`x`, no namespace, no values, an empty status. -/
def sampleManager : manager := ⟨"x", "", .nil, {}, false, false⟩

/-- A cluster that holds `deletingWithFinalizer` and in which everything
succeeds. -/
def deletingCluster : Cluster := sampleCluster deletingWithFinalizer okTool

/-- A cluster that holds `freshResource` and whose tool reports that the
deployment does not exist. -/
def freshCluster : Cluster := sampleCluster freshResource freshTool

/-! ## Auxiliary functions on traces and statuses, used to state facts about the reconciler -/

/-- The manager operations of a trace with the error each returned, in order. -/
def opResults : List Event → List (ManagerOp × Option GoError)
  | [] => []
  | .op o err :: rest => (o, err) :: opResults rest
  | _ :: rest => opResults rest

/-- The events of a trace that come before the first invocation of the manager
operation `op`; the whole trace when `op` is never invoked. -/
def untilOp (op : ManagerOp) : List Event → List Event
  | [] => []
  | .op o err :: rest => if o = op then [] else .op o err :: untilOp op rest
  | e :: rest => e :: untilOp op rest

/-- A status holds, as its first condition of type `t`, a condition with the
given status value, reason and message. -/
def holdsCondition (st : TFConfigStatus) (t s r msg : String) : Prop :=
  ∃ time, st.Conditions.find? (fun x => x.CondType == t) = some ⟨t, s, r, msg, time⟩

/-- The status variable of `Reconcile` after a successful `Refresh`: the status
of the object with `Initialized` set and `Irreconcilable` removed. -/
def activeStatus (c : Cluster) (o : GoMap) : TFConfigStatus :=
  ((StatusFor c.fromUnstructured o).SetCondition (c.Now 0)
    ⟨ConditionInitialized, StatusTrue, "", "", 0⟩).RemoveCondition ConditionIrreconcilable

/-- The object of `Reconcile` after a successful `Refresh`. -/
def activeObject (c : Cluster) (o : GoMap) : GoMap :=
  syncStatus (statusAliased o) o (activeStatus c o)

/-- The end of `Reconcile` after the `manager.Reconcile` hook has returned
`hookErr`; `status` is the status variable at that point. -/
def afterReconcileHook (c : Cluster) (r : TerraformReconciler) (o : GoMap)
    (status : TFConfigStatus) (hookErr : Option GoError) : Outcome :=
  match hookErr with
  | some err =>
    let status2 := status.SetCondition (c.Now 1)
      ⟨ConditionIrreconcilable, StatusTrue, ReasonReconcileError, err.Error, 0⟩
    let w := updateResourceStatus c o status2
    ⟨{}, some err, .op .Reconcile (some err) :: w.events⟩
  | none =>
    let status2 := status.RemoveCondition ConditionIrreconcilable
    let status3 := status2.SetCondition (c.Now 1)
      ⟨ConditionDeployed, StatusTrue, ReasonUpdateSuccessful, "", 0⟩
    let w := updateResourceStatus c o status3
    ⟨{ RequeueAfter := r.ReconcilePeriod }, w.err, .op .Reconcile none :: w.events⟩

/-- The conditions of a stored status map: the `type`, `status`, `reason` and
`message` of every entry of a list of maps. -/
def sampleConditions : List Value → List TFConfigCondition
  | [] => []
  | .map m :: rest =>
    ⟨match mapGet m "type" with | some (.str s) => s | _ => "",
     match mapGet m "status" with | some (.str s) => s | _ => "",
     match mapGet m "reason" with | some (.str s) => s | _ => "",
     match mapGet m "message" with | some (.str s) => s | _ => "", 0⟩ :: sampleConditions rest
  | _ :: rest => sampleConditions rest

/-- A converter for the samples: it reads the `conditions` of a stored status
map and leaves the deployed-config record out. -/
def sampleConverter (m : GoMap) : Except GoError TFConfigStatus :=
  match mapGet m "conditions" with
  | some (.list vs) => .ok ⟨sampleConditions vs, none⟩
  | _ => .ok {}

/-- A tool for a deployment that exists and needs an update: the plan exits
with status two and every other command succeeds. -/
def updateTool : ManagerOp → Runner :=
  fun _ cmd => if cmd = ["terraform", "plan", "--detailed-exitcode"] then .exited 2 else .exited 0

/-- A cluster that holds `freshResource`, whose deployment exists and needs an
update, and whose store refuses every resource write. -/
def readOnlyCluster : Cluster :=
  { sampleCluster freshResource updateTool with
    Update := fun _ _ => .error (.msg "store unavailable") }

/-- A resource with the finalizer, an empty `spec`, and a stored status that
holds an `Irreconcilable` condition. -/
def irreconcilableResource : GoMap :=
  .cons "metadata"
    (.map (.cons "name" (.str "x")
      (.cons "finalizers" (.list [.str "destroy-terraform-config"]) .nil)))
    (.cons "spec" (.map .nil)
      (.cons "status"
        (.map (.cons "conditions"
          (.list [.map (.cons "type" (.str "Irreconcilable")
            (.cons "status" (.str "True")
              (.cons "reason" (.str "ReconcileError")
                (.cons "message" (.str "exit status 1") .nil))))]) .nil)) .nil))

/-- A cluster that holds `irreconcilableResource`, reads stored statuses with
`sampleConverter`, and whose deployment exists and needs an update. -/
def recoveredCluster : Cluster :=
  { sampleCluster irreconcilableResource updateTool with fromUnstructured := sampleConverter }

/-- A cluster that holds `freshResource`, whose deployment exists and needs an
update, and in which every write succeeds. -/
def updateCluster : Cluster := sampleCluster freshResource updateTool

/-- A cluster that holds `freshResource` and whose tool fails every command. -/
def brokenCluster : Cluster := sampleCluster freshResource (fun _ => failingTool)

/-- A cluster that holds `freshResource`, whose deployment exists and needs no
update. -/
def steadyCluster : Cluster := sampleCluster freshResource okTool


/-- An outcome reports the failure `err` under the condition type `t` and the
reason `reason`: it returns `err` with the empty result, it attempts a status
write, and every status handed to a status write holds `t` with status `True`,
that reason and the text of `err` as message. -/
def reportsFailure (out : Outcome) (t reason : String) (err : GoError) : Prop :=
  out.err = some err ∧ out.result = {} ∧ statusWrites out.trace ≠ [] ∧
    ∀ p ∈ statusWrites out.trace, holdsCondition p.1 t StatusTrue reason err.Error


/-- A tool for a deployment that does not exist yet and cannot be created: the
state inspection and the apply run fail, the plan run succeeds. -/
def createFailsTool : ManagerOp → Runner :=
  fun _ cmd => if cmd = ["terraform", "plan", "--detailed-exitcode"] then .exited 0 else .exited 1

/-- A tool for a deployment that exists and needs an update that fails: the
plan run exits with two and the apply run fails. -/
def updateFailsTool : ManagerOp → Runner :=
  fun _ cmd =>
    if cmd = ["terraform", "plan", "--detailed-exitcode"] then .exited 2
    else if cmd = ["terraform", "apply", "-auto-approve"] then .exited 1
    else .exited 0

/-- A cluster that holds `freshResource` and in which `Create` fails. -/
def createFailsCluster : Cluster := sampleCluster freshResource createFailsTool

/-- A cluster that holds `freshResource` and in which `Update` fails. -/
def updateFailsCluster : Cluster := sampleCluster freshResource updateFailsTool

/-- A cluster that holds `deletingWithFinalizer` and in which `Delete` fails. -/
def deleteFailsCluster : Cluster := sampleCluster deletingWithFinalizer (fun _ => failingTool)


/-- A stored status map that holds two `ConfigFailed` conditions. -/
def twiceFailedStatus : Value :=
  .map (.cons "conditions"
    (.list [.map (.cons "type" (.str "ConfigFailed")
              (.cons "status" (.str "True")
                (.cons "reason" (.str "CreateError")
                  (.cons "message" (.str "first") .nil)))),
            .map (.cons "type" (.str "ConfigFailed")
              (.cons "status" (.str "True")
                (.cons "reason" (.str "UpdateError")
                  (.cons "message" (.str "second") .nil))))]) .nil)

/-- A resource without finalizer, with an empty `spec` and a stored status that
holds two `ConfigFailed` conditions. -/
def twiceFailedResource : GoMap :=
  .cons "metadata" (.map (.cons "name" (.str "x") .nil))
    (.cons "spec" (.map .nil) (.cons "status" twiceFailedStatus .nil))

/-- A resource that is being deleted, has the finalizer, an empty `spec` and a
stored status that holds two `ConfigFailed` conditions. -/
def twiceFailedDeleting : GoMap :=
  .cons "metadata"
    (.map (.cons "name" (.str "x")
      (.cons "deletionTimestamp" (.str "2021-01-01T00:00:00Z")
        (.cons "finalizers" (.list [.str "destroy-terraform-config"]) .nil))))
    (.cons "spec" (.map .nil) (.cons "status" twiceFailedStatus .nil))

/-- A cluster in which everything succeeds and which reads stored statuses with
`sampleConverter`. -/
def convertingCluster (o : GoMap) (tool : ManagerOp → Runner) : Cluster :=
  { sampleCluster o tool with fromUnstructured := sampleConverter }

/-- A cluster that holds `freshResource`, whose deployment exists and needs no
update, and whose store refuses every resource write. -/
def readOnlySteadyCluster : Cluster :=
  { sampleCluster freshResource okTool with
    Update := fun _ _ => .error (.msg "store unavailable") }

/-- A cluster that holds `freshResource`, whose deployment exists and needs no
update, and whose store refuses every status write. -/
def statusReadOnlyCluster : Cluster :=
  { sampleCluster freshResource okTool with
    StatusUpdate := fun _ _ => .error (.msg "store unavailable") }

end Terraform

namespace Terraform

/-! ## Watch registry: lemmas -/

theorem verifyGVK_ne_none_iff (gvk : GroupVersionKind) :
    verifyGVK gvk ≠ none ↔ gvk.Version = "" ∨ gvk.Kind = "" := by
  unfold verifyGVK
  by_cases hv : gvk.Version = ""
  · simp [hv]
  · by_cases hk : gvk.Kind = ""
    · simp [hv, hk]
    · simp [hv, hk]

theorem verifyGVK_eq_none_iff (gvk : GroupVersionKind) :
    verifyGVK gvk = none ↔ gvk.Version ≠ "" ∧ gvk.Kind ≠ "" := by
  have h := verifyGVK_ne_none_iff gvk
  constructor
  · intro h0
    by_contra hc
    exact (h.2 (by tauto)) h0
  · intro h0
    by_contra hc
    have := h.1 hc
    tauto

theorem loadLoop_err_nil (env : Env) (todo : List Watch) :
    ∀ (seen : List GroupVersionKind) (done : List Watch),
      (loadLoop env seen done todo).2 ≠ none → (loadLoop env seen done todo).1 = none := by
  induction todo with
  | nil => intro seen done h; simp [loadLoop] at h
  | cons w todo ih =>
    intro seen done h
    unfold loadLoop at h ⊢
    cases hv : verifyGVK w.GVK with
    | some err => simp
    | none =>
      simp only [hv] at h ⊢
      by_cases hm : w.GVK ∈ seen
      · simp [hm]
      · simp only [hm, if_false] at h ⊢
        exact ih _ _ h

theorem loadLoop_fails_iff (env : Env) (todo : List Watch) :
    ∀ (seen : List GroupVersionKind) (done : List Watch),
      (loadLoop env seen done todo).2 ≠ none ↔
        ((∃ w ∈ todo, w.GVK.Version = "" ∨ w.GVK.Kind = "") ∨
          (∃ w ∈ todo, w.GVK ∈ seen) ∨ ¬ (todo.map Watch.GVK).Nodup) := by
  induction todo with
  | nil => intro seen done; simp [loadLoop]
  | cons w todo ih =>
    intro seen done
    unfold loadLoop
    cases hv : verifyGVK w.GVK with
    | some err =>
      have hbad : w.GVK.Version = "" ∨ w.GVK.Kind = "" :=
        (verifyGVK_ne_none_iff w.GVK).1 (by simp [hv])
      simp only [ne_eq, reduceCtorEq, not_false_eq_true, true_iff]
      exact Or.inl ⟨w, List.mem_cons_self _ _, hbad⟩
    | none =>
      have hgood := (verifyGVK_eq_none_iff w.GVK).1 hv
      by_cases hm : w.GVK ∈ seen
      · simp only [hm, if_true, ne_eq, reduceCtorEq, not_false_eq_true, true_iff]
        exact Or.inr (Or.inl ⟨w, List.mem_cons_self _ _, hm⟩)
      · simp only [hm, if_false]
        rw [ih]
        simp only [List.mem_cons, List.map_cons, List.nodup_cons, List.mem_map]
        constructor
        · rintro (⟨x, hx, hb⟩ | ⟨x, hx, hs⟩ | hnd)
          · exact Or.inl ⟨x, Or.inr hx, hb⟩
          · rcases hs with hs | hs
            · exact Or.inr (Or.inr (fun hc => hc.1 ⟨x, hx, hs⟩))
            · exact Or.inr (Or.inl ⟨x, Or.inr hx, hs⟩)
          · exact Or.inr (Or.inr (fun hc => hnd hc.2))
        · rintro (⟨x, hx, hb⟩ | ⟨x, hx, hs⟩ | hnd)
          · rcases hx with rfl | hx
            · exact absurd hb (by tauto)
            · exact Or.inl ⟨x, hx, hb⟩
          · rcases hx with rfl | hx
            · exact absurd hs hm
            · exact Or.inr (Or.inl ⟨x, hx, Or.inr hs⟩)
          · by_cases hin : ∃ a ∈ todo, a.GVK = w.GVK
            · obtain ⟨a, ha, hae⟩ := hin
              exact Or.inr (Or.inl ⟨a, ha, Or.inl hae⟩)
            · exact Or.inr (Or.inr (fun hc => hnd ⟨hin, hc⟩))

theorem loadLoop_ok (env : Env) (todo : List Watch) :
    ∀ (seen : List GroupVersionKind) (done : List Watch),
      (loadLoop env seen done todo).2 = none →
        loadLoop env seen done todo =
          (some (done ++ todo.map (fun w => { w with
            WatchDependentResources :=
              if w.WatchDependentResources = none then some true else w.WatchDependentResources
            OverrideValues := expandOverrideEnvs env w.OverrideValues })), none) := by
  induction todo with
  | nil => intro seen done _; simp [loadLoop]
  | cons w todo ih =>
    intro seen done h
    unfold loadLoop at h ⊢
    cases hv : verifyGVK w.GVK with
    | some err => simp [hv] at h
    | none =>
      simp only [hv] at h ⊢
      by_cases hm : w.GVK ∈ seen
      · simp [hm] at h
      · simp only [hm, if_false] at h ⊢
        rw [ih _ _ h]
        simp

theorem nodup_map_iff_index (ws : List Watch) :
    ¬ (ws.map Watch.GVK).Nodup ↔
      ∃ i j : Nat, i < j ∧ ∃ a b, ws[i]? = some a ∧ ws[j]? = some b ∧ a.GVK = b.GVK := by
  rw [List.nodup_iff_getElem?_ne_getElem?]
  push_neg
  constructor
  · rintro ⟨i, j, hij, hj, he⟩
    simp only [List.length_map] at hj
    have hi : i < ws.length := lt_trans hij hj
    refine ⟨i, j, hij, ws[i], ws[j], by simp [hi], by simp [hj], ?_⟩
    simpa [List.getElem?_map, hi, hj] using he
  · rintro ⟨i, j, hij, a, b, ha, hb, he⟩
    have hj : j < ws.length := by
      by_contra hc
      simp [List.getElem?_eq_none (not_lt.1 hc)] at hb
    refine ⟨i, j, hij, by simpa using hj, ?_⟩
    simp [List.getElem?_map, ha, hb, he]

/-! ## Watch registry: statements -/

/-- C1: `LoadReader` on decoded entries fails exactly when some entry has an
empty version or an empty kind, or some entry repeats the triple of an earlier
entry; a single entry with empty group, non-empty version and kind is
accepted; and every failure, a decoding failure included, returns a `nil`
list. -/
theorem LoadReader_fails_iff (env : Env) (ws : List Watch) :
    ((LoadReader env (.ok ws)).2 ≠ none ↔
        ((∃ w ∈ ws, w.GVK.Version = "" ∨ w.GVK.Kind = "") ∨
          ∃ i j : Nat, i < j ∧ ∃ a b, ws[i]? = some a ∧ ws[j]? = some b ∧ a.GVK = b.GVK)) ∧
      (∀ w : Watch, w.GVK.Group = "" → w.GVK.Version ≠ "" → w.GVK.Kind ≠ "" →
        (LoadReader env (.ok [w])).2 = none) ∧
      (∀ decoded, (LoadReader env decoded).2 ≠ none → (LoadReader env decoded).1 = none) := by
  refine ⟨?_, ?_, ?_⟩
  · unfold LoadReader
    rw [loadLoop_fails_iff, ← nodup_map_iff_index]
    simp
  · intro w _ hv hk
    by_contra hc
    have h := (loadLoop_fails_iff env [w] [] []).1 hc
    simp at h
    tauto
  · intro decoded h
    cases decoded with
    | error err => rfl
    | ok ws1 => exact loadLoop_err_nil env ws1 [] [] h

/-- C2: when `LoadReader` accepts the entries it returns a list that matches
the input entry by entry (same length, same order): each result keeps the
triple and the template location of its input, and its
`watchDependentResources` is `true` when the input left it unset and the
input value otherwise. -/
theorem LoadReader_accepts (env : Env) (ws : List Watch)
    (h : (LoadReader env (.ok ws)).2 = none) :
    ∃ out, LoadReader env (.ok ws) = (some out, none) ∧ out.length = ws.length ∧
      List.Forall₂ (fun w o => o.GVK = w.GVK ∧ o.TemplateDir = w.TemplateDir ∧
        (w.WatchDependentResources = none → o.WatchDependentResources = some true) ∧
        (∀ b, w.WatchDependentResources = some b → o.WatchDependentResources = some b))
        ws out := by
  unfold LoadReader at h ⊢
  refine ⟨_, loadLoop_ok env ws [] [] h, by simp, ?_⟩
  simp only [List.nil_append, List.forall₂_map_right_iff]
  apply List.forall₂_same.2
  intro w _
  refine ⟨rfl, rfl, ?_, ?_⟩
  · intro hn; simp [hn]
  · intro b hb; simp [hb]

/-- Witness for C2: two accepted entries, one with the flag unset and one with
the flag set to `false`. -/
theorem LoadReader_accepts_witness :
    ∃ out, LoadReader (fun _ => none)
        (.ok [Watch.mk ⟨"", "v1", "A"⟩ "t" none none, Watch.mk ⟨"g", "v1", "A"⟩ "u" (some false) none]) =
          (some out, none) ∧ out.length = 2 ∧
      List.Forall₂ (fun (w o : Watch) => o.GVK = w.GVK ∧ o.TemplateDir = w.TemplateDir ∧
        (w.WatchDependentResources = none → o.WatchDependentResources = some true) ∧
        (∀ b, w.WatchDependentResources = some b → o.WatchDependentResources = some b))
        [Watch.mk ⟨"", "v1", "A"⟩ "t" none none, Watch.mk ⟨"g", "v1", "A"⟩ "u" (some false) none] out :=
  LoadReader_accepts (fun _ => none)
    [Watch.mk ⟨"", "v1", "A"⟩ "t" none none, Watch.mk ⟨"g", "v1", "A"⟩ "u" (some false) none]
    (by decide)

end Terraform

namespace Terraform

/-! ## Override values: lemmas -/

theorem strMapSet_append_new (m : StrMap) (k v : String) (h : k ∉ m.map Prod.fst) :
    strMapSet m k v = m ++ [(k, v)] := by
  induction m with
  | nil => rfl
  | cons e rest ih =>
    obtain ⟨k1, v1⟩ := e
    simp only [List.map_cons, List.mem_cons, not_or] at h
    have hne : ¬ k1 = k := fun hc => h.1 hc.symm
    simp [strMapSet, hne, ih h.2]

theorem expandLoop_eq (f : String → String) (l : StrMap) :
    ∀ acc : StrMap, ((acc ++ l).map Prod.fst).Nodup →
      l.foldl (fun out kv => strMapSet out kv.1 (f kv.2)) acc =
        acc ++ l.map (fun kv => (kv.1, f kv.2)) := by
  induction l with
  | nil => intro acc _; simp
  | cons e rest ih =>
    intro acc h
    have hk : e.1 ∉ acc.map Prod.fst := by
      simp only [List.map_append, List.map_cons] at h
      have h2 := (List.nodup_append.1 h).2.2
      intro hc
      exact h2 hc (List.mem_cons_self _ _)
    simp only [List.foldl_cons]
    rw [strMapSet_append_new acc e.1 (f e.2) hk, ih]
    · simp
    · have : (acc ++ [(e.1, f e.2)] ++ rest).map Prod.fst = (acc ++ e :: rest).map Prod.fst := by
        simp
      rw [this]; exact h

theorem strMapGet_map (f : String → String) (m : StrMap) (k : String) :
    strMapGet (m.map (fun kv => (kv.1, f kv.2))) k = (strMapGet m k).map f := by
  induction m with
  | nil => rfl
  | cons e rest ih =>
    obtain ⟨k1, v1⟩ := e
    by_cases h : k1 = k
    · simp [strMapGet, h]
    · simp [strMapGet, h, ih]

theorem expandOverrideEnvs_some (env : Env) (m : StrMap) (h : (m.map Prod.fst).Nodup) :
    expandOverrideEnvs env (some m) = some (m.map (fun kv => (kv.1, ExpandEnv env kv.2))) := by
  unfold expandOverrideEnvs
  simp only [Option.some.injEq]
  have := expandLoop_eq (ExpandEnv env) m [] (by simpa using h)
  simpa using this

theorem expandFrom_skip_all (mapping : String → String) (s : List Char) :
    ∀ skip : Nat, s.length ≤ skip → expandFrom mapping skip s = [] := by
  induction s with
  | nil => intro skip _; cases skip <;> rfl
  | cons c rest ih =>
    intro skip h
    cases skip with
    | zero => simp at h
    | succ n =>
      simp only [expandFrom]
      exact ih n (by simpa using h)

theorem closeBraceAt_append (n r : List Char) (h : '\x7d' ∉ n) :
    closeBraceAt (n ++ '\x7d' :: r) = some n.length := by
  induction n with
  | nil => simp [closeBraceAt]
  | cons c rest ih =>
    simp only [List.mem_cons, not_or] at h
    have hne : ¬ c = '\x7d' := fun hc => h.1 hc.symm
    simp [closeBraceAt, hne, ih h.2]

theorem getShellName_braced (n : List Char) (hne : n ≠ []) (h : '\x7d' ∉ n) :
    getShellName '\x7b' (n ++ ['\x7d']) = (n, n.length + 2) := by
  have hcb := closeBraceAt_append n [] h
  match n, hne, h, hcb with
  | [c1], _, h, hcb =>
    simp only [List.singleton_append, List.length_singleton] at hcb ⊢
    unfold getShellName
    by_cases hs : isShellSpecialVar c1 = true
    · simp [hs]
    · simp [hs, hcb]
  | c1 :: c2 :: rest, _, h, hcb =>
    have hc2 : ¬ c2 = '\x7d' := by
      intro hc; apply h; simp [hc]
    have hcond : (isShellSpecialVar c1 && c2 == '\x7d') = false := by simp [hc2]
    unfold getShellName
    simp only [List.cons_append, List.length_cons] at hcb ⊢
    simp only [if_true, hcb, hcond, Bool.false_eq_true, if_false]
    simp [List.take_append_eq_append_take]

theorem ExpandEnv_braced_unset (env : Env) (name : String) (hunset : env name = none)
    (hne : name.data ≠ []) (h : '\x7d' ∉ name.data) :
    ExpandEnv env ("$\x7b" ++ name ++ "\x7d") = "" := by
  have hd : ("$\x7b" ++ name ++ "\x7d").data = '$' :: '\x7b' :: (name.data ++ ['\x7d']) := by
    simp [String.data_append]
  have hg := getShellName_braced name.data hne h
  have hrest : ∃ d t, name.data ++ ['\x7d'] = d :: t := by
    cases hn : name.data with
    | nil => exact absurd hn hne
    | cons d t => exact ⟨d, t ++ ['\x7d'], rfl⟩
  obtain ⟨d, t, hdt⟩ := hrest
  have hlen : (d :: t).length = name.data.length + 1 := by
    rw [← hdt]; simp
  have hmk : String.mk name.data = name := rfl
  unfold ExpandEnv Expand
  rw [hd, hdt]
  rw [hdt] at hg
  simp only [expandFrom, hg, if_true]
  rw [expandFrom_skip_all _ _ _ (by simp at hlen ⊢; omega)]
  simp [hne, hmk, Getenv, hunset]

/-! ## Override values: statement -/

/-- C3: for accepted entries and any environment, an entry without an override
map keeps none, and an entry with an override map (a map: pairwise distinct
keys) gets a map with exactly the same keys in which every value is
`os.ExpandEnv` of the input value; and a braced reference to a variable that
is not set expands to the empty string. -/
theorem LoadReader_expands_overrides (env : Env) (ws out : List Watch)
    (h : LoadReader env (.ok ws) = (some out, none)) :
    List.Forall₂ (fun (w o : Watch) =>
        (w.OverrideValues = none → o.OverrideValues = none) ∧
        (∀ m, w.OverrideValues = some m → (m.map Prod.fst).Nodup →
          ∃ m1, o.OverrideValues = some m1 ∧ m1.map Prod.fst = m.map Prod.fst ∧
            ∀ k, strMapGet m1 k = (strMapGet m k).map (ExpandEnv env))) ws out ∧
      (∀ name : String, env name = none → name.data ≠ [] → '\x7d' ∉ name.data →
        ExpandEnv env ("$\x7b" ++ name ++ "\x7d") = "") := by
  refine ⟨?_, fun name h1 h2 h3 => ExpandEnv_braced_unset env name h1 h2 h3⟩
  change loadLoop env [] [] ws = (some out, none) at h
  have h2 : (loadLoop env [] [] ws).2 = none := by rw [h]
  have h3 := loadLoop_ok env ws [] [] h2
  rw [h] at h3
  simp only [List.nil_append, Prod.mk.injEq, Option.some.injEq, and_true] at h3
  subst h3
  simp only [List.forall₂_map_right_iff]
  apply List.forall₂_same.2
  intro w _
  refine ⟨?_, ?_⟩
  · intro hn; simp [hn, expandOverrideEnvs]
  · intro m hm hnd
    refine ⟨m.map (fun kv => (kv.1, ExpandEnv env kv.2)), ?_, ?_, ?_⟩
    · simp [hm, expandOverrideEnvs_some env m hnd]
    · simp [Function.comp_def]
    · intro k; exact strMapGet_map _ m k

/-- Witness for C3: one entry with two override values, one of them a
reference to a variable that is not set. -/
theorem LoadReader_expands_overrides_witness :
    List.Forall₂ (fun (w o : Watch) =>
        (w.OverrideValues = none → o.OverrideValues = none) ∧
        (∀ m, w.OverrideValues = some m → (m.map Prod.fst).Nodup →
          ∃ m1, o.OverrideValues = some m1 ∧ m1.map Prod.fst = m.map Prod.fst ∧
            ∀ k, strMapGet m1 k = (strMapGet m k).map (ExpandEnv (fun _ => none))))
        [Watch.mk ⟨"g", "v1", "A"⟩ "t" none (some [("a", "$\x7bX\x7d"), ("b", "c")])]
        [Watch.mk ⟨"g", "v1", "A"⟩ "t" (some true) (some [("a", ""), ("b", "c")])] ∧
      (∀ name : String, (fun _ => none : Env) name = none → name.data ≠ [] →
        '\x7d' ∉ name.data → ExpandEnv (fun _ => none) ("$\x7b" ++ name ++ "\x7d") = "") :=
  LoadReader_expands_overrides (fun _ => none)
    [Watch.mk ⟨"g", "v1", "A"⟩ "t" none (some [("a", "$\x7bX\x7d"), ("b", "c")])]
    [Watch.mk ⟨"g", "v1", "A"⟩ "t" (some true) (some [("a", ""), ("b", "c")])] (by decide)

end Terraform

namespace Terraform

/-! ## `mergeMaps`: lemmas -/

theorem GoMap.spine {P : GoMap → Prop} (h0 : P .nil)
    (hc : ∀ k v rest, P rest → P (.cons k v rest)) : ∀ m, P m
  | .nil => h0
  | .cons k v rest => hc k v rest (GoMap.spine h0 hc rest)

theorem mapGet_mapSet (m : GoMap) (k : String) (v : Value) (k2 : String) :
    mapGet (mapSet m k v) k2 = if k = k2 then some v else mapGet m k2 := by
  induction m using GoMap.spine with
  | h0 => simp [mapSet, mapGet]
  | hc k1 v1 rest ih =>
    by_cases h1 : k1 = k
    · subst h1
      by_cases h2 : k1 = k2
      · simp [mapSet, mapGet, h2]
      · simp [mapSet, mapGet, h2]
    · by_cases h2 : k1 = k2
      · subst h2
        have h3 : ¬ k = k1 := fun hc => h1 hc.symm
        simp [mapSet, mapGet, h1, h3]
      · simp [mapSet, mapGet, h1, h2, ih]

theorem mapGet_eq_none_iff (m : GoMap) (k : String) :
    mapGet m k = none ↔ k ∉ mapKeys m := by
  induction m using GoMap.spine with
  | h0 => simp [mapGet, mapKeys]
  | hc k1 v1 rest ih =>
    by_cases h1 : k1 = k
    · simp [mapGet, mapKeys, h1]
    · have h2 : ¬ k = k1 := fun hc => h1 hc.symm
      simp [mapGet, mapKeys, h1, h2, ih]

theorem mapKeys_mapSet (m : GoMap) (k : String) (v : Value) :
    mapKeys (mapSet m k v) = if k ∈ mapKeys m then mapKeys m else mapKeys m ++ [k] := by
  induction m using GoMap.spine with
  | h0 => simp [mapSet, mapKeys]
  | hc k1 v1 rest ih =>
    by_cases h1 : k1 = k
    · simp [mapSet, mapKeys, h1]
    · have h2 : ¬ k = k1 := fun hc => h1 hc.symm
      by_cases h3 : k ∈ mapKeys rest
      · simp [mapSet, mapKeys, h1, h2, h3, ih]
      · simp [mapSet, mapKeys, h1, h2, h3, ih]

theorem mapSet_nodup (m : GoMap) (k : String) (v : Value) (h : (mapKeys m).Nodup) :
    (mapKeys (mapSet m k v)).Nodup := by
  rw [mapKeys_mapSet]
  by_cases h3 : k ∈ mapKeys m
  · simp [h3, h]
  · simp only [h3, if_false]
    rw [List.nodup_append]
    refine ⟨h, by simp, ?_⟩
    intro x hx hx2
    simp only [List.mem_singleton] at hx2
    subst hx2
    exact h3 hx

theorem mapSet_self (m : GoMap) (k : String) (v : Value) (h : mapGet m k = some v) :
    mapSet m k v = m := by
  induction m using GoMap.spine with
  | h0 => simp [mapGet] at h
  | hc k1 v1 rest ih =>
    by_cases h1 : k1 = k
    · simp only [mapGet, h1, if_true, Option.some.injEq] at h
      simp [mapSet, h1, h]
    · simp only [mapGet, h1, if_false] at h
      simp [mapSet, h1, ih h]

theorem copyLoop_nodup (a : GoMap) :
    ∀ out : GoMap, (mapKeys out).Nodup → (mapKeys (copyLoop out a)).Nodup := by
  induction a using GoMap.spine with
  | h0 => intro out h; simpa [copyLoop] using h
  | hc k1 v1 rest ih =>
    intro out h
    simp only [copyLoop]
    exact ih _ (mapSet_nodup out k1 v1 h)

theorem mapGet_copyLoop (a : GoMap) :
    ∀ out : GoMap, (mapKeys a).Nodup → ∀ k,
      mapGet (copyLoop out a) k =
        match mapGet a k with
        | some v => some v
        | none => mapGet out k := by
  induction a using GoMap.spine with
  | h0 => intro out _ k; simp [copyLoop, mapGet]
  | hc k1 v1 rest ih =>
    intro out h k
    simp only [mapKeys, List.nodup_cons] at h
    simp only [copyLoop]
    rw [ih _ h.2 k, mapGet_mapSet]
    by_cases h1 : k1 = k
    · subst h1
      have hn : mapGet rest k1 = none := (mapGet_eq_none_iff rest k1).2 h.1
      simp [mapGet, hn]
    · simp [mapGet, h1]

theorem mergeLoop_cons (out : GoMap) (k : String) (v : Value) (rest : GoMap) :
    mergeLoop out (.cons k v rest) = mergeLoop (mapSet out k (mergedValue (mapGet out k) v)) rest := by
  cases v with
  | map bm =>
    cases hg : mapGet out k with
    | none => simp [mergeLoop, mergedValue, hg]
    | some cur =>
      cases cur <;> simp [mergeLoop, mergedValue, hg, mergeMaps]
  | _ => simp [mergeLoop, mergedValue]

theorem mergeLoop_nodup (b : GoMap) :
    ∀ out : GoMap, (mapKeys out).Nodup → (mapKeys (mergeLoop out b)).Nodup := by
  induction b using GoMap.spine with
  | h0 => intro out h; simpa [mergeLoop] using h
  | hc k1 v1 rest ih =>
    intro out h
    rw [mergeLoop_cons]
    exact ih _ (mapSet_nodup out k1 _ h)

theorem mapGet_mergeLoop (b : GoMap) :
    ∀ out : GoMap, (mapKeys b).Nodup → ∀ k,
      mapGet (mergeLoop out b) k =
        match mapGet b k with
        | none => mapGet out k
        | some v => some (mergedValue (mapGet out k) v) := by
  induction b using GoMap.spine with
  | h0 => intro out _ k; simp [mergeLoop, mapGet]
  | hc k1 v1 rest ih =>
    intro out h k
    simp only [mapKeys, List.nodup_cons] at h
    rw [mergeLoop_cons, ih _ h.2 k, mapGet_mapSet]
    by_cases h1 : k1 = k
    · subst h1
      have hn : mapGet rest k1 = none := (mapGet_eq_none_iff rest k1).2 h.1
      simp [mapGet, hn]
    · simp [mapGet, h1]

theorem mapGet_mergeMaps (a b : GoMap) (ha : (mapKeys a).Nodup) (hb : (mapKeys b).Nodup)
    (k : String) :
    mapGet (mergeMaps a b) k =
      match mapGet b k with
      | none => mapGet a k
      | some v => some (mergedValue (mapGet a k) v) := by
  have hc : mapGet (copyLoop .nil a) k = mapGet a k := by
    rw [mapGet_copyLoop a .nil ha k]
    cases mapGet a k <;> simp [mapGet]
  unfold mergeMaps
  rw [mapGet_mergeLoop b _ hb k, hc]

theorem mem_mapKeys_iff (m : GoMap) (k : String) :
    k ∈ mapKeys m ↔ (mapGet m k).isSome = true := by
  have h := mapGet_eq_none_iff m k
  cases hg : mapGet m k with
  | none => simp [hg] at h; simp [h]
  | some v => simp [hg] at h; simp [h]

end Terraform

namespace Terraform

theorem uniqueKeys_cons (k : String) (v : Value) (rest : GoMap)
    (h : uniqueKeys (.cons k v rest) = true) :
    k ∉ mapKeys rest ∧ uniqueKeys rest = true ∧ ∀ m, v = .map m → uniqueKeys m = true := by
  cases v with
  | map m =>
    simp [uniqueKeys] at h
    exact ⟨h.1.2, h.2, fun m1 hm => by cases hm; exact h.1.1⟩
  | _ =>
    simp [uniqueKeys] at h
    exact ⟨h.1, h.2, fun m1 hm => by cases hm⟩

theorem uniqueKeys_nodup (b : GoMap) : uniqueKeys b = true → (mapKeys b).Nodup := by
  induction b using GoMap.spine with
  | h0 => intro _; simp [mapKeys]
  | hc k1 v1 rest ih =>
    intro h
    have h2 := uniqueKeys_cons k1 v1 rest h
    simp only [mapKeys, List.nodup_cons]
    exact ⟨h2.1, ih h2.2.1⟩

theorem uniqueKeys_get (b : GoMap) :
    uniqueKeys b = true → ∀ k bm, mapGet b k = some (.map bm) → uniqueKeys bm = true := by
  induction b using GoMap.spine with
  | h0 => intro _ k bm hg; simp [mapGet] at hg
  | hc k1 v1 rest ih =>
    intro h k bm hg
    have h2 := uniqueKeys_cons k1 v1 rest h
    by_cases h1 : k1 = k
    · simp only [mapGet, h1, if_true, Option.some.injEq] at hg
      exact h2.2.2 bm hg
    · simp only [mapGet, h1, if_false] at hg
      exact ih h2.2.1 k bm hg

theorem mapSize_get (b : GoMap) :
    ∀ k bm, mapGet b k = some (.map bm) → mapSize bm < mapSize b := by
  induction b using GoMap.spine with
  | h0 => intro k bm hg; simp [mapGet] at hg
  | hc k1 v1 rest ih =>
    intro k bm hg
    by_cases h1 : k1 = k
    · simp only [mapGet, h1, if_true, Option.some.injEq] at hg
      subst hg
      simp only [mapSize]
      omega
    · simp only [mapGet, h1, if_false] at hg
      have := ih k bm hg
      cases v1 <;> simp only [mapSize] <;> omega

theorem mapKeys_mapAppend (m1 m2 : GoMap) :
    mapKeys (mapAppend m1 m2) = mapKeys m1 ++ mapKeys m2 := by
  induction m1 using GoMap.spine with
  | h0 => simp [mapAppend, mapKeys]
  | hc k1 v1 rest ih => simp [mapAppend, mapKeys, ih]

theorem mapAppend_nil (m : GoMap) : mapAppend m .nil = m := by
  induction m using GoMap.spine with
  | h0 => rfl
  | hc k1 v1 rest ih => simp [mapAppend, ih]

theorem mapAppend_assoc (m1 m2 m3 : GoMap) :
    mapAppend (mapAppend m1 m2) m3 = mapAppend m1 (mapAppend m2 m3) := by
  induction m1 using GoMap.spine with
  | h0 => rfl
  | hc k1 v1 rest ih => simp [mapAppend, ih]

theorem mapSet_append_new (m : GoMap) (k : String) (v : Value) (h : k ∉ mapKeys m) :
    mapSet m k v = mapAppend m (.cons k v .nil) := by
  induction m using GoMap.spine with
  | h0 => rfl
  | hc k1 v1 rest ih =>
    simp only [mapKeys, List.mem_cons, not_or] at h
    have hne : ¬ k1 = k := fun hc => h.1 hc.symm
    simp [mapSet, mapAppend, hne, ih h.2]

theorem copyLoop_append (a : GoMap) :
    ∀ out : GoMap, (mapKeys out ++ mapKeys a).Nodup → copyLoop out a = mapAppend out a := by
  induction a using GoMap.spine with
  | h0 => intro out _; simp [copyLoop, mapAppend_nil]
  | hc k1 v1 rest ih =>
    intro out h
    have hk : k1 ∉ mapKeys out := by
      intro hc
      exact (List.nodup_append.1 h).2.2 hc (by simp [mapKeys])
    simp only [copyLoop]
    rw [mapSet_append_new out k1 v1 hk, ih, mapAppend_assoc]
    · rfl
    · rw [mapKeys_mapAppend]
      simpa [mapKeys] using h

theorem copyLoop_self (m : GoMap) (h : (mapKeys m).Nodup) : copyLoop .nil m = m := by
  rw [copyLoop_append m .nil (by simpa [mapKeys] using h)]
  rfl

theorem mergeLoop_stable (b : GoMap) :
    (mapKeys b).Nodup → ∀ out : GoMap,
      (∀ k v, mapGet b k = some v → mapGet out k = some (mergedValue (mapGet out k) v)) →
        mergeLoop out b = out := by
  induction b using GoMap.spine with
  | h0 => intro _ out _; simp [mergeLoop]
  | hc k1 v1 rest ih =>
    intro hnd out h
    simp only [mapKeys, List.nodup_cons] at hnd
    rw [mergeLoop_cons, mapSet_self out k1 _ (h k1 v1 (by simp [mapGet]))]
    apply ih hnd.2
    intro k v hg
    apply h k v
    have hne : ¬ k1 = k := by
      intro hc
      subst hc
      have := (mapGet_eq_none_iff rest k1).2 hnd.1
      rw [this] at hg
      cases hg
    simp [mapGet, hne, hg]

theorem mergeMaps_nodup (a b : GoMap) : (mapKeys (mergeMaps a b)).Nodup :=
  mergeLoop_nodup b _ (copyLoop_nodup a .nil (by simp [mapKeys]))

theorem mergeMaps_idem_aux : ∀ (n : Nat) (b : GoMap), mapSize b < n → uniqueKeys b = true →
    mergeMaps b b = b ∧ ∀ a, mergeMaps (mergeMaps a b) b = mergeMaps a b := by
  intro n
  induction n with
  | zero => intro b h; omega
  | succ n ih =>
    intro b hsz hu
    have hnd := uniqueKeys_nodup b hu
    have hsub : ∀ k bm, mapGet b k = some (.map bm) →
        mergeMaps bm bm = bm ∧ ∀ a, mergeMaps (mergeMaps a bm) bm = mergeMaps a bm := by
      intro k bm hg
      exact ih bm (by have := mapSize_get b k bm hg; omega) (uniqueKeys_get b hu k bm hg)
    constructor
    · unfold mergeMaps
      rw [copyLoop_self b hnd]
      apply mergeLoop_stable b hnd
      intro k v hg
      rw [hg]
      cases v with
      | map bm => simp [mergedValue, (hsub k bm hg).1]
      | _ => simp [mergedValue]
    · intro a
      have hM := mergeMaps_nodup a b
      have hget := mapGet_mergeLoop b (copyLoop .nil a) hnd
      show mergeLoop (copyLoop .nil (mergeMaps a b)) b = mergeMaps a b
      rw [copyLoop_self _ hM]
      apply mergeLoop_stable b hnd
      intro k v hg
      have h1 : mapGet (mergeMaps a b) k = some (mergedValue (mapGet (copyLoop .nil a) k) v) := by
        unfold mergeMaps
        rw [hget k, hg]
      rw [h1]
      cases v with
      | map bm =>
        cases hc : mapGet (copyLoop .nil a) k with
        | none => simp [mergedValue, (hsub k bm hg).1]
        | some cur =>
          cases cur <;> simp [mergedValue, (hsub k bm hg).1, (hsub k bm hg).2]
      | _ => simp [mergedValue]

/-! ## `mergeMaps`: statements -/

/-- C4: `mergeMaps a b` on maps (pairwise distinct keys) is right-biased and
recursive: its keys are those of `a` together with those of `b`; a key only in
`a` keeps the value of `a`; a key whose value is a map in both gets
`mergeMaps` of the two maps; every other key of `b` gets the value of `b`; and
`mergeMaps {a: {x: 1, y: 2}} {a: {y: 9}} = {a: {x: 1, y: 9}}`. -/
theorem mergeMaps_right_biased (a b : GoMap) (ha : (mapKeys a).Nodup)
    (hb : (mapKeys b).Nodup) :
    (∀ k, k ∈ mapKeys (mergeMaps a b) ↔ k ∈ mapKeys a ∨ k ∈ mapKeys b) ∧
      (∀ k, k ∉ mapKeys b → mapGet (mergeMaps a b) k = mapGet a k) ∧
      (∀ k am bm, mapGet a k = some (.map am) → mapGet b k = some (.map bm) →
        mapGet (mergeMaps a b) k = some (.map (mergeMaps am bm))) ∧
      (∀ k v, mapGet b k = some v →
        ¬ ((∃ am, mapGet a k = some (.map am)) ∧ ∃ bm, v = .map bm) →
        mapGet (mergeMaps a b) k = some v) ∧
      mergeMaps (.cons "a" (.map (.cons "x" (.int 1) (.cons "y" (.int 2) .nil))) .nil)
          (.cons "a" (.map (.cons "y" (.int 9) .nil)) .nil) =
        .cons "a" (.map (.cons "x" (.int 1) (.cons "y" (.int 9) .nil))) .nil := by
  have hget := mapGet_mergeMaps a b ha hb
  refine ⟨?_, ?_, ?_, ?_, rfl⟩
  · intro k
    rw [mem_mapKeys_iff, mem_mapKeys_iff, mem_mapKeys_iff, hget k]
    cases mapGet b k <;> simp
  · intro k hk
    rw [hget k, (mapGet_eq_none_iff b k).2 hk]
  · intro k am bm h1 h2
    rw [hget k, h1, h2]
    simp [mergedValue]
  · intro k v h1 h2
    rw [hget k, h1]
    cases v with
    | map bm =>
      cases hc : mapGet a k with
      | none => simp [mergedValue]
      | some cur =>
        cases cur with
        | map am => exact absurd ⟨⟨am, hc⟩, ⟨bm, rfl⟩⟩ h2
        | _ => simp [mergedValue]
    | _ => simp [mergedValue]

/-- Witness for C4: the sample spec merged with the sample overrides, which
hold a nested map over a map, a map over a scalar and a scalar over a map. -/
theorem mergeMaps_right_biased_witness :
    (∀ k, k ∈ mapKeys (mergeMaps sampleSpec sampleOverrides) ↔
        k ∈ mapKeys sampleSpec ∨ k ∈ mapKeys sampleOverrides) ∧
      (∀ k, k ∉ mapKeys sampleOverrides →
        mapGet (mergeMaps sampleSpec sampleOverrides) k = mapGet sampleSpec k) ∧
      (∀ k am bm, mapGet sampleSpec k = some (.map am) →
        mapGet sampleOverrides k = some (.map bm) →
        mapGet (mergeMaps sampleSpec sampleOverrides) k = some (.map (mergeMaps am bm))) ∧
      (∀ k v, mapGet sampleOverrides k = some v →
        ¬ ((∃ am, mapGet sampleSpec k = some (.map am)) ∧ ∃ bm, v = .map bm) →
        mapGet (mergeMaps sampleSpec sampleOverrides) k = some v) ∧
      mergeMaps (.cons "a" (.map (.cons "x" (.int 1) (.cons "y" (.int 2) .nil))) .nil)
          (.cons "a" (.map (.cons "y" (.int 9) .nil)) .nil) =
        .cons "a" (.map (.cons "x" (.int 1) (.cons "y" (.int 9) .nil))) .nil :=
  mergeMaps_right_biased sampleSpec sampleOverrides (by decide) (by decide)

/-- C5: applying the same override set twice is idempotent: for every map `a`
and every map `b` whose keys are pairwise distinct at every level,
`mergeMaps (mergeMaps a b) b = mergeMaps a b`. -/
theorem mergeMaps_idempotent (a b : GoMap) (hb : uniqueKeys b = true) :
    mergeMaps (mergeMaps a b) b = mergeMaps a b :=
  (mergeMaps_idem_aux (mapSize b + 1) b (Nat.lt_succ_self _) hb).2 a

/-- Witness for C5: the sample overrides applied twice to the sample spec. -/
theorem mergeMaps_idempotent_witness :
    mergeMaps (mergeMaps sampleSpec sampleOverrides) sampleOverrides =
      mergeMaps sampleSpec sampleOverrides :=
  mergeMaps_idempotent sampleSpec sampleOverrides (by decide)

end Terraform

namespace Terraform

/-! ## Manager factory: statement -/

/-- C6: `NewManager` returns no manager and the error
`failed to get spec: expected map` whenever the `spec` of the resource is
absent or is not a string-keyed map; when the `spec` is a map and the
overrides parse, it returns a manager and no error, and the manager carries
the name and the namespace of the resource and the merged values. -/
theorem NewManager_spec (parseInto : String → GoMap → Except GoError GoMap)
    (fromUnstructured : GoMap → Except GoError TFConfigStatus)
    (cr : GoMap) (overrideValues : Option StrMap) :
    ((∀ crValues, mapGet cr "spec" ≠ some (.map crValues)) →
        NewManager parseInto fromUnstructured cr overrideValues =
          (none, some (.msg "failed to get spec: expected map"))) ∧
      (∀ crValues expOverrides, mapGet cr "spec" = some (.map crValues) →
        parseOverrides parseInto overrideValues = .ok expOverrides →
        ∃ m, NewManager parseInto fromUnstructured cr overrideValues = (some m, none) ∧
          m.DeploymentName = GetName cr ∧ m.nspace = GetNamespace cr ∧
          m.values = mergeMaps crValues expOverrides) := by
  constructor
  · intro h
    unfold NewManager getDeployName
    cases hs : mapGet cr "spec" with
    | none => rfl
    | some v =>
      cases v with
      | map crValues => exact absurd hs (h crValues)
      | _ => rfl
  · intro crValues expOverrides hs hp
    unfold NewManager getDeployName
    simp only [hs, hp]
    exact ⟨_, rfl, rfl, rfl, rfl⟩

/-! ## Manager: lemmas -/

theorem runErr_eq_none_iff (r : CmdResult) : r.runErr = none ↔ r = .exited 0 := by
  cases r with
  | exited code => cases code <;> simp [CmdResult.runErr]
  | signaled desc => simp [CmdResult.runErr]
  | notStarted err => simp [CmdResult.runErr]

/-! ## Manager: statements -/

/-- C7: after `Refresh` the existence flag is true exactly when the state
inspection exited with status zero, and the returned error does not depend on
the inspection at all; a plan that exits with zero gives no error and
update-required false, a plan that exits with two gives no error and
update-required true, and every other plan outcome (the tool not starting
included) gives an error that wraps the error of the plan run. -/
theorem Refresh_outcomes (m : manager) (run : Runner) :
    (((manager.Refresh m run).1.Exists = true ↔
        run ["terraform", "state", "list"] = .exited 0) ∧
      (∀ run2 : Runner,
        run2 ["terraform", "plan", "--detailed-exitcode"] =
          run ["terraform", "plan", "--detailed-exitcode"] →
        (manager.Refresh m run2).2 = (manager.Refresh m run).2)) ∧
      (run ["terraform", "plan", "--detailed-exitcode"] = .exited 0 →
        (manager.Refresh m run).2 = none ∧
          (manager.Refresh m run).1.IsUpdateRequired = false) ∧
      (run ["terraform", "plan", "--detailed-exitcode"] = .exited 2 →
        (manager.Refresh m run).2 = none ∧
          (manager.Refresh m run).1.IsUpdateRequired = true) ∧
      (run ["terraform", "plan", "--detailed-exitcode"] ≠ .exited 0 →
        run ["terraform", "plan", "--detailed-exitcode"] ≠ .exited 2 →
        ∃ cause, (run ["terraform", "plan", "--detailed-exitcode"]).runErr = some cause ∧
          (manager.Refresh m run).2 =
            some (.wrap "failed to check deployment status: " cause)) ∧
      (∀ err, run ["terraform", "plan", "--detailed-exitcode"] = .notStarted err →
        (manager.Refresh m run).2 =
          some (.wrap "failed to check deployment status: " err)) := by
  refine ⟨⟨?_, ?_⟩, ?_, ?_, ?_, ?_⟩
  · rw [← runErr_eq_none_iff]
    unfold manager.Refresh manager.Exists
    cases hs : (run ["terraform", "state", "list"]).runErr <;>
      cases hp : (run ["terraform", "plan", "--detailed-exitcode"]).runErr <;>
        simp only [] <;> (try split_ifs) <;> simp
  · intro run2 h
    unfold manager.Refresh
    rw [h]
    cases hp : (run ["terraform", "plan", "--detailed-exitcode"]).runErr with
    | none => rfl
    | some err => simp only []; split_ifs <;> rfl
  · intro hp
    unfold manager.Refresh manager.IsUpdateRequired
    simp [hp, CmdResult.runErr]
  · intro hp
    unfold manager.Refresh manager.IsUpdateRequired
    simp [hp, CmdResult.runErr, CmdResult.ExitCode]
  · intro h0 h2
    unfold manager.Refresh
    cases hp : run ["terraform", "plan", "--detailed-exitcode"] with
    | exited code =>
      match code, hp with
      | 0, hp => exact absurd hp h0
      | 1, hp => simp [CmdResult.runErr, CmdResult.ExitCode]
      | 2, hp => exact absurd hp h2
      | n + 3, hp =>
        have hne : ¬ ((n : Int) + 3 = 2) := by omega
        simp [CmdResult.runErr, CmdResult.ExitCode, hne]
    | signaled desc => simp [CmdResult.runErr, CmdResult.ExitCode]
    | notStarted err => simp [CmdResult.runErr, CmdResult.ExitCode]
  · intro err hp
    unfold manager.Refresh
    simp [hp, CmdResult.runErr, CmdResult.ExitCode]

/-- C8: `Exists` and `IsUpdateRequired` return the stored flags, and `Create`,
`Update`, `Reconcile` and `Delete` leave the manager, both flags included,
exactly as it was, whatever the tool does. -/
theorem flags_only_set_by_Refresh (m : manager) (run : Runner) :
    m.Exists = m.existsFlag ∧ m.IsUpdateRequired = m.isUpdateRequired ∧
      (manager.Create m run).1 = m ∧ (manager.Update m run).1 = m ∧
      (manager.Reconcile m run).1 = m ∧ (manager.Delete m run).1 = m ∧
      (manager.Create m run).1.Exists = m.Exists ∧
      (manager.Create m run).1.IsUpdateRequired = m.IsUpdateRequired ∧
      (manager.Update m run).1.Exists = m.Exists ∧
      (manager.Update m run).1.IsUpdateRequired = m.IsUpdateRequired ∧
      (manager.Reconcile m run).1.Exists = m.Exists ∧
      (manager.Reconcile m run).1.IsUpdateRequired = m.IsUpdateRequired ∧
      (manager.Delete m run).1.Exists = m.Exists ∧
      (manager.Delete m run).1.IsUpdateRequired = m.IsUpdateRequired := by
  have hc : (manager.Create m run).1 = m := by
    unfold manager.Create; cases (run ["terraform", "apply", "-auto-approve"]).runErr <;> rfl
  have hu : (manager.Update m run).1 = m := by
    unfold manager.Update; cases (run ["terraform", "apply", "-auto-approve"]).runErr <;> rfl
  have hd : (manager.Delete m run).1 = m := by
    unfold manager.Delete; cases (run ["terraform", "destroy", "-auto-approve"]).runErr <;> rfl
  have hr : (manager.Reconcile m run).1 = m := rfl
  refine ⟨rfl, rfl, hc, hu, hr, hd, ?_, ?_, ?_, ?_, ?_, ?_, ?_, ?_⟩ <;>
    simp only [hc, hu, hr, hd]

/-- C9: `Create`, `Update` and `Delete` return no error exactly when their one
tool run (apply, apply, destroy) exits with status zero; otherwise they return
an error whose wrapped cause is the error of that run; and nothing but that
one run influences the result. -/
theorem lifecycle_error_iff (m : manager) (run : Runner) :
    (((manager.Create m run).2 = none ↔ run ["terraform", "apply", "-auto-approve"] = .exited 0) ∧
      ((manager.Update m run).2 = none ↔ run ["terraform", "apply", "-auto-approve"] = .exited 0) ∧
      ((manager.Delete m run).2 = none ↔
        run ["terraform", "destroy", "-auto-approve"] = .exited 0)) ∧
      ((∀ err, (manager.Create m run).2 = some err →
          err.Unwrap = (run ["terraform", "apply", "-auto-approve"]).runErr ∧
            err.Unwrap ≠ none) ∧
        (∀ err, (manager.Update m run).2 = some err →
          err.Unwrap = (run ["terraform", "apply", "-auto-approve"]).runErr ∧
            err.Unwrap ≠ none) ∧
        (∀ err, (manager.Delete m run).2 = some err →
          err.Unwrap = (run ["terraform", "destroy", "-auto-approve"]).runErr ∧
            err.Unwrap ≠ none)) ∧
      (∀ run2 : Runner,
        (run2 ["terraform", "apply", "-auto-approve"] =
            run ["terraform", "apply", "-auto-approve"] →
          manager.Create m run2 = manager.Create m run ∧
            manager.Update m run2 = manager.Update m run) ∧
        (run2 ["terraform", "destroy", "-auto-approve"] =
            run ["terraform", "destroy", "-auto-approve"] →
          manager.Delete m run2 = manager.Delete m run)) := by
  refine ⟨⟨?_, ?_, ?_⟩, ⟨?_, ?_, ?_⟩, ?_⟩
  · rw [← runErr_eq_none_iff]; unfold manager.Create
    cases (run ["terraform", "apply", "-auto-approve"]).runErr <;> simp
  · rw [← runErr_eq_none_iff]; unfold manager.Update
    cases (run ["terraform", "apply", "-auto-approve"]).runErr <;> simp
  · rw [← runErr_eq_none_iff]; unfold manager.Delete
    cases (run ["terraform", "destroy", "-auto-approve"]).runErr <;> simp
  · intro err; unfold manager.Create
    cases (run ["terraform", "apply", "-auto-approve"]).runErr <;> simp
    rintro rfl; simp [GoError.Unwrap]
  · intro err; unfold manager.Update
    cases (run ["terraform", "apply", "-auto-approve"]).runErr <;> simp
    rintro rfl; simp [GoError.Unwrap]
  · intro err; unfold manager.Delete
    cases (run ["terraform", "destroy", "-auto-approve"]).runErr <;> simp
    rintro rfl; simp [GoError.Unwrap]
  · intro run2
    refine ⟨fun h => ⟨?_, ?_⟩, fun h => ?_⟩
    · unfold manager.Create; rw [h]
    · unfold manager.Update; rw [h]
    · unfold manager.Delete; rw [h]

/-- C10, as the code behaves: when the apply run exits with status one, the
error of `Update` reads `failed to create deployment: exit status 1`, the same
text as the error of `Create`, so it names create and not update; the errors
of `Delete` and `Refresh` name the delete and the status check. -/
theorem Update_error_names_create :
    ((manager.Update (manager.mk "d" "ns" .nil {} false false) (fun _ => .exited 1)).2.map
        GoError.Error = some "failed to create deployment: exit status 1") ∧
      ((manager.Create (manager.mk "d" "ns" .nil {} false false) (fun _ => .exited 1)).2.map
        GoError.Error = some "failed to create deployment: exit status 1") ∧
      ((manager.Delete (manager.mk "d" "ns" .nil {} false false) (fun _ => .exited 1)).2.map
        GoError.Error = some "failed to delete deployment: exit status 1") ∧
      ((manager.Refresh (manager.mk "d" "ns" .nil {} false false) (fun _ => .exited 1)).2.map
        GoError.Error = some "failed to check deployment status: exit status 1") := by
  refine ⟨?_, ?_, ?_, ?_⟩ <;> decide

end Terraform

namespace Terraform

/-! ## Manager: invocations -/

/-- C11, as the code behaves: two managers whose merged values differ issue
the same apply invocation. -/
theorem apply_ignores_values_example :
    (manager.mk "d" "ns" sampleSpec {} false false).values ≠
        (manager.mk "d" "ns" .nil {} false false).values ∧
      manager.applyInvocation (manager.mk "d" "ns" sampleSpec {} false false) =
        manager.applyInvocation (manager.mk "d" "ns" .nil {} false false) := by
  refine ⟨?_, rfl⟩
  intro h
  cases h

/-- C11, amended: the apply invocation of `Create` and of `Update` is the
fixed command line `terraform apply -auto-approve` whatever the merged values
of the manager are: both methods return what that one command decides, and two
managers, however their values differ, issue the same invocation and get the
same error from the same tool. -/
theorem apply_invocation_fixed (m1 m2 : manager) (run : Runner) :
    manager.applyInvocation m1 = ["terraform", "apply", "-auto-approve"] ∧
      manager.applyInvocation m1 = manager.applyInvocation m2 ∧
      (manager.Create m1 run).2 =
        ((run (manager.applyInvocation m1)).runErr).map
          (fun err => GoError.wrap "failed to create deployment: " err) ∧
      (manager.Update m1 run).2 =
        ((run (manager.applyInvocation m1)).runErr).map
          (fun err => GoError.wrap "failed to create deployment: " err) ∧
      (manager.Create m1 run).2 = (manager.Create m2 run).2 ∧
      (manager.Update m1 run).2 = (manager.Update m2 run).2 := by
  refine ⟨rfl, rfl, ?_, ?_, ?_, ?_⟩
  · unfold manager.Create manager.applyInvocation
    cases (run ["terraform", "apply", "-auto-approve"]).runErr <;> rfl
  · unfold manager.Update manager.applyInvocation
    cases (run ["terraform", "apply", "-auto-approve"]).runErr <;> rfl
  · unfold manager.Create
    cases (run ["terraform", "apply", "-auto-approve"]).runErr <;> rfl
  · unfold manager.Update
    cases (run ["terraform", "apply", "-auto-approve"]).runErr <;> rfl

/-- C12, as the code behaves: with a tool whose state inspection fails (the
deployment does not exist) and whose destroy fails, `Refresh` records that the
deployment does not exist and `Delete` returns an error. -/
theorem Delete_absent_fails_example :
    (manager.Refresh (manager.mk "d" "ns" .nil {} false false) failingTool).1.Exists = false ∧
      ((manager.Delete
          (manager.Refresh (manager.mk "d" "ns" .nil {} false false) failingTool).1
          failingTool).2.map GoError.Error) =
        some "failed to delete deployment: exit status 1" := by
  constructor <;> decide

/-- C12, amended: `Delete` makes no existence check of its own: it returns
success exactly when the destroy command exits with status zero, whatever the
existence flag of the manager and whatever the state inspection would report,
and otherwise returns the wrapped error of the destroy run. -/
theorem Delete_follows_destroy (m : manager) (run : Runner) :
    ((manager.Delete m run).2 = none ↔ run (manager.destroyInvocation m) = .exited 0) ∧
      (manager.Delete m run).2 =
        ((run (manager.destroyInvocation m)).runErr).map
          (fun err => GoError.wrap "failed to delete deployment: " err) ∧
      (∀ (m2 : manager) (run2 : Runner),
        run2 (manager.destroyInvocation m) = run (manager.destroyInvocation m) →
        (manager.Delete m2 run2).2 = (manager.Delete m run).2) := by
  refine ⟨?_, ?_, ?_⟩
  · rw [← runErr_eq_none_iff]
    unfold manager.Delete manager.destroyInvocation
    cases (run ["terraform", "destroy", "-auto-approve"]).runErr <;> simp
  · unfold manager.Delete manager.destroyInvocation
    cases (run ["terraform", "destroy", "-auto-approve"]).runErr <;> rfl
  · intro m2 run2 h
    unfold manager.destroyInvocation at h
    unfold manager.Delete
    rw [h]
    cases (run ["terraform", "destroy", "-auto-approve"]).runErr <;> rfl

/-! ## Status model: lemmas -/

theorem find_setConditionLoop (now : Time) (c : TFConfigCondition)
    (l : List TFConfigCondition) :
    (setConditionLoop now c l).find? (fun x => x.CondType == c.CondType) =
      some { c with
        LastTransitionTime :=
          match l.find? (fun x => x.CondType == c.CondType) with
          | some old => if old.Status = c.Status then old.LastTransitionTime else now
          | none => now } := by
  induction l with
  | nil => simp [setConditionLoop]
  | cons x rest ih =>
    by_cases h : x.CondType = c.CondType
    · by_cases hs : x.Status = c.Status
      · simp [setConditionLoop, h, hs]
      · simp [setConditionLoop, h, hs]
    · simp [setConditionLoop, h, ih]

theorem removeConditionLoop_absent (t : String) (l : List TFConfigCondition)
    (h : ∀ x ∈ l, x.CondType ≠ t) : removeConditionLoop t l = l := by
  induction l with
  | nil => rfl
  | cons x rest ih =>
    have hx : ¬ x.CondType = t := h x (List.mem_cons_self _ _)
    simp [removeConditionLoop, hx, ih (fun y hy => h y (List.mem_cons_of_mem _ hy))]

theorem remove_setConditionLoop (now : Time) (c : TFConfigCondition)
    (l : List TFConfigCondition) :
    removeConditionLoop c.CondType (setConditionLoop now c l) =
      removeConditionLoop c.CondType l := by
  induction l with
  | nil => simp [setConditionLoop, removeConditionLoop]
  | cons x rest ih =>
    by_cases h : x.CondType = c.CondType
    · by_cases hs : x.Status = c.Status
      · simp [setConditionLoop, removeConditionLoop, h, hs]
      · simp [setConditionLoop, removeConditionLoop, h, hs]
    · simp [setConditionLoop, removeConditionLoop, h, ih]

theorem types_setConditionLoop (now : Time) (c : TFConfigCondition)
    (l : List TFConfigCondition) :
    (setConditionLoop now c l).map (fun x => x.CondType) =
      if c.CondType ∈ l.map (fun x => x.CondType) then l.map (fun x => x.CondType)
      else l.map (fun x => x.CondType) ++ [c.CondType] := by
  induction l with
  | nil => simp [setConditionLoop]
  | cons x rest ih =>
    by_cases h : x.CondType = c.CondType
    · by_cases hs : x.Status = c.Status
      · simp [setConditionLoop, h, hs]
      · simp [setConditionLoop, h, hs]
    · have h2 : ¬ c.CondType = x.CondType := fun hc => h hc.symm
      by_cases hm : c.CondType ∈ rest.map (fun x => x.CondType)
      · simp only [List.mem_map] at hm
        simp [setConditionLoop, h, h2, ih, hm]
      · simp only [List.mem_map] at hm
        simp [setConditionLoop, h, h2, ih, hm]

theorem removeConditionLoop_split (t : String) (l : List TFConfigCondition)
    (h : ∃ x ∈ l, x.CondType = t) :
    ∃ pre c post, l = pre ++ c :: post ∧ (∀ x ∈ pre, x.CondType ≠ t) ∧ c.CondType = t ∧
      removeConditionLoop t l = pre ++ post := by
  induction l with
  | nil => simp at h
  | cons x rest ih =>
    by_cases hx : x.CondType = t
    · exact ⟨[], x, rest, rfl, by simp, hx, by simp [removeConditionLoop, hx]⟩
    · obtain ⟨y, hy, hyt⟩ := h
      have hy2 : y ∈ rest := by
        rcases List.mem_cons.1 hy with rfl | hr
        · exact absurd hyt hx
        · exact hr
      obtain ⟨pre, c, post, hl, hpre, hc, hr⟩ := ih ⟨y, hy2, hyt⟩
      refine ⟨x :: pre, c, post, by simp [hl], ?_, hc, by simp [removeConditionLoop, hx, hr]⟩
      intro z hz
      rcases List.mem_cons.1 hz with rfl | hz2
      · exact hx
      · exact hpre z hz2

theorem removeConditionLoop_sublist (t : String) (l : List TFConfigCondition) :
    (removeConditionLoop t l).Sublist l := by
  induction l with
  | nil => simp [removeConditionLoop]
  | cons x rest ih =>
    by_cases hx : x.CondType = t
    · simp [removeConditionLoop, hx]
    · simp [removeConditionLoop, hx, ih]

theorem removeConditionLoop_none_left (t : String) (l : List TFConfigCondition)
    (h : (l.map (fun x => x.CondType)).Nodup) :
    ∀ x ∈ removeConditionLoop t l, x.CondType ≠ t := by
  induction l with
  | nil => simp [removeConditionLoop]
  | cons y rest ih =>
    simp only [List.map_cons, List.nodup_cons, List.mem_map, not_exists, not_and] at h
    by_cases hy : y.CondType = t
    · simp only [removeConditionLoop, hy, if_true]
      intro x hx hc
      exact h.1 x hx (by rw [hc, hy])
    · simp only [removeConditionLoop, hy, if_false]
      intro x hx
      rcases List.mem_cons.1 hx with rfl | hx2
      · exact hy
      · exact ih h.2 x hx2

/-! ## Status model: statements -/

/-- C13: after `SetCondition` the first condition of the type of the new
condition is the new condition itself (its status, reason and message), with
the `lastTransitionTime` of the old condition of that type when the status
value is the same, and the current time when the status value differs or when
no condition of that type was present. -/
theorem SetCondition_transition_time (s : TFConfigStatus) (now : Time)
    (c : TFConfigCondition) :
    (∀ old, s.Conditions.find? (fun x => x.CondType == c.CondType) = some old →
        old.Status = c.Status →
        (s.SetCondition now c).Conditions.find? (fun x => x.CondType == c.CondType) =
          some { c with LastTransitionTime := old.LastTransitionTime }) ∧
      (∀ old, s.Conditions.find? (fun x => x.CondType == c.CondType) = some old →
        old.Status ≠ c.Status →
        (s.SetCondition now c).Conditions.find? (fun x => x.CondType == c.CondType) =
          some { c with LastTransitionTime := now }) ∧
      (s.Conditions.find? (fun x => x.CondType == c.CondType) = none →
        (s.SetCondition now c).Conditions.find? (fun x => x.CondType == c.CondType) =
          some { c with LastTransitionTime := now }) ∧
      (∀ r, (s.SetCondition now c).Conditions.find? (fun x => x.CondType == c.CondType) =
          some r → r.Status = c.Status ∧ r.Reason = c.Reason ∧ r.Message = c.Message) ∧
      (s.SetCondition now c).DeployedConfig = s.DeployedConfig := by
  have h := find_setConditionLoop now c s.Conditions
  refine ⟨?_, ?_, ?_, ?_, rfl⟩
  · intro old ho hs
    unfold TFConfigStatus.SetCondition
    simp only [h, ho, hs, if_true]
  · intro old ho hs
    unfold TFConfigStatus.SetCondition
    simp only [h, ho, hs, if_false]
  · intro hn
    unfold TFConfigStatus.SetCondition
    simp only [h, hn]
  · intro r hr
    unfold TFConfigStatus.SetCondition at hr
    simp only [h, Option.some.injEq] at hr
    subst hr
    exact ⟨rfl, rfl, rfl⟩

/-- C14, as the code behaves: on a status that already holds a `Deployed`
condition, `SetCondition` followed by `RemoveCondition` of `Deployed` leaves an
empty condition list, not the prior one. -/
theorem SetCondition_RemoveCondition_example :
    (((TFConfigStatus.mk [⟨"Deployed", "True", "", "", 5⟩] none).SetCondition 9
        ⟨"Deployed", "False", "r", "m", 0⟩).RemoveCondition "Deployed").Conditions = [] ∧
      (TFConfigStatus.mk [⟨"Deployed", "True", "", "", 5⟩] none).Conditions ≠ [] := by
  constructor <;> decide

/-- C14, amended: `SetCondition` followed by `RemoveCondition` of the same
type gives the prior status with its first condition of that type removed; it
restores the prior status exactly when the prior condition list held no
condition of that type. -/
theorem SetCondition_RemoveCondition (s : TFConfigStatus) (now : Time)
    (c : TFConfigCondition) :
    (s.SetCondition now c).RemoveCondition c.CondType = s.RemoveCondition c.CondType ∧
      ((∀ x ∈ s.Conditions, x.CondType ≠ c.CondType) →
        (s.SetCondition now c).RemoveCondition c.CondType = s) := by
  have h1 : (s.SetCondition now c).RemoveCondition c.CondType = s.RemoveCondition c.CondType := by
    unfold TFConfigStatus.SetCondition TFConfigStatus.RemoveCondition
    simp [remove_setConditionLoop]
  refine ⟨h1, fun h => ?_⟩
  rw [h1]
  unfold TFConfigStatus.RemoveCondition
  rw [removeConditionLoop_absent _ _ h]

/-- C15: if no two conditions of a status share a type, then no two conditions
share a type after `SetCondition`, and none after `RemoveCondition`. -/
theorem conditions_unique_preserved (s : TFConfigStatus) (now : Time)
    (c : TFConfigCondition) (t : String)
    (h : (s.Conditions.map (fun x => x.CondType)).Nodup) :
    ((s.SetCondition now c).Conditions.map (fun x => x.CondType)).Nodup ∧
      ((s.RemoveCondition t).Conditions.map (fun x => x.CondType)).Nodup := by
  constructor
  · unfold TFConfigStatus.SetCondition
    simp only [types_setConditionLoop]
    split_ifs with hm
    · exact h
    · rw [List.nodup_append]
      refine ⟨h, by simp, ?_⟩
      intro x hx hx2
      simp only [List.mem_singleton] at hx2
      subst hx2
      exact hm hx
  · unfold TFConfigStatus.RemoveCondition
    exact List.Nodup.sublist ((removeConditionLoop_sublist t s.Conditions).map _) h

/-- Witness for C15: a status with a `Deployed` and a `ConfigFailed`
condition. -/
theorem conditions_unique_preserved_witness :
    (((TFConfigStatus.mk [⟨"Deployed", "True", "", "", 5⟩, ⟨"ConfigFailed", "True", "", "", 6⟩]
          none).SetCondition 9 ⟨"Initialized", "True", "", "", 0⟩).Conditions.map
        (fun x => x.CondType)).Nodup ∧
      (((TFConfigStatus.mk [⟨"Deployed", "True", "", "", 5⟩, ⟨"ConfigFailed", "True", "", "", 6⟩]
          none).RemoveCondition "ConfigFailed").Conditions.map (fun x => x.CondType)).Nodup :=
  conditions_unique_preserved
    (TFConfigStatus.mk [⟨"Deployed", "True", "", "", 5⟩, ⟨"ConfigFailed", "True", "", "", 6⟩] none)
    9 ⟨"Initialized", "True", "", "", 0⟩ "ConfigFailed" (by decide)

/-- C16: `RemoveCondition` leaves the status unchanged when no condition of the
given type is present; otherwise it cuts out the first condition of that type
and keeps every other condition in place and in order; on a list with at most
one condition per type the result holds no condition of that type; and the
deployed-config record is never touched. -/
theorem RemoveCondition_spec (s : TFConfigStatus) (t : String) :
    ((∀ x ∈ s.Conditions, x.CondType ≠ t) → s.RemoveCondition t = s) ∧
      ((∃ x ∈ s.Conditions, x.CondType = t) →
        ∃ pre c post, s.Conditions = pre ++ c :: post ∧ (∀ x ∈ pre, x.CondType ≠ t) ∧
          c.CondType = t ∧ (s.RemoveCondition t).Conditions = pre ++ post) ∧
      ((s.Conditions.map (fun x => x.CondType)).Nodup →
        ∀ x ∈ (s.RemoveCondition t).Conditions, x.CondType ≠ t) ∧
      (s.RemoveCondition t).DeployedConfig = s.DeployedConfig := by
  refine ⟨?_, ?_, ?_, rfl⟩
  · intro h
    unfold TFConfigStatus.RemoveCondition
    rw [removeConditionLoop_absent _ _ h]
  · intro h
    exact removeConditionLoop_split t s.Conditions h
  · intro h
    exact removeConditionLoop_none_left t s.Conditions h

end Terraform

namespace Terraform

/-! ## Reconciler: lemmas on traces -/

theorem opsOf_append (a b : List Event) : opsOf (a ++ b) = opsOf a ++ opsOf b := by
  induction a with
  | nil => rfl
  | cons e rest ih => cases e <;> simp [opsOf, ih]

theorem resourceWrites_append (a b : List Event) :
    resourceWrites (a ++ b) = resourceWrites a ++ resourceWrites b := by
  induction a with
  | nil => rfl
  | cons e rest ih => cases e <;> simp [resourceWrites, ih]

theorem statusWrites_append (a b : List Event) :
    statusWrites (a ++ b) = statusWrites a ++ statusWrites b := by
  induction a with
  | nil => rfl
  | cons e rest ih => cases e <;> simp [statusWrites, ih]

theorem overrideEvents_quiet (r : TerraformReconciler) :
    opsOf (overrideEvents r) = [] ∧ resourceWrites (overrideEvents r) = [] ∧
      statusWrites (overrideEvents r) = [] := by
  unfold overrideEvents
  induction r.OverrideValues.getD [] with
  | nil => exact ⟨rfl, rfl, rfl⟩
  | cons kv rest ih => simpa [opsOf, resourceWrites, statusWrites] using ih

theorem updateResourceLoop_trace (c : Cluster) (o : GoMap) :
    ∀ more n,
      opsOf (updateResourceLoop c more n o).events = [] ∧
      statusWrites (updateResourceLoop c more n o).events = [] ∧
      ((updateResourceLoop c more n o).err = none →
        persistedResource (updateResourceLoop c more n o).events = some o) ∧
      ((updateResourceLoop c more n o).err ≠ none →
        persistedResource (updateResourceLoop c more n o).events = none) := by
  intro more
  induction more with
  | zero =>
    intro n
    unfold updateResourceLoop
    cases c.Update n o <;> simp [opsOf, statusWrites, persistedResource, resourceWrites]
  | succ more ih =>
    intro n
    unfold updateResourceLoop
    cases hu : c.Update n o with
    | ok o1 => simp [opsOf, statusWrites, persistedResource, resourceWrites]
    | error e =>
      by_cases hc : c.IsConflict e = true
      · have h := ih (n + 1)
        simp only [hc, if_true]
        refine ⟨by simpa [opsOf] using h.1, by simpa [statusWrites] using h.2.1, ?_, ?_⟩
        · intro he
          have := h.2.2.1 he
          simpa [persistedResource, resourceWrites] using this
        · intro he
          have := h.2.2.2 he
          simpa [persistedResource, resourceWrites] using this
      · simp [hc, opsOf, statusWrites, persistedResource, resourceWrites]

theorem updateResourceStatusLoop_trace (c : Cluster) (st : TFConfigStatus) :
    ∀ more n o,
      opsOf (updateResourceStatusLoop c st more n o).events = [] ∧
      resourceWrites (updateResourceStatusLoop c st more n o).events = [] ∧
      ((updateResourceStatusLoop c st more n o).err = none →
        persistedStatus (updateResourceStatusLoop c st more n o).events = some st) ∧
      ((updateResourceStatusLoop c st more n o).err ≠ none →
        persistedStatus (updateResourceStatusLoop c st more n o).events = none) := by
  intro more
  induction more with
  | zero =>
    intro n o
    unfold updateResourceStatusLoop
    cases c.StatusUpdate n (mapSet o "status" (.status st)) <;>
      simp [opsOf, resourceWrites, persistedStatus, statusWrites]
  | succ more ih =>
    intro n o
    unfold updateResourceStatusLoop
    cases hu : c.StatusUpdate n (mapSet o "status" (.status st)) with
    | ok o1 => simp [opsOf, resourceWrites, persistedStatus, statusWrites]
    | error e =>
      by_cases hc : c.IsConflict e = true
      · have h := ih (n + 1) (mapSet o "status" (.status st))
        simp only [hc, if_true]
        refine ⟨by simpa [opsOf] using h.1, by simpa [resourceWrites] using h.2.1, ?_, ?_⟩
        · intro he
          have := h.2.2.1 he
          simpa [persistedStatus, statusWrites] using this
        · intro he
          have := h.2.2.2 he
          simpa [persistedStatus, statusWrites] using this
      · simp [hc, opsOf, resourceWrites, persistedStatus, statusWrites]

theorem waitLoop_trace (c : Cluster) :
    ∀ budget n,
      opsOf (waitLoop c budget n).2 = [] ∧ resourceWrites (waitLoop c budget n).2 = [] ∧
        statusWrites (waitLoop c budget n).2 = [] := by
  intro budget
  induction budget with
  | zero =>
    intro n
    unfold waitLoop
    cases c.PollGet n with
    | ok obj => simp [opsOf, resourceWrites, statusWrites]
    | error e => by_cases h : c.IsNotFound e = true <;> simp [h, opsOf, resourceWrites, statusWrites]
  | succ budget ih =>
    intro n
    unfold waitLoop
    cases c.PollGet n with
    | ok obj => simpa [opsOf, resourceWrites, statusWrites] using ih (n + 1)
    | error e => by_cases h : c.IsNotFound e = true <;> simp [h, opsOf, resourceWrites, statusWrites]

theorem waitLoop_success_iff (c : Cluster) :
    ∀ budget n,
      (waitLoop c budget n).1 = none ↔
        ∃ k, k ≤ budget ∧ (∃ e, c.PollGet (n + k) = .error e ∧ c.IsNotFound e = true) ∧
          ∀ j, j < k → ∃ obj, c.PollGet (n + j) = .ok obj := by
  intro budget
  induction budget with
  | zero =>
    intro n
    unfold waitLoop
    cases hp : c.PollGet n with
    | ok obj =>
      simp only [ErrWaitTimeout, reduceCtorEq, false_iff]
      rintro ⟨k, hk, ⟨e, he, _⟩, _⟩
      have : k = 0 := by omega
      subst this
      simp [hp] at he
    | error e =>
      by_cases h : c.IsNotFound e = true
      · simp only [h, if_true, true_iff]
        exact ⟨0, le_refl _, ⟨e, by simpa using hp, h⟩, fun j hj => by omega⟩
      · simp only [h, if_false, reduceCtorEq, false_iff]
        rintro ⟨k, hk, ⟨e2, he, hnf⟩, _⟩
        have : k = 0 := by omega
        subst this
        simp only [Nat.add_zero, hp, Except.error.injEq] at he
        subst he
        exact h hnf
  | succ budget ih =>
    intro n
    unfold waitLoop
    cases hp : c.PollGet n with
    | ok obj =>
      simp only []
      rw [ih (n + 1)]
      constructor
      · rintro ⟨k, hk, ⟨e, he, hnf⟩, hbefore⟩
        refine ⟨k + 1, by omega, ⟨e, by rw [← he]; congr 1; omega, hnf⟩, ?_⟩
        intro j hj
        cases j with
        | zero => exact ⟨obj, by simpa using hp⟩
        | succ j =>
          obtain ⟨ob, hob⟩ := hbefore j (by omega)
          exact ⟨ob, by rw [← hob]; congr 1; omega⟩
      · rintro ⟨k, hk, ⟨e, he, hnf⟩, hbefore⟩
        cases k with
        | zero => simp [hp] at he
        | succ k =>
          refine ⟨k, by omega, ⟨e, by rw [← he]; congr 1; omega, hnf⟩, ?_⟩
          intro j hj
          obtain ⟨ob, hob⟩ := hbefore (j + 1) (by omega)
          exact ⟨ob, by rw [← hob]; congr 1; omega⟩
    | error e =>
      by_cases h : c.IsNotFound e = true
      · simp only [h, if_true, true_iff]
        exact ⟨0, Nat.zero_le _, ⟨e, by simpa using hp, h⟩, fun j hj => by omega⟩
      · simp only [h, if_false, reduceCtorEq, false_iff]
        rintro ⟨k, hk, ⟨e2, he, hnf⟩, hbefore⟩
        cases k with
        | zero =>
          simp only [Nat.add_zero, hp, Except.error.injEq] at he
          subst he
          exact h hnf
        | succ k =>
          obtain ⟨ob, hob⟩ := hbefore 0 (by omega)
          simp [hp] at hob

theorem waitLoop_timeout (c : Cluster) :
    ∀ budget n, (∀ k, k ≤ budget → ∃ obj, c.PollGet (n + k) = .ok obj) →
      (waitLoop c budget n).1 = some ErrWaitTimeout := by
  intro budget
  induction budget with
  | zero =>
    intro n h
    obtain ⟨obj, hobj⟩ := h 0 (le_refl _)
    unfold waitLoop
    simp only [Nat.add_zero] at hobj
    simp [hobj]
  | succ budget ih =>
    intro n h
    obtain ⟨obj, hobj⟩ := h 0 (Nat.zero_le _)
    unfold waitLoop
    simp only [Nat.add_zero] at hobj
    simp only [hobj]
    apply ih
    intro k hk
    obtain ⟨ob, hob⟩ := h (k + 1) (by omega)
    exact ⟨ob, by rw [← hob]; congr 1; omega⟩

/-! ## Reconciler: lemmas on finalizers and statuses -/

theorem contains_iff (l : List String) (s : String) : contains l s = true ↔ s ∈ l := by
  induction l with
  | nil => simp [contains]
  | cons e rest ih =>
    by_cases h : e = s
    · simp [contains, h]
    · have h2 : ¬ s = e := fun hc => h hc.symm
      simp [contains, h, h2, ih]

theorem stringsOf_map_str (l : List String) : stringsOf (l.map Value.str) = some l := by
  induction l with
  | nil => rfl
  | cons s rest ih => simp [stringsOf, ih]

theorem mapGet_mapDelete (m : GoMap) (k : String) : mapGet (mapDelete m k) k = none := by
  induction m using GoMap.spine with
  | h0 => rfl
  | hc k1 v1 rest ih =>
    by_cases h : k1 = k
    · simp [mapDelete, h, ih]
    · simp [mapDelete, mapGet, h, ih]

theorem GetFinalizers_SetFinalizers_nil (o : GoMap) :
    GetFinalizers (SetFinalizers o none) = [] := by
  unfold SetFinalizers
  simp only []
  cases hm : mapGet o "metadata" with
  | none => simp [GetFinalizers, nestedGet, hm]
  | some v =>
    cases v with
    | map md => simp [GetFinalizers, nestedGet, mapGet_mapSet, mapGet_mapDelete]
    | _ => simp [GetFinalizers, nestedGet, hm]

theorem GetFinalizers_SetFinalizers (o : GoMap) (fs : List String)
    (h : ∀ v, mapGet o "metadata" = some v → ∃ md, v = .map md) :
    GetFinalizers (SetFinalizers o (some fs)) = fs := by
  unfold SetFinalizers
  simp only []
  cases hm : mapGet o "metadata" with
  | none => simp [GetFinalizers, nestedGet, mapGet_mapSet, mapGet, stringsOf_map_str]
  | some v =>
    obtain ⟨md, rfl⟩ := h v hm
    simp [GetFinalizers, nestedGet, mapGet_mapSet, stringsOf_map_str]

theorem GetFinalizers_RemoveFinalizer (o : GoMap) (fin : String) :
    contains (GetFinalizers (RemoveFinalizer o fin)) fin = false := by
  have hnot : ¬ contains (GetFinalizers (RemoveFinalizer o fin)) fin = true := by
    rw [contains_iff]
    unfold RemoveFinalizer
    cases hsl : finalizersSlice o with
    | none =>
      simp only [Option.map_none']
      rw [GetFinalizers_SetFinalizers_nil o]
      simp
    | some l =>
      have hmap : ∀ v, mapGet o "metadata" = some v → ∃ md, v = .map md := by
        intro v hv
        unfold finalizersSlice nestedGet at hsl
        rw [hv] at hsl
        cases v with
        | map md => exact ⟨md, rfl⟩
        | _ => simp at hsl
      simp only [Option.map_some']
      rw [GetFinalizers_SetFinalizers o _ hmap]
      simp
  cases hc : contains (GetFinalizers (RemoveFinalizer o fin)) fin with
  | false => rfl
  | true => exact absurd hc hnot

theorem GetFinalizers_AddFinalizer (o : GoMap) (fin : String)
    (h : ∀ v, mapGet o "metadata" = some v → ∃ md, v = .map md) :
    contains (GetFinalizers (AddFinalizer o fin)) fin = true := by
  rw [contains_iff]
  unfold AddFinalizer
  by_cases hin : fin ∈ GetFinalizers o
  · simp [hin]
  · simp only [hin, if_false]
    rw [GetFinalizers_SetFinalizers o _ h]
    simp

theorem mapGet_syncStatus_metadata (a : Bool) (o : GoMap) (st : TFConfigStatus) :
    mapGet (syncStatus a o st) "metadata" = mapGet o "metadata" := by
  unfold syncStatus
  cases a with
  | false => simp
  | true =>
    have hne : ¬ ("status" = "metadata") := by decide
    simp [mapGet_mapSet, hne]

theorem GetFinalizers_syncStatus (a : Bool) (o : GoMap) (st : TFConfigStatus) :
    GetFinalizers (syncStatus a o st) = GetFinalizers o := by
  unfold GetFinalizers nestedGet
  rw [mapGet_syncStatus_metadata]

theorem StatusFor_syncStatus (f : GoMap → Except GoError TFConfigStatus) (o : GoMap)
    (st : TFConfigStatus) :
    StatusFor f (syncStatus (statusAliased o) o st) =
      if statusAliased o = true then st else StatusFor f o := by
  unfold syncStatus
  by_cases h : statusAliased o = true
  · simp [h, StatusFor, mapGet_mapSet]
  · simp [h]

theorem mem_setConditionLoop (now : Time) (c : TFConfigCondition)
    (l : List TFConfigCondition) :
    ∀ x ∈ setConditionLoop now c l, x.CondType = c.CondType ∨ x ∈ l := by
  induction l with
  | nil =>
    intro x hx
    simp only [setConditionLoop, List.mem_singleton] at hx
    subst hx
    exact Or.inl rfl
  | cons y rest ih =>
    intro x hx
    by_cases h : y.CondType = c.CondType
    · simp only [setConditionLoop, h, if_true, List.mem_cons] at hx
      rcases hx with hx | hx
      · left
        subst hx
        split_ifs <;> rfl
      · exact Or.inr (List.mem_cons_of_mem _ hx)
    · simp only [setConditionLoop, h, if_false, List.mem_cons] at hx
      rcases hx with hx | hx
      · exact Or.inr (by rw [hx]; exact List.mem_cons_self _ _)
      · rcases ih x hx with h1 | h1
        · exact Or.inl h1
        · exact Or.inr (List.mem_cons_of_mem _ h1)

theorem NewManager_never_nil (parseInto : String → GoMap → Except GoError GoMap)
    (fromUnstructured : GoMap → Except GoError TFConfigStatus) (cr : GoMap)
    (ov : Option StrMap) : NewManager parseInto fromUnstructured cr ov ≠ (none, none) := by
  unfold NewManager getDeployName
  simp only []
  cases mapGet cr "spec" with
  | none => simp
  | some v =>
    cases v with
    | map crValues => cases parseOverrides parseInto ov <;> simp
    | _ => simp

end Terraform

namespace Terraform

/-! ## Reconciler: statements -/

/-- C17: when the store answers the fetch with a not-found error, `Reconcile`
returns an empty result (no requeue) and no error, and its trace holds the
fetch and nothing else: no manager is built, no manager operation is invoked,
and neither the resource nor its status is written. -/
theorem Reconcile_absent (c : Cluster) (r : TerraformReconciler) (request : Request)
    (e : GoError) (hget : c.Get request.Namespace request.Name = .error e)
    (hnf : c.IsNotFound e = true) :
    (Reconcile c r request).result = {} ∧ (Reconcile c r request).err = none ∧
      (Reconcile c r request).result.Requeue = false ∧
      (Reconcile c r request).result.RequeueAfter = 0 ∧
      buildsManager (Reconcile c r request).trace = false ∧
      opsOf (Reconcile c r request).trace = [] ∧
      resourceWrites (Reconcile c r request).trace = [] ∧
      statusWrites (Reconcile c r request).trace = [] := by
  simp [Reconcile, hget, hnf, buildsManager, opsOf, resourceWrites, statusWrites]

/-- Witness for C17: the cluster whose store does not hold the resource. -/
theorem Reconcile_absent_witness :
    (Reconcile absentCluster sampleReconciler ⟨"ns", "x"⟩).result = {} ∧
      (Reconcile absentCluster sampleReconciler ⟨"ns", "x"⟩).err = none ∧
      (Reconcile absentCluster sampleReconciler ⟨"ns", "x"⟩).result.Requeue = false ∧
      (Reconcile absentCluster sampleReconciler ⟨"ns", "x"⟩).result.RequeueAfter = 0 ∧
      buildsManager (Reconcile absentCluster sampleReconciler ⟨"ns", "x"⟩).trace = false ∧
      opsOf (Reconcile absentCluster sampleReconciler ⟨"ns", "x"⟩).trace = [] ∧
      resourceWrites (Reconcile absentCluster sampleReconciler ⟨"ns", "x"⟩).trace = [] ∧
      statusWrites (Reconcile absentCluster sampleReconciler ⟨"ns", "x"⟩).trace = [] :=
  Reconcile_absent absentCluster sampleReconciler ⟨"ns", "x"⟩ (.msg "not found") rfl rfl

/-- C18, as the code behaves: a resource that carries a deletion timestamp and
no finalizer, and has no `spec`, makes `Reconcile` return the error of the
manager construction, not success. -/
theorem deleting_without_spec_fails :
    (GetDeletionTimestamp (sampleCluster deletingWithoutSpec okTool).parseTime
        deletingWithoutSpec).isSome = true ∧
      contains (GetFinalizers deletingWithoutSpec) finalizer = false ∧
      (Reconcile (sampleCluster deletingWithoutSpec okTool) sampleReconciler ⟨"ns", "x"⟩).err =
        some (.msg "failed to get spec: expected map") := by
  refine ⟨?_, ?_, ?_⟩ <;> decide

/-- C18, amended: for every fetched resource that carries a deletion timestamp
and not the finalizer, `Reconcile` invokes no manager operation, writes neither
the resource nor its status and asks for no requeue; the error it returns is
the error of the manager construction, so it returns success exactly when the
manager can be built. -/
theorem deletion_without_finalizer (c : Cluster) (r : TerraformReconciler) (request : Request)
    (o : GoMap) (hget : c.Get request.Namespace request.Name = .ok o)
    (hdel : (GetDeletionTimestamp c.parseTime o).isSome = true)
    (hfin : contains (GetFinalizers o) finalizer = false) :
    opsOf (Reconcile c r request).trace = [] ∧
      resourceWrites (Reconcile c r request).trace = [] ∧
      statusWrites (Reconcile c r request).trace = [] ∧
      (Reconcile c r request).result = {} ∧
      (Reconcile c r request).err =
        (NewManager c.parseInto c.fromUnstructured o r.OverrideValues).2 ∧
      ((∃ m, NewManager c.parseInto c.fromUnstructured o r.OverrideValues = (some m, none)) →
        (Reconcile c r request).err = none) := by
  have hnn := NewManager_never_nil c.parseInto c.fromUnstructured o r.OverrideValues
  unfold Reconcile
  simp only [hget]
  generalize NewManager c.parseInto c.fromUnstructured o r.OverrideValues = nm at hnn ⊢
  obtain ⟨mo, eo⟩ := nm
  cases eo with
  | some err => simp [opsOf, resourceWrites, statusWrites]
  | none =>
    cases mo with
    | none => exact absurd rfl hnn
    | some m =>
      simp [hdel, Outcome.after, deleteHandler, hfin, opsOf, resourceWrites, statusWrites]

/-- Witness for C18: a resource under deletion without the finalizer and with
an empty `spec`. -/
theorem deletion_without_finalizer_witness :
    opsOf (Reconcile (sampleCluster deletingWithoutFinalizer okTool) sampleReconciler
        ⟨"ns", "x"⟩).trace = [] ∧
      resourceWrites (Reconcile (sampleCluster deletingWithoutFinalizer okTool) sampleReconciler
        ⟨"ns", "x"⟩).trace = [] ∧
      statusWrites (Reconcile (sampleCluster deletingWithoutFinalizer okTool) sampleReconciler
        ⟨"ns", "x"⟩).trace = [] ∧
      (Reconcile (sampleCluster deletingWithoutFinalizer okTool) sampleReconciler
        ⟨"ns", "x"⟩).result = {} ∧
      (Reconcile (sampleCluster deletingWithoutFinalizer okTool) sampleReconciler
        ⟨"ns", "x"⟩).err =
        (NewManager (sampleCluster deletingWithoutFinalizer okTool).parseInto
          (sampleCluster deletingWithoutFinalizer okTool).fromUnstructured
          deletingWithoutFinalizer sampleReconciler.OverrideValues).2 ∧
      ((∃ m, NewManager (sampleCluster deletingWithoutFinalizer okTool).parseInto
          (sampleCluster deletingWithoutFinalizer okTool).fromUnstructured
          deletingWithoutFinalizer sampleReconciler.OverrideValues = (some m, none)) →
        (Reconcile (sampleCluster deletingWithoutFinalizer okTool) sampleReconciler
          ⟨"ns", "x"⟩).err = none) :=
  deletion_without_finalizer (sampleCluster deletingWithoutFinalizer okTool) sampleReconciler
    ⟨"ns", "x"⟩ deletingWithoutFinalizer rfl (by decide) (by decide)

end Terraform

namespace Terraform

/-! ## Reconciler: the deletion and creation handlers -/

theorem updateResourceStatus_trace (c : Cluster) (o : GoMap) (st : TFConfigStatus) :
    opsOf (updateResourceStatus c o st).events = [] ∧
      resourceWrites (updateResourceStatus c o st).events = [] ∧
      ((updateResourceStatus c o st).err = none →
        persistedStatus (updateResourceStatus c o st).events = some st) ∧
      ((updateResourceStatus c o st).err ≠ none →
        persistedStatus (updateResourceStatus c o st).events = none) :=
  updateResourceStatusLoop_trace c st 3 0 o

theorem updateResource_trace (c : Cluster) (o : GoMap) :
    opsOf (updateResource c o).events = [] ∧
      statusWrites (updateResource c o).events = [] ∧
      ((updateResource c o).err = none →
        persistedResource (updateResource c o).events = some o) ∧
      ((updateResource c o).err ≠ none →
        persistedResource (updateResource c o).events = none) :=
  updateResourceLoop_trace c o 3 0

theorem persistedStatus_of_writes (t1 t2 : List Event) (h : statusWrites t1 = statusWrites t2) :
    persistedStatus t1 = persistedStatus t2 := by
  unfold persistedStatus
  rw [h]

theorem persistedResource_of_writes (t1 t2 : List Event)
    (h : resourceWrites t1 = resourceWrites t2) :
    persistedResource t1 = persistedResource t2 := by
  unfold persistedResource
  rw [h]

theorem deleteHandler_spec (c : Cluster) (r : TerraformReconciler) (o : GoMap) (m : manager)
    (hfin : contains (GetFinalizers o) finalizer = true) :
    opsOf (deleteHandler c r o m).trace = [.Delete] ∧ (deleteHandler c r o m).result = {} ∧
      ((manager.Delete m (c.tool .Delete)).2 = none →
        ∀ st p, persistedStatus (deleteHandler c r o m).trace = some st →
          persistedResource (deleteHandler c r o m).trace = some p →
          st = { (((StatusFor c.fromUnstructured o).RemoveCondition
                  ConditionConfigFailed).SetCondition (c.Now 0)
                  ⟨ConditionDeployed, StatusFalse, ReasonDeleteSuccessful, "", 0⟩) with
                DeployedConfig := none } ∧
            contains (GetFinalizers p) finalizer = false ∧
            (deleteHandler c r o m).err = (waitForDeletion c).1) := by
  unfold deleteHandler
  simp only [hfin, Bool.not_true, Bool.false_eq_true, if_false]
  cases hd : (manager.Delete m (c.tool .Delete)).2 with
  | some err =>
    simp only []
    refine ⟨?_, trivial, fun hc => by cases hc⟩
    simp [opsOf, (updateResourceStatus_trace c o _).1]
  | none =>
    simp only []
    generalize hst : ({ (((StatusFor c.fromUnstructured o).RemoveCondition
        ConditionConfigFailed).SetCondition (c.Now 0)
        ⟨ConditionDeployed, StatusFalse, ReasonDeleteSuccessful, "", 0⟩) with
        DeployedConfig := none } : TFConfigStatus) = st3
    have hw := updateResourceStatus_trace c o st3
    cases hwe : (updateResourceStatus c o st3).err with
    | some e =>
      simp only []
      refine ⟨by simp [opsOf, hw.1], trivial, ?_⟩
      intro _ st p hps _
      have hnone := hw.2.2.2 (by rw [hwe]; simp)
      rw [persistedStatus_of_writes _ (updateResourceStatus c o st3).events
        (by simp [statusWrites])] at hps
      rw [hnone] at hps
      cases hps
    | none =>
      simp only []
      have hu := updateResource_trace c (RemoveFinalizer (updateResourceStatus c o st3).o finalizer)
      cases hue : (updateResource c
          (RemoveFinalizer (updateResourceStatus c o st3).o finalizer)).err with
      | some e =>
        simp only []
        refine ⟨by simp [opsOf, opsOf_append, hw.1, hu.1], trivial, ?_⟩
        intro _ st p _ hpr
        have hnone := hu.2.2.2 (by rw [hue]; simp)
        rw [persistedResource_of_writes _
          (updateResource c (RemoveFinalizer (updateResourceStatus c o st3).o finalizer)).events
          (by simp [resourceWrites, resourceWrites_append, hw.2.1])] at hpr
        rw [hnone] at hpr
        cases hpr
      | none =>
        simp only []
        have hp := waitLoop_trace c c.PollBudget 0
        refine ⟨by simp [opsOf, opsOf_append, hw.1, hu.1, waitForDeletion, hp.1], trivial, ?_⟩
        intro _ st p hps hpr
        rw [persistedStatus_of_writes _ (updateResourceStatus c o st3).events
          (by simp [statusWrites, statusWrites_append, hu.2.1, waitForDeletion, hp.2.2]),
          hw.2.2.1 hwe] at hps
        rw [persistedResource_of_writes _
          (updateResource c (RemoveFinalizer (updateResourceStatus c o st3).o finalizer)).events
          (by simp [resourceWrites, resourceWrites_append, hw.2.1, waitForDeletion, hp.2.1]),
          hu.2.2.1 hue] at hpr
        cases hps
        cases hpr
        exact ⟨rfl, GetFinalizers_RemoveFinalizer _ _, trivial⟩

theorem setCondition_nodup (s : TFConfigStatus) (now : Time) (c : TFConfigCondition)
    (h : (s.Conditions.map (fun x => x.CondType)).Nodup) :
    ((s.SetCondition now c).Conditions.map (fun x => x.CondType)).Nodup := by
  unfold TFConfigStatus.SetCondition
  simp only [types_setConditionLoop]
  split_ifs with hm
  · exact h
  · rw [List.nodup_append]
    refine ⟨h, by simp, ?_⟩
    intro x hx hx2
    simp only [List.mem_singleton] at hx2
    subst hx2
    exact hm hx

theorem removeCondition_nodup (s : TFConfigStatus) (t : String)
    (h : (s.Conditions.map (fun x => x.CondType)).Nodup) :
    ((s.RemoveCondition t).Conditions.map (fun x => x.CondType)).Nodup := by
  unfold TFConfigStatus.RemoveCondition
  exact List.Nodup.sublist ((removeConditionLoop_sublist t s.Conditions).map _) h

theorem no_failed_after_success (s : TFConfigStatus) (now : Time) (c : TFConfigCondition)
    (hc : c.CondType ≠ ConditionConfigFailed)
    (h : (s.Conditions.map (fun x => x.CondType)).Nodup) :
    ∀ x ∈ ((s.RemoveCondition ConditionConfigFailed).SetCondition now c).Conditions,
      x.CondType ≠ ConditionConfigFailed := by
  intro x hx
  unfold TFConfigStatus.SetCondition TFConfigStatus.RemoveCondition at hx
  rcases mem_setConditionLoop now c _ x hx with h1 | h1
  · rw [h1]; exact hc
  · exact removeConditionLoop_none_left ConditionConfigFailed s.Conditions h x h1

theorem persisted_after (pre t : List Event) (h1 : statusWrites pre = [])
    (h2 : resourceWrites pre = []) (out : Outcome) (ht : out.trace = t) :
    persistedStatus (out.after pre).trace = persistedStatus t ∧
      persistedResource (out.after pre).trace = persistedResource t ∧
      opsOf (out.after pre).trace = opsOf pre ++ opsOf t ∧ (out.after pre).err = out.err ∧
      (out.after pre).result = out.result := by
  subst ht
  refine ⟨?_, ?_, ?_, rfl, rfl⟩
  · exact persistedStatus_of_writes _ _ (by simp [Outcome.after, statusWrites_append, h1])
  · exact persistedResource_of_writes _ _ (by simp [Outcome.after, resourceWrites_append, h2])
  · simp [Outcome.after, opsOf_append]

end Terraform

namespace Terraform

/-! ## Reconciler: more lemmas on traces -/

theorem opResults_append (a b : List Event) : opResults (a ++ b) = opResults a ++ opResults b := by
  induction a with
  | nil => rfl
  | cons e rest ih => cases e <;> simp [opResults, ih]

theorem opsOf_eq_map (t : List Event) : opsOf t = (opResults t).map Prod.fst := by
  induction t with
  | nil => rfl
  | cons e rest ih => cases e <;> simp [opsOf, opResults, ih]

theorem opResults_nil_of_opsOf (t : List Event) (h : opsOf t = []) : opResults t = [] := by
  rw [opsOf_eq_map] at h
  simpa using h

theorem untilOp_quiet (op : ManagerOp) (a b : List Event) (h : opsOf a = []) :
    untilOp op (a ++ b) = a ++ untilOp op b := by
  induction a with
  | nil => rfl
  | cons e rest ih =>
    cases e with
    | op o err => simp [opsOf] at h
    | _ => simp only [opsOf] at h; simp [untilOp, ih h]

theorem updateResourceStatusLoop_writes (c : Cluster) (st : TFConfigStatus) :
    ∀ more n o,
      (∀ p ∈ statusWrites (updateResourceStatusLoop c st more n o).events, p.1 = st) ∧
      statusWrites (updateResourceStatusLoop c st more n o).events ≠ [] := by
  intro more
  induction more with
  | zero =>
    intro n o
    unfold updateResourceStatusLoop
    cases c.StatusUpdate n (mapSet o "status" (.status st)) <;> simp [statusWrites]
  | succ more ih =>
    intro n o
    unfold updateResourceStatusLoop
    cases c.StatusUpdate n (mapSet o "status" (.status st)) with
    | ok o1 => simp [statusWrites]
    | error e =>
      by_cases hc : c.IsConflict e = true
      · have h := ih (n + 1) (mapSet o "status" (.status st))
        simp only [hc, if_true, statusWrites, List.mem_cons, ne_eq, reduceCtorEq,
          not_false_eq_true, and_true]
        rintro p (hp | hp)
        · rw [hp]
        · exact h.1 p hp
      · simp [hc, statusWrites]

theorem updateResourceStatus_writes (c : Cluster) (o : GoMap) (st : TFConfigStatus) :
    (∀ p ∈ statusWrites (updateResourceStatus c o st).events, p.1 = st) ∧
      statusWrites (updateResourceStatus c o st).events ≠ [] :=
  updateResourceStatusLoop_writes c st 3 0 o

theorem updateResourceLoop_writes (c : Cluster) (o : GoMap) :
    ∀ more n,
      (∀ p ∈ resourceWrites (updateResourceLoop c more n o).events, p.1 = o) ∧
      (o, (updateResourceLoop c more n o).err) ∈
        resourceWrites (updateResourceLoop c more n o).events ∧
      ((updateResourceLoop c more n o).err = none →
        ∃ k, c.Update k o = .ok (updateResourceLoop c more n o).o) := by
  intro more
  induction more with
  | zero =>
    intro n
    unfold updateResourceLoop
    cases hu : c.Update n o with
    | ok o1 => simp only [resourceWrites]; exact ⟨by simp, by simp, fun _ => ⟨n, hu⟩⟩
    | error e => simp [resourceWrites]
  | succ more ih =>
    intro n
    unfold updateResourceLoop
    cases hu : c.Update n o with
    | ok o1 => simp only [resourceWrites]; exact ⟨by simp, by simp, fun _ => ⟨n, hu⟩⟩
    | error e =>
      by_cases hc : c.IsConflict e = true
      · have h := ih (n + 1)
        simp only [hc, if_true, resourceWrites, List.mem_cons]
        refine ⟨?_, Or.inr h.2.1, h.2.2⟩
        rintro p (hp | hp)
        · rw [hp]
        · exact h.1 p hp
      · simp [hc, resourceWrites]

theorem updateResource_writes (c : Cluster) (o : GoMap) :
    (∀ p ∈ resourceWrites (updateResource c o).events, p.1 = o) ∧
      (o, (updateResource c o).err) ∈ resourceWrites (updateResource c o).events ∧
      ((updateResource c o).err = none → ∃ k, c.Update k o = .ok (updateResource c o).o) :=
  updateResourceLoop_writes c o 3 0

theorem persistedStatus_mem (t : List Event) (st : TFConfigStatus)
    (h : persistedStatus t = some st) : (st, none) ∈ statusWrites t := by
  unfold persistedStatus at h
  cases hf : (statusWrites t).find? (fun p => p.2.isNone) with
  | none => simp [hf] at h
  | some p =>
    simp only [hf, Option.map_some', Option.some.injEq] at h
    have h1 := List.find?_some hf
    have h2 := List.mem_of_find?_eq_some hf
    obtain ⟨a, b⟩ := p
    simp only at h h1
    subst h
    cases b with
    | none => exact h2
    | some e => simp at h1

theorem find_setConditionLoop_other (now : Time) (c : TFConfigCondition)
    (l : List TFConfigCondition) (t : String) (h : t ≠ c.CondType) :
    (setConditionLoop now c l).find? (fun x => x.CondType == t) =
      l.find? (fun x => x.CondType == t) := by
  have h2 : ¬ c.CondType = t := fun hc => h hc.symm
  induction l with
  | nil => simp [setConditionLoop, h2]
  | cons x rest ih =>
    by_cases hx : x.CondType = c.CondType
    · have hxt : ¬ x.CondType = t := by rw [hx]; exact h2
      by_cases hs : x.Status = c.Status
      · simp [setConditionLoop, hx, hs, h2, List.find?_cons, hxt]
      · simp [setConditionLoop, hx, hs, h2, List.find?_cons, hxt]
    · by_cases hxt : x.CondType = t
      · simp [setConditionLoop, hx, List.find?_cons, hxt, h]
      · simp [setConditionLoop, hx, List.find?_cons, hxt, ih]

theorem holdsCondition_set (s : TFConfigStatus) (now : Time) (t st r msg : String) :
    holdsCondition (s.SetCondition now ⟨t, st, r, msg, 0⟩) t st r msg :=
  ⟨_, find_setConditionLoop now ⟨t, st, r, msg, 0⟩ s.Conditions⟩

theorem Reconcile_hook_never_fails (m : manager) (run : Runner) :
    (manager.Reconcile m run).2 = none := rfl

theorem reconcileTail_eq (c : Cluster) (r : TerraformReconciler) (o : GoMap) (m : manager)
    (status : TFConfigStatus) :
    reconcileTail c r o m status =
      if m.IsUpdateRequired = true then updateHandler c r o m
      else afterReconcileHook c r o (status.RemoveCondition ConditionConfigFailed)
        (manager.Reconcile m (c.tool .Reconcile)).2 := by
  unfold reconcileTail afterReconcileHook
  by_cases h : m.IsUpdateRequired = true
  · simp [h]
  · simp [h, manager.Reconcile]

theorem Reconcile_dispatch (c : Cluster) (r : TerraformReconciler) (request : Request)
    (o : GoMap) (m : manager) (hget : c.Get request.Namespace request.Name = .ok o)
    (hm : NewManager c.parseInto c.fromUnstructured o r.OverrideValues = (some m, none)) :
    Reconcile c r request =
      if (GetDeletionTimestamp c.parseTime o).isSome = true then
        (deleteHandler c r o m).after [.get, .newManager]
      else (reconcileActive c r o m).after [.get, .newManager] := by
  unfold Reconcile
  simp only [hget, hm]

theorem reconcileActive_failed (c : Cluster) (r : TerraformReconciler) (o : GoMap)
    (m m1 : manager) (err : GoError)
    (href : manager.Refresh m (c.tool .Refresh) = (m1, some err)) :
    reconcileActive c r o m =
      ⟨{}, some err,
       .op .Refresh (some err) ::
         (updateResourceStatus c o
            (((StatusFor c.fromUnstructured o).SetCondition (c.Now 0)
                ⟨ConditionInitialized, StatusTrue, "", "", 0⟩).SetCondition (c.Now 1)
              ⟨ConditionIrreconcilable, StatusTrue, ReasonReconcileError, err.Error, 0⟩)).events⟩ := by
  unfold reconcileActive
  simp only [href]

theorem reconcileActive_create (c : Cluster) (r : TerraformReconciler) (o : GoMap)
    (m m1 : manager) (href : manager.Refresh m (c.tool .Refresh) = (m1, none))
    (hex : m1.Exists = false) :
    reconcileActive c r o m =
      (createHandler c r (activeObject c o) m1).after [.op .Refresh none] := by
  unfold reconcileActive activeObject activeStatus
  simp only [href, hex, Bool.not_false, if_true]

theorem reconcileActive_exists (c : Cluster) (r : TerraformReconciler) (o : GoMap)
    (m m1 : manager) (href : manager.Refresh m (c.tool .Refresh) = (m1, none))
    (hex : m1.Exists = true) :
    reconcileActive c r o m =
      if contains (GetFinalizers o) finalizer = true then
        (reconcileTail c r (activeObject c o) m1 (activeStatus c o)).after [.op .Refresh none]
      else
        match (updateResource c (AddFinalizer (activeObject c o) finalizer)).err with
        | some e =>
          ⟨{}, some e,
           .op .Refresh none ::
             (updateResource c (AddFinalizer (activeObject c o) finalizer)).events⟩
        | none =>
          (reconcileTail c r (updateResource c (AddFinalizer (activeObject c o) finalizer)).o
            m1 (activeStatus c o)).after
            (.op .Refresh none ::
              (updateResource c (AddFinalizer (activeObject c o) finalizer)).events) := by
  unfold reconcileActive
  simp only [href, hex, Bool.not_true, Bool.false_eq_true, if_false, GetFinalizers_syncStatus]
  unfold activeObject activeStatus
  by_cases hf : contains (GetFinalizers o) finalizer = true
  · simp [hf]
  · have hf2 : contains (GetFinalizers o) finalizer = false := by simpa using hf
    simp [hf2]

end Terraform

namespace Terraform

/-! ## Reconciler: the refresh-failure path and the flags of the manager -/

theorem persistedStatus_eq_of_writes (t : List Event) (s st : TFConfigStatus)
    (h : ∀ p ∈ statusWrites t, p.1 = s) (hp : persistedStatus t = some st) : st = s :=
  h _ (persistedStatus_mem t st hp)

/-- C22 (Scenario D): when the resource has no deletion timestamp and `Refresh`
fails, `Reconcile` returns that error with an empty result (no requeue delay),
invokes `Refresh` and no other manager operation, writes no resource, attempts
a status write, and a status it persists holds `Irreconcilable` with status
`True`, reason `ReconcileError` and the error text as message, while its
`Deployed` condition is the one of the stored status, present or absent. -/
theorem refresh_failure_path (c : Cluster) (r : TerraformReconciler) (request : Request)
    (o : GoMap) (m m1 : manager) (err : GoError)
    (hget : c.Get request.Namespace request.Name = .ok o)
    (hm : NewManager c.parseInto c.fromUnstructured o r.OverrideValues = (some m, none))
    (hdel : GetDeletionTimestamp c.parseTime o = none)
    (href : manager.Refresh m (c.tool .Refresh) = (m1, some err)) :
    (Reconcile c r request).err = some err ∧
      (Reconcile c r request).result = {} ∧
      (Reconcile c r request).result.RequeueAfter = 0 ∧
      (Reconcile c r request).result.Requeue = false ∧
      opsOf (Reconcile c r request).trace = [.Refresh] ∧
      resourceWrites (Reconcile c r request).trace = [] ∧
      statusWrites (Reconcile c r request).trace ≠ [] ∧
      ∀ st, persistedStatus (Reconcile c r request).trace = some st →
        holdsCondition st ConditionIrreconcilable StatusTrue ReasonReconcileError err.Error ∧
        st.Conditions.find? (fun x => x.CondType == ConditionDeployed) =
          (StatusFor c.fromUnstructured o).Conditions.find?
            (fun x => x.CondType == ConditionDeployed) := by
  rw [Reconcile_dispatch c r request o m hget hm, reconcileActive_failed c r o m m1 err href]
  simp only [hdel, Option.isSome_none, Bool.false_eq_true, if_false, Outcome.after]
  generalize hst : ((StatusFor c.fromUnstructured o).SetCondition (c.Now 0)
    ⟨ConditionInitialized, StatusTrue, "", "", 0⟩) = st1
  have hw := updateResourceStatus_trace c o (st1.SetCondition (c.Now 1)
    ⟨ConditionIrreconcilable, StatusTrue, ReasonReconcileError, err.Error, 0⟩)
  have hw2 := updateResourceStatus_writes c o (st1.SetCondition (c.Now 1)
    ⟨ConditionIrreconcilable, StatusTrue, ReasonReconcileError, err.Error, 0⟩)
  refine ⟨trivial, trivial, trivial, trivial, ?_, ?_, ?_, ?_⟩
  · simp [opsOf, hw.1]
  · simp [resourceWrites, hw.2.1]
  · simpa [statusWrites] using hw2.2
  · intro st hp
    have hst2 := persistedStatus_eq_of_writes _ _ st (by simpa [statusWrites] using hw2.1) hp
    subst hst2
    refine ⟨holdsCondition_set _ _ _ _ _ _, ?_⟩
    subst hst
    unfold TFConfigStatus.SetCondition
    simp only []
    have h1 : ConditionDeployed ≠ ConditionIrreconcilable := by decide
    have h2 : ConditionDeployed ≠ ConditionInitialized := by decide
    rw [find_setConditionLoop_other _ _ _ _ h1, find_setConditionLoop_other _ _ _ _ h2]

/-- Witness for C22: the sample resource with a tool whose every command fails. -/
theorem refresh_failure_path_witness :
    (Reconcile brokenCluster sampleReconciler sampleRequest).err =
        some (.wrap "failed to check deployment status: " (.msg "exit status 1")) ∧
      (Reconcile brokenCluster sampleReconciler sampleRequest).result = {} ∧
      (Reconcile brokenCluster sampleReconciler sampleRequest).result.RequeueAfter = 0 ∧
      (Reconcile brokenCluster sampleReconciler sampleRequest).result.Requeue = false ∧
      opsOf (Reconcile brokenCluster sampleReconciler sampleRequest).trace = [.Refresh] ∧
      resourceWrites (Reconcile brokenCluster sampleReconciler sampleRequest).trace = [] ∧
      statusWrites (Reconcile brokenCluster sampleReconciler sampleRequest).trace ≠ [] ∧
      ∀ st, persistedStatus (Reconcile brokenCluster sampleReconciler sampleRequest).trace =
          some st →
        holdsCondition st ConditionIrreconcilable StatusTrue ReasonReconcileError
          (GoError.wrap "failed to check deployment status: " (.msg "exit status 1")).Error ∧
        st.Conditions.find? (fun x => x.CondType == ConditionDeployed) =
          (StatusFor brokenCluster.fromUnstructured freshResource).Conditions.find?
            (fun x => x.CondType == ConditionDeployed) :=
  refresh_failure_path brokenCluster sampleReconciler sampleRequest freshResource
    sampleManager sampleManager _ rfl rfl rfl rfl

end Terraform

namespace Terraform

/-! ## Reconciler: what the create and update paths persist -/

/-- C24, as the code behaves: `createHandler` and `updateHandler` read the
status of the object afresh, so the `Initialized` condition that `Reconcile`
set on its own copy is not in the status they persist.  For a resource without
a deletion timestamp and without a stored status, the create path persists a
status holding only `Deployed/True/CreateSuccessful` and the update path one
holding only `Deployed/True/UpdateSuccessful`, while the steady-state path and
the refresh-failure path persist `Initialized/True` as well. -/
theorem Initialized_lost_on_create_and_update :
    GetDeletionTimestamp freshCluster.parseTime freshResource = none ∧
      opsOf (Reconcile freshCluster sampleReconciler sampleRequest).trace = [.Refresh, .Create] ∧
      persistedStatus (Reconcile freshCluster sampleReconciler sampleRequest).trace =
        some ⟨[⟨ConditionDeployed, StatusTrue, ReasonCreateSuccessful, "", 101⟩], none⟩ ∧
      opsOf (Reconcile updateCluster sampleReconciler sampleRequest).trace = [.Refresh, .Update] ∧
      persistedStatus (Reconcile updateCluster sampleReconciler sampleRequest).trace =
        some ⟨[⟨ConditionDeployed, StatusTrue, ReasonUpdateSuccessful,
                "Configuration change updated", 101⟩], none⟩ ∧
      opsOf (Reconcile steadyCluster sampleReconciler sampleRequest).trace =
        [.Refresh, .Reconcile] ∧
      persistedStatus (Reconcile steadyCluster sampleReconciler sampleRequest).trace =
        some ⟨[⟨ConditionInitialized, StatusTrue, "", "", 100⟩,
               ⟨ConditionDeployed, StatusTrue, ReasonUpdateSuccessful, "", 101⟩], none⟩ ∧
      opsOf (Reconcile brokenCluster sampleReconciler sampleRequest).trace = [.Refresh] ∧
      persistedStatus (Reconcile brokenCluster sampleReconciler sampleRequest).trace =
        some ⟨[⟨ConditionInitialized, StatusTrue, "", "", 100⟩,
               ⟨ConditionIrreconcilable, StatusTrue, ReasonReconcileError,
                "failed to check deployment status: exit status 1", 101⟩], none⟩ := by
  decide

/-- C25, as the code behaves: a resource without a deletion timestamp whose
stored status holds `Irreconcilable` is reconciled with a successful `Refresh`
and a successful `Update`, and the status that is persisted still holds the
stored `Irreconcilable` condition, because `updateHandler` reads the status of
the object afresh. -/
theorem Irreconcilable_kept_on_update :
    GetDeletionTimestamp recoveredCluster.parseTime irreconcilableResource = none ∧
      ((StatusFor recoveredCluster.fromUnstructured irreconcilableResource).Conditions.find?
        (fun x => x.CondType == ConditionIrreconcilable)).isSome = true ∧
      opResults (Reconcile recoveredCluster sampleReconciler sampleRequest).trace =
        [(.Refresh, none), (.Update, none)] ∧
      (Reconcile recoveredCluster sampleReconciler sampleRequest).err = none ∧
      persistedStatus (Reconcile recoveredCluster sampleReconciler sampleRequest).trace =
        some ⟨[⟨ConditionIrreconcilable, StatusTrue, ReasonReconcileError, "exit status 1", 0⟩,
               ⟨ConditionDeployed, StatusTrue, ReasonUpdateSuccessful,
                "Configuration change updated", 101⟩], none⟩ := by
  decide

/-! ## Manager: the flags after a failed `Refresh` -/

/-- C30: when `Refresh` returns an error, which it does exactly when the plan
run fails with an exit code other than 2, the existence flag is true exactly
when the state inspection exited with zero and the update-required flag is the
one the manager had before the call (it can stay true); a manager that the
factory builds has both flags false, and `Create`, `Update`, `Reconcile` and
`Delete` leave them so. -/
theorem Refresh_error_keeps_update_flag :
    (∀ (m : manager) (run : Runner),
        ((manager.Refresh m run).2 ≠ none ↔
          (run ["terraform", "plan", "--detailed-exitcode"]).runErr ≠ none ∧
            (run ["terraform", "plan", "--detailed-exitcode"]).ExitCode ≠ 2) ∧
        ((manager.Refresh m run).2 ≠ none →
          ((manager.Refresh m run).1.Exists = true ↔
            run ["terraform", "state", "list"] = .exited 0) ∧
          (manager.Refresh m run).1.IsUpdateRequired = m.IsUpdateRequired)) ∧
      (manager.Refresh { sampleManager with existsFlag := true, isUpdateRequired := true }
          failingTool).2 ≠ none ∧
      (manager.Refresh { sampleManager with existsFlag := true, isUpdateRequired := true }
          failingTool).1.Exists = false ∧
      (manager.Refresh { sampleManager with existsFlag := true, isUpdateRequired := true }
          failingTool).1.IsUpdateRequired = true ∧
      (∀ (parseInto : String → GoMap → Except GoError GoMap)
          (fromUnstructured : GoMap → Except GoError TFConfigStatus) (cr : GoMap)
          (overrideValues : Option StrMap) (m : manager),
        NewManager parseInto fromUnstructured cr overrideValues = (some m, none) →
        m.Exists = false ∧ m.IsUpdateRequired = false ∧
          ∀ run : Runner,
            (manager.Create m run).1.Exists = false ∧
            (manager.Create m run).1.IsUpdateRequired = false ∧
            (manager.Update m run).1.Exists = false ∧
            (manager.Update m run).1.IsUpdateRequired = false ∧
            (manager.Reconcile m run).1.Exists = false ∧
            (manager.Reconcile m run).1.IsUpdateRequired = false ∧
            (manager.Delete m run).1.Exists = false ∧
            (manager.Delete m run).1.IsUpdateRequired = false) := by
  refine ⟨?_, by decide, by decide, by decide, ?_⟩
  · intro m run
    unfold manager.Refresh manager.Exists manager.IsUpdateRequired
    rw [← runErr_eq_none_iff]
    cases hs : (run ["terraform", "state", "list"]).runErr <;>
      cases hp : (run ["terraform", "plan", "--detailed-exitcode"]).runErr <;>
        simp only [] <;> (try split_ifs) <;> simp_all
  · intro parseInto fromUnstructured cr overrideValues m h
    have hflags : m.existsFlag = false ∧ m.isUpdateRequired = false := by
      unfold NewManager at h
      cases hd : getDeployName cr with
      | mk dn de =>
        rw [hd] at h
        cases de with
        | some e => simp at h
        | none =>
          simp only [] at h
          split at h
          · split at h
            · simp at h
            · simp only [Prod.mk.injEq, Option.some.injEq, and_true] at h
              subst h
              exact ⟨rfl, rfl⟩
          · simp at h
    have hc : ∀ run, (manager.Create m run).1 = m := by
      intro run
      unfold manager.Create; cases (run ["terraform", "apply", "-auto-approve"]).runErr <;> rfl
    have hu : ∀ run, (manager.Update m run).1 = m := by
      intro run
      unfold manager.Update; cases (run ["terraform", "apply", "-auto-approve"]).runErr <;> rfl
    have hd : ∀ run, (manager.Delete m run).1 = m := by
      intro run
      unfold manager.Delete; cases (run ["terraform", "destroy", "-auto-approve"]).runErr <;> rfl
    have hr : ∀ run, (manager.Reconcile m run).1 = m := fun _ => rfl
    refine ⟨hflags.1, hflags.2, fun run => ?_⟩
    rw [hc, hu, hd, hr]
    exact ⟨hflags.1, hflags.2, hflags.1, hflags.2, hflags.1, hflags.2, hflags.1, hflags.2⟩

end Terraform

namespace Terraform

/-! ## Reconciler: the update handler and the steady-state end -/

theorem opResults_overrideEvents (r : TerraformReconciler) : opResults (overrideEvents r) = [] :=
  opResults_nil_of_opsOf _ (overrideEvents_quiet r).1

theorem opResults_status_events (c : Cluster) (o : GoMap) (st : TFConfigStatus) :
    opResults (updateResourceStatus c o st).events = [] :=
  opResults_nil_of_opsOf _ (updateResourceStatus_trace c o st).1

theorem opResults_resource_events (c : Cluster) (o : GoMap) :
    opResults (updateResource c o).events = [] :=
  opResults_nil_of_opsOf _ (updateResource_trace c o).1

theorem opResults_wait_events (c : Cluster) : opResults (waitForDeletion c).2 = [] :=
  opResults_nil_of_opsOf _ (waitLoop_trace c c.PollBudget 0).1

theorem updateHandler_failed (c : Cluster) (r : TerraformReconciler) (o : GoMap) (m : manager)
    (err : GoError) (h : (manager.Update m (c.tool .Update)).2 = some err) :
    updateHandler c r o m =
      ⟨{}, some err,
       overrideEvents r ++ .op .Update (some err) ::
         (updateResourceStatus c o
           ((StatusFor c.fromUnstructured o).SetCondition (c.Now 1)
             ⟨ConditionConfigFailed, StatusTrue, ReasonUpdateError, err.Error, 0⟩)).events⟩ := by
  unfold updateHandler
  simp only [h]

theorem updateHandler_ok (c : Cluster) (r : TerraformReconciler) (o : GoMap) (m : manager)
    (h : (manager.Update m (c.tool .Update)).2 = none) :
    updateHandler c r o m =
      ⟨{ RequeueAfter := r.ReconcilePeriod },
       (updateResourceStatus c o
         (((StatusFor c.fromUnstructured o).RemoveCondition ConditionConfigFailed).SetCondition
           (c.Now 1)
           ⟨ConditionDeployed, StatusTrue, ReasonUpdateSuccessful,
            "Configuration change updated", 0⟩)).err,
       overrideEvents r ++ .op .Update none ::
         (updateResourceStatus c o
           (((StatusFor c.fromUnstructured o).RemoveCondition ConditionConfigFailed).SetCondition
             (c.Now 1)
             ⟨ConditionDeployed, StatusTrue, ReasonUpdateSuccessful,
              "Configuration change updated", 0⟩)).events⟩ := by
  unfold updateHandler
  simp only [h]

theorem updateHandler_trace (c : Cluster) (r : TerraformReconciler) (o : GoMap) (m : manager) :
    opResults (updateHandler c r o m).trace = [(.Update, (manager.Update m (c.tool .Update)).2)] ∧
      opsOf (updateHandler c r o m).trace = [.Update] ∧
      resourceWrites (updateHandler c r o m).trace = [] := by
  have hov := overrideEvents_quiet r
  cases h : (manager.Update m (c.tool .Update)).2 with
  | some err =>
    have hw := updateResourceStatus_trace c o
      ((StatusFor c.fromUnstructured o).SetCondition (c.Now 1)
        ⟨ConditionConfigFailed, StatusTrue, ReasonUpdateError, err.Error, 0⟩)
    rw [updateHandler_failed c r o m err h]
    simp [opResults_append, opsOf_append, resourceWrites_append, opResults, opsOf, resourceWrites,
      opResults_overrideEvents, opResults_status_events, hov.1, hov.2.1, hw.1, hw.2.1]
  | none =>
    have hw := updateResourceStatus_trace c o
      (((StatusFor c.fromUnstructured o).RemoveCondition ConditionConfigFailed).SetCondition
        (c.Now 1)
        ⟨ConditionDeployed, StatusTrue, ReasonUpdateSuccessful,
         "Configuration change updated", 0⟩)
    rw [updateHandler_ok c r o m h]
    simp [opResults_append, opsOf_append, resourceWrites_append, opResults, opsOf, resourceWrites,
      opResults_overrideEvents, opResults_status_events, hov.1, hov.2.1, hw.1, hw.2.1]

theorem afterReconcileHook_none (c : Cluster) (r : TerraformReconciler) (o : GoMap)
    (status : TFConfigStatus) :
    afterReconcileHook c r o status none =
      ⟨{ RequeueAfter := r.ReconcilePeriod },
       (updateResourceStatus c o
         ((status.RemoveCondition ConditionIrreconcilable).SetCondition (c.Now 1)
           ⟨ConditionDeployed, StatusTrue, ReasonUpdateSuccessful, "", 0⟩)).err,
       .op .Reconcile none ::
         (updateResourceStatus c o
           ((status.RemoveCondition ConditionIrreconcilable).SetCondition (c.Now 1)
             ⟨ConditionDeployed, StatusTrue, ReasonUpdateSuccessful, "", 0⟩)).events⟩ := rfl

theorem afterReconcileHook_some (c : Cluster) (r : TerraformReconciler) (o : GoMap)
    (status : TFConfigStatus) (err : GoError) :
    afterReconcileHook c r o status (some err) =
      ⟨{}, some err,
       .op .Reconcile (some err) ::
         (updateResourceStatus c o
           (status.SetCondition (c.Now 1)
             ⟨ConditionIrreconcilable, StatusTrue, ReasonReconcileError, err.Error, 0⟩)).events⟩ :=
  rfl

theorem reconcileTail_steady (c : Cluster) (r : TerraformReconciler) (o : GoMap) (m : manager)
    (status : TFConfigStatus) (h : m.IsUpdateRequired = false) :
    reconcileTail c r o m status =
      afterReconcileHook c r o (status.RemoveCondition ConditionConfigFailed) none := by
  rw [reconcileTail_eq, Reconcile_hook_never_fails]
  simp [h]

theorem reconcileTail_update (c : Cluster) (r : TerraformReconciler) (o : GoMap) (m : manager)
    (status : TFConfigStatus) (h : m.IsUpdateRequired = true) :
    reconcileTail c r o m status = updateHandler c r o m := by
  rw [reconcileTail_eq]
  simp [h]

theorem activeStatus_nodup (c : Cluster) (o : GoMap)
    (h : ((StatusFor c.fromUnstructured o).Conditions.map (fun x => x.CondType)).Nodup) :
    ((activeStatus c o).Conditions.map (fun x => x.CondType)).Nodup :=
  removeCondition_nodup _ _ (setCondition_nodup _ _ _ h)

theorem steady_status_clean (A : TFConfigStatus) (now : Time)
    (h : (A.Conditions.map (fun x => x.CondType)).Nodup) :
    ∀ x ∈ (((A.RemoveCondition ConditionConfigFailed).RemoveCondition
        ConditionIrreconcilable).SetCondition now
        ⟨ConditionDeployed, StatusTrue, ReasonUpdateSuccessful, "", 0⟩).Conditions,
      x.CondType ≠ ConditionConfigFailed := by
  intro x hx
  unfold TFConfigStatus.SetCondition TFConfigStatus.RemoveCondition at hx
  rcases mem_setConditionLoop _ _ _ x hx with h1 | h1
  · rw [h1]; decide
  · exact removeConditionLoop_none_left ConditionConfigFailed A.Conditions h x
      ((removeConditionLoop_sublist _ _).subset h1)


end Terraform

namespace Terraform

/-! ## Reconciler: the branches of the handlers and of `Reconcile` -/

theorem reportsFailure_of_write (c : Cluster) (o : GoMap) (base : TFConfigStatus) (now : Time)
    (t reason : String) (err : GoError) (res : Result) (tr : List Event) (hres : res = {})
    (htr : statusWrites tr =
      statusWrites (updateResourceStatus c o
        (base.SetCondition now ⟨t, StatusTrue, reason, err.Error, 0⟩)).events) :
    reportsFailure ⟨res, some err, tr⟩ t reason err := by
  have hw := updateResourceStatus_writes c o
    (base.SetCondition now ⟨t, StatusTrue, reason, err.Error, 0⟩)
  refine ⟨rfl, hres, ?_, ?_⟩
  · simp only [htr]
    exact hw.2
  · intro p hp
    simp only [htr] at hp
    rw [hw.1 p hp]
    exact holdsCondition_set _ _ _ _ _ _

theorem reportsFailure_after (out : Outcome) (pre : List Event) (t reason : String)
    (err : GoError) (hpre : statusWrites pre = []) (h : reportsFailure out t reason err) :
    reportsFailure (out.after pre) t reason err := by
  obtain ⟨h1, h2, h3, h4⟩ := h
  refine ⟨h1, h2, ?_, ?_⟩
  · simpa [Outcome.after, statusWrites_append, hpre] using h3
  · intro p hp
    simp only [Outcome.after, statusWrites_append, hpre, List.nil_append] at hp
    exact h4 p hp

theorem deleteHandler_skip (c : Cluster) (r : TerraformReconciler) (o : GoMap) (m : manager)
    (h : contains (GetFinalizers o) finalizer = false) :
    deleteHandler c r o m = ⟨{}, none, []⟩ := by
  unfold deleteHandler
  simp [h]

theorem deleteHandler_failed (c : Cluster) (r : TerraformReconciler) (o : GoMap) (m : manager)
    (err : GoError) (hfin : contains (GetFinalizers o) finalizer = true)
    (h : (manager.Delete m (c.tool .Delete)).2 = some err) :
    deleteHandler c r o m =
      ⟨{}, some err,
       .op .Delete (some err) ::
         (updateResourceStatus c o
           ((StatusFor c.fromUnstructured o).SetCondition (c.Now 0)
             ⟨ConditionConfigFailed, StatusTrue, ReasonDeleteError, err.Error, 0⟩)).events⟩ := by
  unfold deleteHandler
  simp only [hfin, Bool.not_true, Bool.false_eq_true, if_false, h]

theorem deleteHandler_ok (c : Cluster) (r : TerraformReconciler) (o : GoMap) (m : manager)
    (hfin : contains (GetFinalizers o) finalizer = true)
    (h : (manager.Delete m (c.tool .Delete)).2 = none) :
    opResults (deleteHandler c r o m).trace = [(.Delete, none)] ∧
      ∀ p, persistedResource (deleteHandler c r o m).trace = some p →
        contains (GetFinalizers p) finalizer = false ∧
        ∃ st, persistedStatus (deleteHandler c r o m).trace = some st ∧
          st.DeployedConfig = none ∧
          holdsCondition st ConditionDeployed StatusFalse ReasonDeleteSuccessful "" := by
  unfold deleteHandler
  simp only [hfin, Bool.not_true, Bool.false_eq_true, if_false, h]
  generalize hst : ({ (((StatusFor c.fromUnstructured o).RemoveCondition
      ConditionConfigFailed).SetCondition (c.Now 0)
      ⟨ConditionDeployed, StatusFalse, ReasonDeleteSuccessful, "", 0⟩) with
      DeployedConfig := none } : TFConfigStatus) = st3
  have hw := updateResourceStatus_trace c o st3
  have hwo := opResults_status_events c o st3
  cases hwe : (updateResourceStatus c o st3).err with
  | some e =>
    simp only []
    refine ⟨by simp [opResults, hwo], ?_⟩
    intro p hpr
    rw [persistedResource_of_writes _ [] (by simp [resourceWrites, hw.2.1])] at hpr
    cases hpr
  | none =>
    simp only []
    have hu := updateResource_trace c (RemoveFinalizer (updateResourceStatus c o st3).o finalizer)
    have huo := opResults_resource_events c
      (RemoveFinalizer (updateResourceStatus c o st3).o finalizer)
    cases hue : (updateResource c
        (RemoveFinalizer (updateResourceStatus c o st3).o finalizer)).err with
    | some e =>
      simp only []
      refine ⟨by simp [opResults, opResults_append, hwo, huo], ?_⟩
      intro p hpr
      have hnone := hu.2.2.2 (by rw [hue]; simp)
      rw [persistedResource_of_writes _
        (updateResource c (RemoveFinalizer (updateResourceStatus c o st3).o finalizer)).events
        (by simp [resourceWrites, resourceWrites_append, hw.2.1])] at hpr
      rw [hnone] at hpr
      cases hpr
    | none =>
      simp only []
      have hp := waitLoop_trace c c.PollBudget 0
      refine ⟨by simp [opResults, opResults_append, hwo, huo, opResults_wait_events], ?_⟩
      intro p hpr
      rw [persistedResource_of_writes _
        (updateResource c (RemoveFinalizer (updateResourceStatus c o st3).o finalizer)).events
        (by simp [resourceWrites, resourceWrites_append, hw.2.1, waitForDeletion, hp.2.1]),
        hu.2.2.1 hue] at hpr
      cases hpr
      refine ⟨GetFinalizers_RemoveFinalizer _ _, st3, ?_, ?_, ?_⟩
      · rw [persistedStatus_of_writes _ (updateResourceStatus c o st3).events
          (by simp [statusWrites, statusWrites_append, hu.2.1, waitForDeletion, hp.2.2])]
        exact hw.2.2.1 hwe
      · rw [← hst]
      · rw [← hst]
        exact holdsCondition_set _ _ _ _ _ _

theorem createHandler_failed (c : Cluster) (r : TerraformReconciler) (o : GoMap) (m : manager)
    (err : GoError) (h : (manager.Create m (c.tool .Create)).2 = some err) :
    createHandler c r o m =
      ⟨{}, some err,
       overrideEvents r ++ .op .Create (some err) ::
         (updateResourceStatus c o
           ((StatusFor c.fromUnstructured o).SetCondition (c.Now 1)
             ⟨ConditionConfigFailed, StatusTrue, ReasonCreateError, err.Error, 0⟩)).events⟩ := by
  unfold createHandler
  simp only [h]

theorem createHandler_ok (c : Cluster) (r : TerraformReconciler) (o : GoMap) (m : manager)
    (h : (manager.Create m (c.tool .Create)).2 = none) :
    opResults (createHandler c r o m).trace = [(.Create, none)] ∧
      untilOp .Create (createHandler c r o m).trace = overrideEvents r ∧
      resourceWrites (createHandler c r o m).trace =
        resourceWrites (updateResource c
          (AddFinalizer (syncStatus (statusAliased o) o
            ((StatusFor c.fromUnstructured o).RemoveCondition ConditionConfigFailed))
            finalizer)).events := by
  have hov := overrideEvents_quiet r
  have hovo := opResults_overrideEvents r
  unfold createHandler
  simp only [h]
  generalize (StatusFor c.fromUnstructured o).RemoveCondition ConditionConfigFailed = st1
  generalize AddFinalizer (syncStatus (statusAliased o) o st1) finalizer = o1
  have huo := opResults_resource_events c o1
  have hunt : ∀ rest : List Event,
      untilOp .Create (overrideEvents r ++ .op .Create none :: rest) = overrideEvents r := by
    intro rest
    rw [untilOp_quiet _ _ _ hov.1]
    simp [untilOp]
  cases hue : (updateResource c o1).err with
  | some e =>
    simp only []
    exact ⟨by simp [opResults, opResults_append, hovo, huo], hunt _,
      by simp [resourceWrites, resourceWrites_append, hov.2.1]⟩
  | none =>
    simp only []
    have hw := updateResourceStatus_trace c (updateResource c o1).o
      (st1.SetCondition (c.Now 1) ⟨ConditionDeployed, StatusTrue, ReasonCreateSuccessful, "", 0⟩)
    have hwo := opResults_status_events c (updateResource c o1).o
      (st1.SetCondition (c.Now 1) ⟨ConditionDeployed, StatusTrue, ReasonCreateSuccessful, "", 0⟩)
    exact ⟨by simp [opResults, opResults_append, hovo, huo, hwo], hunt _,
      by simp [resourceWrites, resourceWrites_append, hov.2.1, hw.2.1]⟩

theorem createHandler_results (c : Cluster) (r : TerraformReconciler) (o : GoMap) (m : manager) :
    opResults (createHandler c r o m).trace = [(.Create, (manager.Create m (c.tool .Create)).2)] := by
  cases h : (manager.Create m (c.tool .Create)).2 with
  | none => exact (createHandler_ok c r o m h).1
  | some err =>
    rw [createHandler_failed c r o m err h]
    simp [opResults, opResults_append, opResults_overrideEvents, opResults_status_events]

theorem reconcileTail_results (c : Cluster) (r : TerraformReconciler) (o : GoMap) (m : manager)
    (status : TFConfigStatus) :
    opResults (reconcileTail c r o m status).trace =
        (if m.IsUpdateRequired = true then [(.Update, (manager.Update m (c.tool .Update)).2)]
         else [(.Reconcile, none)]) ∧
      resourceWrites (reconcileTail c r o m status).trace = [] := by
  by_cases h : m.IsUpdateRequired = true
  · rw [reconcileTail_update c r o m status h]
    simp only [h, if_true]
    exact ⟨(updateHandler_trace c r o m).1, (updateHandler_trace c r o m).2.2⟩
  · have h2 : m.IsUpdateRequired = false := by simpa using h
    rw [reconcileTail_steady c r o m status h2, afterReconcileHook_none]
    simp [h2, opResults, resourceWrites, opResults_status_events,
      (updateResourceStatus_trace c o _).2.1]

theorem Reconcile_cases (c : Cluster) (r : TerraformReconciler) (request : Request) :
    (opResults (Reconcile c r request).trace = [] ∧
        resourceWrites (Reconcile c r request).trace = [] ∧
        statusWrites (Reconcile c r request).trace = []) ∨
      ∃ o m, c.Get request.Namespace request.Name = .ok o ∧
        NewManager c.parseInto c.fromUnstructured o r.OverrideValues = (some m, none) ∧
        (((GetDeletionTimestamp c.parseTime o).isSome = true ∧
            contains (GetFinalizers o) finalizer = true ∧
            Reconcile c r request = (deleteHandler c r o m).after [.get, .newManager]) ∨
          (GetDeletionTimestamp c.parseTime o = none ∧
            Reconcile c r request = (reconcileActive c r o m).after [.get, .newManager])) := by
  cases hget : c.Get request.Namespace request.Name with
  | error e =>
    left
    unfold Reconcile
    simp only [hget]
    split_ifs <;> exact ⟨rfl, rfl, rfl⟩
  | ok o =>
    cases hnm : NewManager c.parseInto c.fromUnstructured o r.OverrideValues with
    | mk mo eo =>
      cases eo with
      | some err =>
        left
        unfold Reconcile
        simp only [hget, hnm]
        exact ⟨rfl, rfl, rfl⟩
      | none =>
        cases mo with
        | none => exact absurd hnm (NewManager_never_nil _ _ _ _)
        | some m =>
          have hd := Reconcile_dispatch c r request o m hget hnm
          by_cases hdel : (GetDeletionTimestamp c.parseTime o).isSome = true
          · by_cases hfin : contains (GetFinalizers o) finalizer = true
            · exact Or.inr ⟨o, m, rfl, hnm, Or.inl ⟨hdel, hfin, by rw [hd]; simp [hdel]⟩⟩
            · left
              have hfin2 : contains (GetFinalizers o) finalizer = false := by simpa using hfin
              rw [hd, deleteHandler_skip c r o m hfin2]
              simp only [hdel, if_true, Outcome.after]
              exact ⟨rfl, rfl, rfl⟩
          · have hdel2 : GetDeletionTimestamp c.parseTime o = none := by
              simpa using hdel
            exact Or.inr ⟨o, m, rfl, hnm, Or.inr ⟨hdel2, by rw [hd]; simp [hdel2]⟩⟩

theorem reconcileActive_cases (c : Cluster) (r : TerraformReconciler) (o : GoMap) (m : manager) :
    (∃ m1 err, manager.Refresh m (c.tool .Refresh) = (m1, some err)) ∨
      ∃ m1, manager.Refresh m (c.tool .Refresh) = (m1, none) ∧
        (m1.Exists = false ∨
          (m1.Exists = true ∧ contains (GetFinalizers o) finalizer = true ∧
            reconcileActive c r o m =
              (reconcileTail c r (activeObject c o) m1 (activeStatus c o)).after
                [.op .Refresh none]) ∨
          (m1.Exists = true ∧ contains (GetFinalizers o) finalizer = false ∧
            ∃ e, (updateResource c (AddFinalizer (activeObject c o) finalizer)).err = some e ∧
              reconcileActive c r o m =
                ⟨{}, some e,
                 .op .Refresh none ::
                   (updateResource c (AddFinalizer (activeObject c o) finalizer)).events⟩) ∨
          (m1.Exists = true ∧ contains (GetFinalizers o) finalizer = false ∧
            (updateResource c (AddFinalizer (activeObject c o) finalizer)).err = none ∧
            reconcileActive c r o m =
              (reconcileTail c r (updateResource c (AddFinalizer (activeObject c o) finalizer)).o
                m1 (activeStatus c o)).after
                (.op .Refresh none ::
                  (updateResource c (AddFinalizer (activeObject c o) finalizer)).events))) := by
  cases href : manager.Refresh m (c.tool .Refresh) with
  | mk m1 eo =>
    cases eo with
    | some err => exact Or.inl ⟨m1, err, rfl⟩
    | none =>
      right
      refine ⟨m1, rfl, ?_⟩
      by_cases hex : m1.Exists = true
      · right
        have he := reconcileActive_exists c r o m m1 href hex
        by_cases hf : contains (GetFinalizers o) finalizer = true
        · exact Or.inl ⟨hex, hf, by rw [he]; simp [hf]⟩
        · have hf2 : contains (GetFinalizers o) finalizer = false := by simpa using hf
          right
          cases hue : (updateResource c (AddFinalizer (activeObject c o) finalizer)).err with
          | some e => exact Or.inl ⟨hex, hf2, e, rfl, by rw [he]; simp [hf2, hue]⟩
          | none => exact Or.inr ⟨hex, hf2, rfl, by rw [he]; simp [hf2, hue]⟩
      · exact Or.inl (by simpa using hex)

end Terraform

namespace Terraform

/-! ## Reconciler: failures of the manager operations -/

theorem Reconcile_failures (c : Cluster) (r : TerraformReconciler) (request : Request)
    (err : GoError) :
    ((ManagerOp.Refresh, some err) ∈ opResults (Reconcile c r request).trace →
        reportsFailure (Reconcile c r request) ConditionIrreconcilable ReasonReconcileError err ∧
          resourceWrites (Reconcile c r request).trace = []) ∧
      ((ManagerOp.Create, some err) ∈ opResults (Reconcile c r request).trace →
        reportsFailure (Reconcile c r request) ConditionConfigFailed ReasonCreateError err ∧
          resourceWrites (Reconcile c r request).trace = []) ∧
      ((ManagerOp.Update, some err) ∈ opResults (Reconcile c r request).trace →
        reportsFailure (Reconcile c r request) ConditionConfigFailed ReasonUpdateError err) ∧
      ((ManagerOp.Delete, some err) ∈ opResults (Reconcile c r request).trace →
        reportsFailure (Reconcile c r request) ConditionConfigFailed ReasonDeleteError err ∧
          resourceWrites (Reconcile c r request).trace = []) ∧
      (ManagerOp.Reconcile, some err) ∉ opResults (Reconcile c r request).trace := by
  rcases Reconcile_cases c r request with
    ⟨h1, _, _⟩ | ⟨o, m, hget, hm, ⟨hdel, hfin, heq⟩ | ⟨hdel, heq⟩⟩
  · simp [h1]
  · -- the deletion path
    cases hd : (manager.Delete m (c.tool .Delete)).2 with
    | none =>
      have hops : opResults (Reconcile c r request).trace = [(.Delete, none)] := by
        rw [heq]
        simp [Outcome.after, opResults_append, opResults, (deleteHandler_ok c r o m hfin hd).1]
      simp [hops]
    | some e =>
      have heq2 := deleteHandler_failed c r o m e hfin hd
      have hw := updateResourceStatus_trace c o
        ((StatusFor c.fromUnstructured o).SetCondition (c.Now 0)
          ⟨ConditionConfigFailed, StatusTrue, ReasonDeleteError, e.Error, 0⟩)
      have hops : opResults (Reconcile c r request).trace = [(.Delete, some e)] := by
        rw [heq, heq2]
        simp [Outcome.after, opResults_append, opResults, opResults_status_events]
      refine ⟨fun h => ?_, fun h => ?_, fun h => ?_, fun h => ?_, fun h => ?_⟩ <;>
        simp [hops] at h
      subst h
      refine ⟨?_, ?_⟩
      · rw [heq, heq2]
        exact reportsFailure_after _ _ _ _ _ rfl
          (reportsFailure_of_write c o (StatusFor c.fromUnstructured o) (c.Now 0) _ _ err _ _ rfl
            (by simp [statusWrites]))
      · rw [heq, heq2]
        simp [Outcome.after, resourceWrites_append, resourceWrites, hw.2.1]
  · -- the active path
    rcases reconcileActive_cases c r o m with
      ⟨m1, e, href⟩ | ⟨m1, href, hex | ⟨hex, hf, heq2⟩ | ⟨hex, hf, e, hue, heq2⟩ |
        ⟨hex, hf, hue, heq2⟩⟩
    · -- `Refresh` fails
      have heq2 := reconcileActive_failed c r o m m1 e href
      have hw := updateResourceStatus_trace c o
        (((StatusFor c.fromUnstructured o).SetCondition (c.Now 0)
          ⟨ConditionInitialized, StatusTrue, "", "", 0⟩).SetCondition (c.Now 1)
          ⟨ConditionIrreconcilable, StatusTrue, ReasonReconcileError, e.Error, 0⟩)
      have hops : opResults (Reconcile c r request).trace = [(.Refresh, some e)] := by
        rw [heq, heq2]
        simp [Outcome.after, opResults_append, opResults, opResults_status_events]
      refine ⟨fun h => ?_, fun h => ?_, fun h => ?_, fun h => ?_, fun h => ?_⟩ <;>
        simp [hops] at h
      subst h
      refine ⟨?_, ?_⟩
      · rw [heq, heq2]
        exact reportsFailure_after _ _ _ _ _ rfl
          (reportsFailure_of_write c o
            ((StatusFor c.fromUnstructured o).SetCondition (c.Now 0)
              ⟨ConditionInitialized, StatusTrue, "", "", 0⟩) (c.Now 1) _ _ err _ _ rfl
            (by simp [statusWrites]))
      · rw [heq, heq2]
        simp [Outcome.after, resourceWrites_append, resourceWrites, hw.2.1]
    · -- the creation path
      have heq2 := reconcileActive_create c r o m m1 href hex
      cases hc : (manager.Create m1 (c.tool .Create)).2 with
      | none =>
        have hops : opResults (Reconcile c r request).trace =
            [(.Refresh, none), (.Create, none)] := by
          rw [heq, heq2]
          simp [Outcome.after, opResults_append, opResults, createHandler_results, hc]
        simp [hops]
      | some e =>
        have heq3 := createHandler_failed c r (activeObject c o) m1 e hc
        have hw := updateResourceStatus_trace c (activeObject c o)
          ((StatusFor c.fromUnstructured (activeObject c o)).SetCondition (c.Now 1)
            ⟨ConditionConfigFailed, StatusTrue, ReasonCreateError, e.Error, 0⟩)
        have hops : opResults (Reconcile c r request).trace =
            [(.Refresh, none), (.Create, some e)] := by
          rw [heq, heq2]
          simp [Outcome.after, opResults_append, opResults, createHandler_results, hc]
        refine ⟨fun h => ?_, fun h => ?_, fun h => ?_, fun h => ?_, fun h => ?_⟩ <;>
          simp [hops] at h
        subst h
        refine ⟨?_, ?_⟩
        · rw [heq, heq2, heq3]
          exact reportsFailure_after _ _ _ _ _ rfl (reportsFailure_after _ _ _ _ _ rfl
            (reportsFailure_of_write c (activeObject c o)
              (StatusFor c.fromUnstructured (activeObject c o)) (c.Now 1) _ _ err _ _ rfl
              (by simp [statusWrites_append, statusWrites, (overrideEvents_quiet r).2.2])))
        · rw [heq, heq2, heq3]
          simp [Outcome.after, resourceWrites_append, resourceWrites, hw.2.1,
            (overrideEvents_quiet r).2.1]
    · -- the finalizer is there: update or steady state
      by_cases hupd : m1.IsUpdateRequired = true
      · have heq3 := reconcileTail_update c r (activeObject c o) m1 (activeStatus c o) hupd
        cases hc : (manager.Update m1 (c.tool .Update)).2 with
        | none =>
          have hops : opResults (Reconcile c r request).trace =
              [(.Refresh, none), (.Update, none)] := by
            rw [heq, heq2, heq3]
            simp [Outcome.after, opResults_append, opResults, updateHandler_trace, hc]
          simp [hops]
        | some e =>
          have heq4 := updateHandler_failed c r (activeObject c o) m1 e hc
          have hops : opResults (Reconcile c r request).trace =
              [(.Refresh, none), (.Update, some e)] := by
            rw [heq, heq2, heq3]
            simp [Outcome.after, opResults_append, opResults, updateHandler_trace, hc]
          refine ⟨fun h => ?_, fun h => ?_, fun h => ?_, fun h => ?_, fun h => ?_⟩ <;>
            simp [hops] at h
          subst h
          rw [heq, heq2, heq3, heq4]
          exact reportsFailure_after _ _ _ _ _ rfl (reportsFailure_after _ _ _ _ _ rfl
            (reportsFailure_of_write c (activeObject c o)
              (StatusFor c.fromUnstructured (activeObject c o)) (c.Now 1) _ _ err _ _ rfl
              (by simp [statusWrites_append, statusWrites, (overrideEvents_quiet r).2.2])))
      · have hupd2 : m1.IsUpdateRequired = false := by simpa using hupd
        have hops : opResults (Reconcile c r request).trace =
            [(.Refresh, none), (.Reconcile, none)] := by
          rw [heq, heq2]
          simp [Outcome.after, opResults_append, opResults, reconcileTail_results, hupd2]
        simp [hops]
    · -- the finalizer write fails
      have hops : opResults (Reconcile c r request).trace = [(.Refresh, none)] := by
        rw [heq, heq2]
        simp [Outcome.after, opResults_append, opResults, opResults_resource_events]
      simp [hops]
    · -- the finalizer write succeeds: update or steady state
      have hu := updateResource_trace c (AddFinalizer (activeObject c o) finalizer)
      by_cases hupd : m1.IsUpdateRequired = true
      · have heq3 := reconcileTail_update c r
          (updateResource c (AddFinalizer (activeObject c o) finalizer)).o m1
          (activeStatus c o) hupd
        cases hc : (manager.Update m1 (c.tool .Update)).2 with
        | none =>
          have hops : opResults (Reconcile c r request).trace =
              [(.Refresh, none), (.Update, none)] := by
            rw [heq, heq2, heq3]
            simp [Outcome.after, opResults_append, opResults, updateHandler_trace, hc,
              opResults_resource_events]
          simp [hops]
        | some e =>
          have heq4 := updateHandler_failed c r
            (updateResource c (AddFinalizer (activeObject c o) finalizer)).o m1 e hc
          have hops : opResults (Reconcile c r request).trace =
              [(.Refresh, none), (.Update, some e)] := by
            rw [heq, heq2, heq3]
            simp [Outcome.after, opResults_append, opResults, updateHandler_trace, hc,
              opResults_resource_events]
          refine ⟨fun h => ?_, fun h => ?_, fun h => ?_, fun h => ?_, fun h => ?_⟩ <;>
            simp [hops] at h
          subst h
          rw [heq, heq2, heq3, heq4]
          exact reportsFailure_after _ _ _ _ _ rfl (reportsFailure_after _ _ _ _ _
            (by simp [statusWrites, hu.2.1])
            (reportsFailure_of_write c
              (updateResource c (AddFinalizer (activeObject c o) finalizer)).o
              (StatusFor c.fromUnstructured
                (updateResource c (AddFinalizer (activeObject c o) finalizer)).o) (c.Now 1) _ _ err
              _ _ rfl
              (by simp [statusWrites_append, statusWrites, (overrideEvents_quiet r).2.2])))
      · have hupd2 : m1.IsUpdateRequired = false := by simpa using hupd
        have hops : opResults (Reconcile c r request).trace =
            [(.Refresh, none), (.Reconcile, none)] := by
          rw [heq, heq2]
          simp [Outcome.after, opResults_append, opResults, reconcileTail_results, hupd2,
            opResults_resource_events]
        simp [hops]

end Terraform

namespace Terraform

/-! ## Reconciler: failures set a condition; the finalizer goes only after a delete -/

theorem persistedResource_mem (t : List Event) (p : GoMap)
    (h : persistedResource t = some p) : (p, none) ∈ resourceWrites t := by
  unfold persistedResource at h
  cases hf : (resourceWrites t).find? (fun p => p.2.isNone) with
  | none => simp [hf] at h
  | some q =>
    simp only [hf, Option.map_some', Option.some.injEq] at h
    have h1 := List.find?_some hf
    have h2 := List.mem_of_find?_eq_some hf
    obtain ⟨a, b⟩ := q
    simp only at h h1
    subst h
    cases b with
    | none => exact h2
    | some e => simp at h1

theorem persistedResource_none_of_writes (t : List Event) (h : resourceWrites t = []) :
    persistedResource t = none := by
  unfold persistedResource
  rw [h]
  rfl

theorem AddFinalizer_of_mem (o : GoMap) (fin : String) (h : fin ∈ GetFinalizers o) :
    AddFinalizer o fin = o := by
  unfold AddFinalizer
  simp [h]

/-- C28: a failure of a manager operation sets the matching condition before
the error is returned.  When the trace of a reconcile shows that `Refresh`,
`Create`, `Update` or `Delete` returned the error `err`, the reconciler returns
`err` with the empty result (no requeue delay), it attempts a status write, and
every status handed to a status write holds `Irreconcilable/True/ReconcileError`
for `Refresh`, `ConfigFailed/True/CreateError` for `Create`,
`ConfigFailed/True/UpdateError` for `Update` and `ConfigFailed/True/DeleteError`
for `Delete`, with the text of `err` as message.  The end of `Reconcile` does
the same with `Irreconcilable/True/ReconcileError` for an error of the
steady-state hook; the hook of this repository never returns one. -/
theorem failure_sets_condition (c : Cluster) (r : TerraformReconciler) (request : Request)
    (err : GoError) :
    ((ManagerOp.Refresh, some err) ∈ opResults (Reconcile c r request).trace →
        reportsFailure (Reconcile c r request) ConditionIrreconcilable ReasonReconcileError
          err) ∧
      ((ManagerOp.Create, some err) ∈ opResults (Reconcile c r request).trace →
        reportsFailure (Reconcile c r request) ConditionConfigFailed ReasonCreateError err) ∧
      ((ManagerOp.Update, some err) ∈ opResults (Reconcile c r request).trace →
        reportsFailure (Reconcile c r request) ConditionConfigFailed ReasonUpdateError err) ∧
      ((ManagerOp.Delete, some err) ∈ opResults (Reconcile c r request).trace →
        reportsFailure (Reconcile c r request) ConditionConfigFailed ReasonDeleteError err) ∧
      (∀ (o : GoMap) (status : TFConfigStatus),
        reportsFailure (afterReconcileHook c r o status (some err)) ConditionIrreconcilable
          ReasonReconcileError err) ∧
      (∀ (m : manager) (run : Runner), (manager.Reconcile m run).2 = none) ∧
      (ManagerOp.Reconcile, some err) ∉ opResults (Reconcile c r request).trace := by
  have h := Reconcile_failures c r request err
  refine ⟨fun h1 => (h.1 h1).1, fun h1 => (h.2.1 h1).1, h.2.2.1, fun h1 => (h.2.2.2.1 h1).1,
    ?_, fun _ _ => rfl, h.2.2.2.2⟩
  intro o status
  rw [afterReconcileHook_some]
  exact reportsFailure_of_write c o status (c.Now 1) _ _ err _ _ rfl (by simp [statusWrites])

/-- Witness for C28: four sample reconciles in which `Refresh`, `Create`,
`Update` and `Delete` fail. -/
theorem failure_sets_condition_witness :
    reportsFailure (Reconcile brokenCluster sampleReconciler sampleRequest)
        ConditionIrreconcilable ReasonReconcileError
        (.wrap "failed to check deployment status: " (.msg "exit status 1")) ∧
      reportsFailure (Reconcile createFailsCluster sampleReconciler sampleRequest)
        ConditionConfigFailed ReasonCreateError
        (.wrap "failed to create deployment: " (.msg "exit status 1")) ∧
      reportsFailure (Reconcile updateFailsCluster sampleReconciler sampleRequest)
        ConditionConfigFailed ReasonUpdateError
        (.wrap "failed to create deployment: " (.msg "exit status 1")) ∧
      reportsFailure (Reconcile deleteFailsCluster sampleReconciler sampleRequest)
        ConditionConfigFailed ReasonDeleteError
        (.wrap "failed to delete deployment: " (.msg "exit status 1")) :=
  ⟨(failure_sets_condition brokenCluster sampleReconciler sampleRequest _).1 (by decide),
   (failure_sets_condition createFailsCluster sampleReconciler sampleRequest _).2.1 (by decide),
   (failure_sets_condition updateFailsCluster sampleReconciler sampleRequest _).2.2.1
     (by decide),
   (failure_sets_condition deleteFailsCluster sampleReconciler sampleRequest _).2.2.2.1
     (by decide)⟩

/-- C26: the finalizer is removed only after a successful delete.  In every
reconcile, if the fetched resource carries the finalizer and the resource that
the reconcile persists does not, then `Delete` was invoked in that reconcile
and returned no error, and the deletion status (`Deployed/False/DeleteSuccessful`,
no deployed configuration) was persisted; and when `Delete` returns an error
the reconcile attempts no resource write at all, so the finalizer list in the
store is unchanged. -/
theorem finalizer_removed_only_after_delete (c : Cluster) (r : TerraformReconciler)
    (request : Request) :
    (∀ o p, c.Get request.Namespace request.Name = .ok o →
        persistedResource (Reconcile c r request).trace = some p →
        contains (GetFinalizers o) finalizer = true →
        contains (GetFinalizers p) finalizer = false →
        (ManagerOp.Delete, none) ∈ opResults (Reconcile c r request).trace ∧
          ∃ st, persistedStatus (Reconcile c r request).trace = some st ∧
            st.DeployedConfig = none ∧
            holdsCondition st ConditionDeployed StatusFalse ReasonDeleteSuccessful "") ∧
      (∀ err, (ManagerOp.Delete, some err) ∈ opResults (Reconcile c r request).trace →
        resourceWrites (Reconcile c r request).trace = [] ∧
          persistedResource (Reconcile c r request).trace = none) := by
  refine ⟨?_, fun err h =>
    ⟨((Reconcile_failures c r request err).2.2.2.1 h).2,
     persistedResource_none_of_writes _ ((Reconcile_failures c r request err).2.2.2.1 h).2⟩⟩
  intro o0 p hget0 hpers hin hout
  have hquiet : resourceWrites (Reconcile c r request).trace = [] → False := by
    intro hq
    rw [persistedResource_none_of_writes _ hq] at hpers
    cases hpers
  rcases Reconcile_cases c r request with
    ⟨_, h2, _⟩ | ⟨o, m, hget, hm, ⟨hdel, hfin, heq⟩ | ⟨hdel, heq⟩⟩
  · exact absurd h2 hquiet
  · -- the deletion path
    cases hd : (manager.Delete m (c.tool .Delete)).2 with
    | some e =>
      exfalso
      apply hquiet
      rw [heq, deleteHandler_failed c r o m e hfin hd]
      simp [Outcome.after, resourceWrites, (updateResourceStatus_trace c o _).2.1]
    | none =>
      have hok := deleteHandler_ok c r o m hfin hd
      have hpa := persisted_after [.get, .newManager] (deleteHandler c r o m).trace rfl rfl
        (deleteHandler c r o m) rfl
      rw [heq] at hpers ⊢
      rw [hpa.2.1] at hpers
      refine ⟨by simp [Outcome.after, opResults_append, opResults, hok.1], ?_⟩
      rw [hpa.1]
      exact (hok.2 p hpers).2
  · -- the active path: the finalizer stays
    exfalso
    have ho : o0 = o := by
      rw [hget] at hget0
      cases hget0
      rfl
    subst ho
    rcases reconcileActive_cases c r o0 m with
      ⟨m1, e, href⟩ | ⟨m1, href, hex | ⟨hex, hf, heq2⟩ | ⟨hex, hf, e, hue, heq2⟩ |
        ⟨hex, hf, hue, heq2⟩⟩
    · apply hquiet
      rw [heq, reconcileActive_failed c r o0 m m1 e href]
      simp [Outcome.after, resourceWrites, (updateResourceStatus_trace c o0 _).2.1]
    · have heq2 := reconcileActive_create c r o0 m m1 href hex
      cases hc : (manager.Create m1 (c.tool .Create)).2 with
      | some e =>
        apply hquiet
        rw [heq, heq2, createHandler_failed c r (activeObject c o0) m1 e hc]
        simp [Outcome.after, resourceWrites, resourceWrites_append,
          (updateResourceStatus_trace c (activeObject c o0) _).2.1, (overrideEvents_quiet r).2.1]
      | none =>
        have hok := createHandler_ok c r (activeObject c o0) m1 hc
        have hmem := persistedResource_mem _ p hpers
        rw [heq, heq2] at hmem
        simp only [Outcome.after, resourceWrites_append, resourceWrites, List.nil_append,
          List.append_eq, hok.2.2] at hmem
        have hp := (updateResource_writes c _).1 _ hmem
        simp only at hp
        have hfinmem : finalizer ∈ GetFinalizers (syncStatus (statusAliased (activeObject c o0))
            (activeObject c o0)
            ((StatusFor c.fromUnstructured (activeObject c o0)).RemoveCondition
              ConditionConfigFailed)) := by
          rw [GetFinalizers_syncStatus]
          unfold activeObject
          rw [GetFinalizers_syncStatus]
          exact (contains_iff _ _).1 hin
        rw [AddFinalizer_of_mem _ _ hfinmem] at hp
        rw [hp, GetFinalizers_syncStatus] at hout
        unfold activeObject at hout
        rw [GetFinalizers_syncStatus, hin] at hout
        cases hout
    · apply hquiet
      rw [heq, heq2]
      simp [Outcome.after, resourceWrites, resourceWrites_append, reconcileTail_results]
    · rw [hf] at hin
      cases hin
    · rw [hf] at hin
      cases hin

/-- Witness for C26: the sample resource that is being deleted and carries the
finalizer, in a cluster in which everything succeeds. -/
theorem finalizer_removed_only_after_delete_witness :
    (ManagerOp.Delete, none) ∈
        opResults (Reconcile deletingCluster sampleReconciler sampleRequest).trace ∧
      ∃ st, persistedStatus (Reconcile deletingCluster sampleReconciler sampleRequest).trace =
          some st ∧
        st.DeployedConfig = none ∧
        holdsCondition st ConditionDeployed StatusFalse ReasonDeleteSuccessful "" :=
  (finalizer_removed_only_after_delete deletingCluster sampleReconciler sampleRequest).1
    deletingWithFinalizer _ rfl rfl (by decide) (by decide)

end Terraform

namespace Terraform

/-! ## Reconciler: the finalizer on the active path -/

theorem untilOp_append (op : ManagerOp) (a b : List Event) (h : op ∉ opsOf a) :
    untilOp op (a ++ b) = a ++ untilOp op b := by
  induction a with
  | nil => rfl
  | cons e rest ih =>
    cases e with
    | op o err =>
      simp only [opsOf, List.mem_cons, not_or] at h
      have hne : ¬ o = op := fun hc => h.1 hc.symm
      simp [untilOp, hne, ih h.2]
    | _ => simp only [opsOf] at h; simp [untilOp, ih h]

theorem resourceWrites_untilOp_nil (op : ManagerOp) (b : List Event)
    (h : resourceWrites b = []) : resourceWrites (untilOp op b) = [] := by
  induction b with
  | nil => rfl
  | cons e rest ih =>
    cases e with
    | op o err =>
      simp only [resourceWrites] at h
      by_cases hne : o = op
      · simp [untilOp, hne, resourceWrites]
      · simp [untilOp, hne, resourceWrites, ih h]
    | writeResource o err => simp [resourceWrites] at h
    | _ => simp only [resourceWrites] at h; simp [untilOp, resourceWrites, ih h]

theorem GetFinalizers_AddFinalizer_eq (o : GoMap) (fin : String)
    (h : ∀ v, mapGet o "metadata" = some v → ∃ md, v = .map md) :
    GetFinalizers (AddFinalizer o fin) =
      if fin ∈ GetFinalizers o then GetFinalizers o else GetFinalizers o ++ [fin] := by
  unfold AddFinalizer
  by_cases hin : fin ∈ GetFinalizers o
  · simp [hin]
  · simp only [hin, if_false]
    exact GetFinalizers_SetFinalizers o _ h

theorem count_AddFinalizer (o : GoMap) (fin : String)
    (h : ∀ v, mapGet o "metadata" = some v → ∃ md, v = .map md)
    (hc : (GetFinalizers o).count fin ≤ 1) :
    (GetFinalizers (AddFinalizer o fin)).count fin = 1 := by
  rw [GetFinalizers_AddFinalizer_eq o fin h]
  by_cases hin : fin ∈ GetFinalizers o
  · simp only [hin, if_true]
    have hpos := List.count_pos_iff.2 hin
    omega
  · simp only [hin, if_false]
    rw [List.count_append, List.count_eq_zero_of_not_mem hin]
    simp

theorem activeObject_metadata (c : Cluster) (o : GoMap) :
    mapGet (activeObject c o) "metadata" = mapGet o "metadata" :=
  mapGet_syncStatus_metadata _ _ _

theorem activeObject_finalizers (c : Cluster) (o : GoMap) :
    GetFinalizers (activeObject c o) = GetFinalizers o :=
  GetFinalizers_syncStatus _ _ _

theorem activeObject_status_nodup (c : Cluster) (o : GoMap)
    (h : ((StatusFor c.fromUnstructured o).Conditions.map (fun x => x.CondType)).Nodup) :
    ((StatusFor c.fromUnstructured (activeObject c o)).Conditions.map
      (fun x => x.CondType)).Nodup := by
  unfold activeObject
  rw [StatusFor_syncStatus]
  split_ifs
  · exact activeStatus_nodup c o h
  · exact h

/-- C29 (finalizer safety net): when the resource has no deletion timestamp and
`Refresh` succeeds with `Exists() = true`, a resource that lacks the finalizer
is handed to the resource write with the finalizer added (metadata being a
mapping or absent); whenever `Update` or the steady-state hook is invoked, that
write has succeeded before the invocation; when the write does not succeed the
reconciler returns the error of the write with the empty result and invokes
neither; and for a resource that already carries the finalizer the reconcile
attempts no resource write. -/
theorem finalizer_safety_net (c : Cluster) (r : TerraformReconciler) (request : Request)
    (o : GoMap) (m m1 : manager)
    (hget : c.Get request.Namespace request.Name = .ok o)
    (hm : NewManager c.parseInto c.fromUnstructured o r.OverrideValues = (some m, none))
    (hdel : GetDeletionTimestamp c.parseTime o = none)
    (href : manager.Refresh m (c.tool .Refresh) = (m1, none))
    (hex : m1.Exists = true) :
    (contains (GetFinalizers o) finalizer = false →
        resourceWrites (Reconcile c r request).trace ≠ [] ∧
        (∀ p ∈ resourceWrites (Reconcile c r request).trace,
          p.1 = AddFinalizer (activeObject c o) finalizer) ∧
        ((∀ v, mapGet o "metadata" = some v → ∃ md, v = .map md) →
          contains (GetFinalizers (AddFinalizer (activeObject c o) finalizer)) finalizer =
            true) ∧
        (∀ op, op = ManagerOp.Update ∨ op = ManagerOp.Reconcile →
          op ∈ opsOf (Reconcile c r request).trace →
          persistedResource (untilOp op (Reconcile c r request).trace) =
            some (AddFinalizer (activeObject c o) finalizer)) ∧
        (persistedResource (Reconcile c r request).trace = none →
          (Reconcile c r request).err ≠ none ∧
          (∃ p ∈ resourceWrites (Reconcile c r request).trace,
            p.2 = (Reconcile c r request).err) ∧
          (Reconcile c r request).result = {} ∧
          ManagerOp.Update ∉ opsOf (Reconcile c r request).trace ∧
          ManagerOp.Reconcile ∉ opsOf (Reconcile c r request).trace)) ∧
      (contains (GetFinalizers o) finalizer = true →
        resourceWrites (Reconcile c r request).trace = []) := by
  have hD := Reconcile_dispatch c r request o m hget hm
  simp only [hdel, Option.isSome_none, Bool.false_eq_true, if_false] at hD
  have hE := reconcileActive_exists c r o m m1 href hex
  by_cases hf : contains (GetFinalizers o) finalizer = true
  · rw [if_pos hf] at hE
    refine ⟨fun hc => (by rw [hf] at hc; cases hc), fun _ => ?_⟩
    rw [hD, hE]
    simp [Outcome.after, resourceWrites_append, resourceWrites, reconcileTail_results]
  · rw [if_neg hf] at hE
    refine ⟨fun _ => ?_, fun hc => absurd hc hf⟩
    have hinv : (∀ v, mapGet o "metadata" = some v → ∃ md, v = .map md) →
        contains (GetFinalizers (AddFinalizer (activeObject c o) finalizer)) finalizer =
          true := by
      intro h
      exact GetFinalizers_AddFinalizer _ _ (by rw [activeObject_metadata]; exact h)
    generalize hX : AddFinalizer (activeObject c o) finalizer = X at hinv hE ⊢
    have hu := updateResource_trace c X
    have hu2 := updateResource_writes c X
    have hne : resourceWrites (updateResource c X).events ≠ [] := by
      intro hnil
      have hmem := hu2.2.1
      rw [hnil] at hmem
      cases hmem
    cases hue : (updateResource c X).err with
    | some e =>
      have hR : Reconcile c r request =
          ⟨{}, some e,
           [Event.get, Event.newManager] ++
             Event.op ManagerOp.Refresh none :: (updateResource c X).events⟩ := by
        rw [hD, hE]
        simp only [hue]
        rfl
      have hrw : resourceWrites (Reconcile c r request).trace =
          resourceWrites (updateResource c X).events := by
        rw [hR]
        simp [resourceWrites]
      have hops : opsOf (Reconcile c r request).trace = [.Refresh] := by
        rw [hR]
        simp [opsOf, hu.1]
      rw [hrw, hops]
      refine ⟨hne, hu2.1, hinv, ?_, ?_⟩
      · intro op hop hmem
        rcases hop with rfl | rfl <;> simp at hmem
      · intro _
        refine ⟨by rw [hR]; simp, ⟨(X, (updateResource c X).err), hu2.2.1, ?_⟩,
          by rw [hR], by simp, by simp⟩
        rw [hR, hue]
    | none =>
      have htl := reconcileTail_results c r (updateResource c X).o m1 (activeStatus c o)
      have hR : (Reconcile c r request).trace =
          ([Event.get, Event.newManager] ++
            (Event.op ManagerOp.Refresh none :: (updateResource c X).events)) ++
            (reconcileTail c r (updateResource c X).o m1 (activeStatus c o)).trace := by
        rw [hD, hE]
        simp only [hue]
        simp [Outcome.after]
      have hrw : resourceWrites (Reconcile c r request).trace =
          resourceWrites (updateResource c X).events := by
        rw [hR]
        simp [resourceWrites, resourceWrites_append, htl.2]
      refine ⟨by rw [hrw]; exact hne, by rw [hrw]; exact hu2.1, hinv, ?_, ?_⟩
      · intro op hop _
        have hpre : op ∉ opsOf ([Event.get, Event.newManager] ++
            (Event.op ManagerOp.Refresh none :: (updateResource c X).events)) := by
          rcases hop with rfl | rfl <;> simp [opsOf, hu.1]
        rw [hR, untilOp_append _ _ _ hpre,
          persistedResource_of_writes _ (updateResource c X).events
            (by simp [resourceWrites, resourceWrites_append,
              resourceWrites_untilOp_nil _ _ htl.2])]
        exact hu.2.2.1 hue
      · intro hnone
        rw [persistedResource_of_writes _ (updateResource c X).events hrw,
          hu.2.2.1 hue] at hnone
        cases hnone

/-- Witness for C29: the sample resource, which lacks the finalizer, with a
tool whose every command succeeds. -/
theorem finalizer_safety_net_witness :
    (contains (GetFinalizers freshResource) finalizer = false →
        resourceWrites (Reconcile steadyCluster sampleReconciler sampleRequest).trace ≠ [] ∧
        (∀ p ∈ resourceWrites (Reconcile steadyCluster sampleReconciler sampleRequest).trace,
          p.1 = AddFinalizer (activeObject steadyCluster freshResource) finalizer) ∧
        ((∀ v, mapGet freshResource "metadata" = some v → ∃ md, v = .map md) →
          contains (GetFinalizers
            (AddFinalizer (activeObject steadyCluster freshResource) finalizer)) finalizer =
            true) ∧
        (∀ op, op = ManagerOp.Update ∨ op = ManagerOp.Reconcile →
          op ∈ opsOf (Reconcile steadyCluster sampleReconciler sampleRequest).trace →
          persistedResource
              (untilOp op (Reconcile steadyCluster sampleReconciler sampleRequest).trace) =
            some (AddFinalizer (activeObject steadyCluster freshResource) finalizer)) ∧
        (persistedResource (Reconcile steadyCluster sampleReconciler sampleRequest).trace =
            none →
          (Reconcile steadyCluster sampleReconciler sampleRequest).err ≠ none ∧
          (∃ p ∈ resourceWrites (Reconcile steadyCluster sampleReconciler sampleRequest).trace,
            p.2 = (Reconcile steadyCluster sampleReconciler sampleRequest).err) ∧
          (Reconcile steadyCluster sampleReconciler sampleRequest).result = {} ∧
          ManagerOp.Update ∉
            opsOf (Reconcile steadyCluster sampleReconciler sampleRequest).trace ∧
          ManagerOp.Reconcile ∉
            opsOf (Reconcile steadyCluster sampleReconciler sampleRequest).trace)) ∧
      (contains (GetFinalizers freshResource) finalizer = true →
        resourceWrites (Reconcile steadyCluster sampleReconciler sampleRequest).trace = []) :=
  finalizer_safety_net steadyCluster sampleReconciler sampleRequest freshResource
    sampleManager { sampleManager with existsFlag := true } rfl rfl rfl rfl rfl

end Terraform

namespace Terraform

/-! ## Reconciler: the update path and the order of `Create` and the finalizer -/

/-- C27, as the code behaves: for the sample resource, which does not carry the
finalizer, `Create` returns success while no resource write has been attempted
before the `Create` call; the finalizer is written only afterwards. -/
theorem create_precedes_finalizer :
    contains (GetFinalizers freshResource) finalizer = false ∧
      opResults (Reconcile freshCluster sampleReconciler sampleRequest).trace =
        [(.Refresh, none), (.Create, none)] ∧
      (resourceWrites
        (untilOp .Create (Reconcile freshCluster sampleReconciler sampleRequest).trace)).length =
        0 ∧
      (persistedResource
        (untilOp .Create (Reconcile freshCluster sampleReconciler sampleRequest).trace)).isNone =
        true ∧
      (persistedResource (Reconcile freshCluster sampleReconciler sampleRequest).trace).map
        GetFinalizers = some [finalizer] := by
  decide

/-- C27, amended: on the creation path the finalizer is added after `Create`
has returned success, not before.  When the resource has no deletion timestamp,
`Refresh` succeeds with `Exists() = false` and `Create` returns success, no
resource write is attempted before the `Create` call, a resource write is
attempted after it, and every object handed to the resource write carries the
finalizer, exactly once when the fetched resource held it at most once
(metadata being a mapping or absent). -/
theorem finalizer_added_after_create (c : Cluster) (r : TerraformReconciler)
    (request : Request) (o : GoMap) (m m1 : manager)
    (hget : c.Get request.Namespace request.Name = .ok o)
    (hm : NewManager c.parseInto c.fromUnstructured o r.OverrideValues = (some m, none))
    (hdel : GetDeletionTimestamp c.parseTime o = none)
    (href : manager.Refresh m (c.tool .Refresh) = (m1, none))
    (hex : m1.Exists = false)
    (hcreate : (manager.Create m1 (c.tool .Create)).2 = none) :
    opResults (Reconcile c r request).trace = [(.Refresh, none), (.Create, none)] ∧
      resourceWrites (untilOp .Create (Reconcile c r request).trace) = [] ∧
      resourceWrites (Reconcile c r request).trace ≠ [] ∧
      ∀ p ∈ resourceWrites (Reconcile c r request).trace,
        (∀ v, mapGet o "metadata" = some v → ∃ md, v = .map md) →
        contains (GetFinalizers p.1) finalizer = true ∧
          ((GetFinalizers o).count finalizer ≤ 1 →
            (GetFinalizers p.1).count finalizer = 1) := by
  have hD := Reconcile_dispatch c r request o m hget hm
  simp only [hdel, Option.isSome_none, Bool.false_eq_true, if_false] at hD
  have hE := reconcileActive_create c r o m m1 href hex
  have hok := createHandler_ok c r (activeObject c o) m1 hcreate
  have hR : (Reconcile c r request).trace =
      [Event.get, Event.newManager, Event.op ManagerOp.Refresh none] ++
        (createHandler c r (activeObject c o) m1).trace := by
    rw [hD, hE]
    simp [Outcome.after]
  generalize hY : syncStatus (statusAliased (activeObject c o)) (activeObject c o)
    ((StatusFor c.fromUnstructured (activeObject c o)).RemoveCondition ConditionConfigFailed) =
    Y at hok
  have hYmd : mapGet Y "metadata" = mapGet o "metadata" := by
    rw [← hY, mapGet_syncStatus_metadata, activeObject_metadata]
  have hYfin : GetFinalizers Y = GetFinalizers o := by
    rw [← hY, GetFinalizers_syncStatus, activeObject_finalizers]
  have hu2 := updateResource_writes c (AddFinalizer Y finalizer)
  have hrw : resourceWrites (Reconcile c r request).trace =
      resourceWrites (updateResource c (AddFinalizer Y finalizer)).events := by
    rw [hR]
    simp [resourceWrites, resourceWrites_append, hok.2.2]
  refine ⟨?_, ?_, ?_, ?_⟩
  · rw [hR]
    simp [opResults, opResults_append, hok.1]
  · rw [hR, untilOp_append _ _ _ (by simp [opsOf]), hok.2.1]
    simp [resourceWrites, resourceWrites_append, (overrideEvents_quiet r).2.1]
  · rw [hrw]
    intro hnil
    have hmem := hu2.2.1
    rw [hnil] at hmem
    cases hmem
  · intro p hp hmd
    rw [hrw] at hp
    rw [hu2.1 p hp]
    have hmdY : ∀ v, mapGet Y "metadata" = some v → ∃ md, v = .map md := by
      rw [hYmd]
      exact hmd
    refine ⟨GetFinalizers_AddFinalizer Y finalizer hmdY, fun hc => ?_⟩
    exact count_AddFinalizer Y finalizer hmdY (by rw [hYfin]; exact hc)

/-- Witness for C27: the sample resource with a tool that reports that the
deployment does not exist. -/
theorem finalizer_added_after_create_witness :
    opResults (Reconcile freshCluster sampleReconciler sampleRequest).trace =
        [(.Refresh, none), (.Create, none)] ∧
      resourceWrites
        (untilOp .Create (Reconcile freshCluster sampleReconciler sampleRequest).trace) = [] ∧
      resourceWrites (Reconcile freshCluster sampleReconciler sampleRequest).trace ≠ [] ∧
      ∀ p ∈ resourceWrites (Reconcile freshCluster sampleReconciler sampleRequest).trace,
        (∀ v, mapGet freshResource "metadata" = some v → ∃ md, v = .map md) →
        contains (GetFinalizers p.1) finalizer = true ∧
          ((GetFinalizers freshResource).count finalizer ≤ 1 →
            (GetFinalizers p.1).count finalizer = 1) :=
  finalizer_added_after_create freshCluster sampleReconciler sampleRequest freshResource
    sampleManager sampleManager rfl rfl rfl rfl rfl rfl

end Terraform

namespace Terraform

/-! ## Reconciler: what a write leaves in the trace -/

theorem updateResourceStatusLoop_last (c : Cluster) (st : TFConfigStatus) :
    ∀ more n o,
      (st, (updateResourceStatusLoop c st more n o).err) ∈
        statusWrites (updateResourceStatusLoop c st more n o).events := by
  intro more
  induction more with
  | zero =>
    intro n o
    unfold updateResourceStatusLoop
    cases c.StatusUpdate n (mapSet o "status" (.status st)) <;> simp [statusWrites]
  | succ more ih =>
    intro n o
    unfold updateResourceStatusLoop
    cases c.StatusUpdate n (mapSet o "status" (.status st)) with
    | ok o1 => simp [statusWrites]
    | error e =>
      by_cases hc : c.IsConflict e = true
      · simp only [hc, if_true, statusWrites, List.mem_cons]
        exact Or.inr (ih (n + 1) (mapSet o "status" (.status st)))
      · simp [hc, statusWrites]

theorem status_write_facts (c : Cluster) (o : GoMap) (st : TFConfigStatus) (tr : List Event)
    (htr : statusWrites tr = statusWrites (updateResourceStatus c o st).events) :
    statusWrites tr ≠ [] ∧ (∀ q ∈ statusWrites tr, q.1 = st) ∧
      (∃ q ∈ statusWrites tr, q.2 = (updateResourceStatus c o st).err) ∧
      ((updateResourceStatus c o st).err = none ↔ (persistedStatus tr).isSome = true) ∧
      ((updateResourceStatus c o st).err ≠ none ↔ persistedStatus tr = none) := by
  have hw := updateResourceStatus_trace c o st
  have hw2 := updateResourceStatus_writes c o st
  have hp : persistedStatus tr = persistedStatus (updateResourceStatus c o st).events :=
    persistedStatus_of_writes _ _ htr
  rw [htr, hp]
  refine ⟨hw2.2, hw2.1, ⟨_, updateResourceStatusLoop_last c st 3 0 o, rfl⟩, ?_, ?_⟩
  · constructor
    · intro h
      rw [hw.2.2.1 h]
      rfl
    · intro h
      by_contra hne
      rw [hw.2.2.2 hne] at h
      cases h
  · constructor
    · exact hw.2.2.2
    · intro h hnone
      rw [hw.2.2.1 hnone] at h
      cases h

theorem resource_write_facts (c : Cluster) (X : GoMap) (tr : List Event)
    (htr : resourceWrites tr = resourceWrites (updateResource c X).events) :
    resourceWrites tr ≠ [] ∧ (∀ p ∈ resourceWrites tr, p.1 = X) ∧
      (∃ p ∈ resourceWrites tr, p.2 = (updateResource c X).err) ∧
      ((updateResource c X).err = none ↔ (persistedResource tr).isSome = true) ∧
      ((updateResource c X).err ≠ none ↔ persistedResource tr = none) := by
  have hu := updateResource_trace c X
  have hu2 := updateResource_writes c X
  have hp : persistedResource tr = persistedResource (updateResource c X).events :=
    persistedResource_of_writes _ _ htr
  rw [htr, hp]
  refine ⟨?_, hu2.1, ⟨_, hu2.2.1, rfl⟩, ?_, ?_⟩
  · intro hnil
    have hmem := hu2.2.1
    rw [hnil] at hmem
    cases hmem
  · constructor
    · intro h
      rw [hu.2.2.1 h]
      rfl
    · intro h
      by_contra hne
      rw [hu.2.2.2 hne] at h
      cases h
  · constructor
    · exact hu.2.2.2
    · intro h hnone
      rw [hu.2.2.1 hnone] at h
      cases h

end Terraform

namespace Terraform

/-! ## Reconciler: the steady state and the update path -/

/-- C23, as the code behaves.  First, the stored status holds two `ConfigFailed`
conditions: `Refresh` succeeds with `Exists() = true` and
`IsUpdateRequired() = false`, every write succeeds, and the status that is
persisted still holds a `ConfigFailed` condition.  Second, the resource lacks
the finalizer and the store refuses the resource write: no status write is
attempted.  Third, the store refuses the status write: no status is
persisted. -/
theorem steady_state_keeps_ConfigFailed :
    (GetDeletionTimestamp (convertingCluster twiceFailedResource okTool).parseTime
          twiceFailedResource = none ∧
        opResults (Reconcile (convertingCluster twiceFailedResource okTool) sampleReconciler
          sampleRequest).trace = [(.Refresh, none), (.Reconcile, none)] ∧
        (Reconcile (convertingCluster twiceFailedResource okTool) sampleReconciler
          sampleRequest).err = none ∧
        persistedStatus (Reconcile (convertingCluster twiceFailedResource okTool)
          sampleReconciler sampleRequest).trace =
          some ⟨[⟨ConditionConfigFailed, StatusTrue, ReasonUpdateError, "second", 0⟩,
                 ⟨ConditionInitialized, StatusTrue, "", "", 100⟩,
                 ⟨ConditionDeployed, StatusTrue, ReasonUpdateSuccessful, "", 101⟩], none⟩) ∧
      (opResults (Reconcile readOnlySteadyCluster sampleReconciler sampleRequest).trace =
          [(.Refresh, none)] ∧
        (statusWrites
          (Reconcile readOnlySteadyCluster sampleReconciler sampleRequest).trace).length = 0 ∧
        (Reconcile readOnlySteadyCluster sampleReconciler sampleRequest).err =
          some (.msg "store unavailable")) ∧
      (opResults (Reconcile statusReadOnlyCluster sampleReconciler sampleRequest).trace =
          [(.Refresh, none), (.Reconcile, none)] ∧
        persistedStatus
          (Reconcile statusReadOnlyCluster sampleReconciler sampleRequest).trace = none ∧
        (Reconcile statusReadOnlyCluster sampleReconciler sampleRequest).err =
          some (.msg "store unavailable")) := by
  decide

/-- C23 (Scenario E), amended: when the resource has no deletion timestamp and
`Refresh` succeeds with `Exists() = true` and `IsUpdateRequired() = false`,
`Reconcile` invokes neither `Create` nor `Update`.  When the resource carries
the finalizer or the resource write that adds it succeeds, the operations are
`Refresh` and the steady-state hook, a status write is attempted, every status
handed to it holds `Deployed/True/UpdateSuccessful` and, the stored status
holding at most one condition per type, no `ConfigFailed` condition, the
returned error is the error of a status write and is nil exactly when a status
was persisted, and the result asks for a requeue after the reconcile period.
When the resource lacks the finalizer and no resource write succeeds, no status
write is attempted and the error of the resource write is returned with the
empty result. -/
theorem steady_state_path (c : Cluster) (r : TerraformReconciler) (request : Request)
    (o : GoMap) (m m1 : manager)
    (hget : c.Get request.Namespace request.Name = .ok o)
    (hm : NewManager c.parseInto c.fromUnstructured o r.OverrideValues = (some m, none))
    (hdel : GetDeletionTimestamp c.parseTime o = none)
    (href : manager.Refresh m (c.tool .Refresh) = (m1, none))
    (hex : m1.Exists = true) (hupd : m1.IsUpdateRequired = false) :
    ManagerOp.Create ∉ opsOf (Reconcile c r request).trace ∧
      ManagerOp.Update ∉ opsOf (Reconcile c r request).trace ∧
      ((contains (GetFinalizers o) finalizer = true ∨
          (persistedResource (Reconcile c r request).trace).isSome = true) →
        opsOf (Reconcile c r request).trace = [.Refresh, .Reconcile] ∧
        statusWrites (Reconcile c r request).trace ≠ [] ∧
        (∀ q ∈ statusWrites (Reconcile c r request).trace,
          holdsCondition q.1 ConditionDeployed StatusTrue ReasonUpdateSuccessful "" ∧
          (((StatusFor c.fromUnstructured o).Conditions.map (fun x => x.CondType)).Nodup →
            ∀ x ∈ q.1.Conditions, x.CondType ≠ ConditionConfigFailed)) ∧
        (∃ q ∈ statusWrites (Reconcile c r request).trace,
          q.2 = (Reconcile c r request).err) ∧
        ((Reconcile c r request).err = none ↔
          (persistedStatus (Reconcile c r request).trace).isSome = true) ∧
        (Reconcile c r request).result = { RequeueAfter := r.ReconcilePeriod }) ∧
      (contains (GetFinalizers o) finalizer = false →
        persistedResource (Reconcile c r request).trace = none →
        opsOf (Reconcile c r request).trace = [.Refresh] ∧
        statusWrites (Reconcile c r request).trace = [] ∧
        (Reconcile c r request).result = {} ∧
        (Reconcile c r request).err ≠ none ∧
        ∃ p ∈ resourceWrites (Reconcile c r request).trace,
          p.2 = (Reconcile c r request).err) := by
  have hD := Reconcile_dispatch c r request o m hget hm
  simp only [hdel, Option.isSome_none, Bool.false_eq_true, if_false] at hD
  have hE := reconcileActive_exists c r o m m1 href hex
  -- what the steady-state end contributes, after a prefix `pre`
  have key : ∀ (o2 : GoMap) (pre : List Event),
      Reconcile c r request =
        ((reconcileTail c r o2 m1 (activeStatus c o)).after pre).after [.get, .newManager] →
      opsOf pre = [.Refresh] → statusWrites pre = [] →
      opsOf (Reconcile c r request).trace = [.Refresh, .Reconcile] ∧
        statusWrites (Reconcile c r request).trace ≠ [] ∧
        (∀ q ∈ statusWrites (Reconcile c r request).trace,
          holdsCondition q.1 ConditionDeployed StatusTrue ReasonUpdateSuccessful "" ∧
          (((StatusFor c.fromUnstructured o).Conditions.map (fun x => x.CondType)).Nodup →
            ∀ x ∈ q.1.Conditions, x.CondType ≠ ConditionConfigFailed)) ∧
        (∃ q ∈ statusWrites (Reconcile c r request).trace,
          q.2 = (Reconcile c r request).err) ∧
        ((Reconcile c r request).err = none ↔
          (persistedStatus (Reconcile c r request).trace).isSome = true) ∧
        (Reconcile c r request).result = { RequeueAfter := r.ReconcilePeriod } := by
    intro o2 pre hR hpre hpre2
    rw [reconcileTail_steady c r o2 m1 _ hupd, afterReconcileHook_none] at hR
    generalize hst3 : ((((activeStatus c o).RemoveCondition ConditionConfigFailed).RemoveCondition
      ConditionIrreconcilable).SetCondition (c.Now 1)
      ⟨ConditionDeployed, StatusTrue, ReasonUpdateSuccessful, "", 0⟩) = st3 at hR
    have hw := updateResourceStatus_trace c o2 st3
    have hf := status_write_facts c o2 st3 (Reconcile c r request).trace
      (by rw [hR]; simp [Outcome.after, statusWrites_append, statusWrites, hpre2])
    have herr : (Reconcile c r request).err = (updateResourceStatus c o2 st3).err := by
      rw [hR]
      rfl
    refine ⟨?_, hf.1, ?_, ?_, ?_, by rw [hR]; rfl⟩
    · rw [hR]
      simp [Outcome.after, opsOf_append, opsOf, hpre, hw.1]
    · intro q hq
      rw [hf.2.1 q hq, ← hst3]
      exact ⟨holdsCondition_set _ _ _ _ _ _,
        fun hn => steady_status_clean _ _ (activeStatus_nodup c o hn)⟩
    · rw [herr]
      exact hf.2.2.1
    · rw [herr]
      exact hf.2.2.2.1
  by_cases hf : contains (GetFinalizers o) finalizer = true
  · rw [if_pos hf] at hE
    have hk := key _ [.op .Refresh none] (by rw [hD, hE]) rfl rfl
    refine ⟨by simp [hk.1], by simp [hk.1], fun _ => hk, fun hc => ?_⟩
    rw [hf] at hc
    cases hc
  · rw [if_neg hf] at hE
    generalize hX : AddFinalizer (activeObject c o) finalizer = X at hE
    have hu := updateResource_trace c X
    cases hue : (updateResource c X).err with
    | some e =>
      have hR : Reconcile c r request =
          ⟨{}, some e,
           [Event.get, Event.newManager] ++
             Event.op ManagerOp.Refresh none :: (updateResource c X).events⟩ := by
        rw [hD, hE]
        simp only [hue]
        rfl
      have hrf := resource_write_facts c X (Reconcile c r request).trace
        (by rw [hR]; simp [resourceWrites])
      have hops : opsOf (Reconcile c r request).trace = [.Refresh] := by
        rw [hR]
        simp [opsOf, hu.1]
      have hpr : persistedResource (Reconcile c r request).trace = none :=
        hrf.2.2.2.2.1 (by rw [hue]; simp)
      refine ⟨by simp [hops], by simp [hops], ?_, fun _ _ => ⟨hops, ?_, by rw [hR], ?_, ?_⟩⟩
      · rintro (hc | hc)
        · exact absurd hc hf
        · rw [hpr] at hc
          cases hc
      · rw [hR]
        simp [statusWrites, hu.2.1]
      · rw [hR]
        simp
      · obtain ⟨p, hp, hpe⟩ := hrf.2.2.1
        exact ⟨p, hp, by rw [hpe, hue, hR]⟩
    | none =>
      have hR : Reconcile c r request =
          ((reconcileTail c r (updateResource c X).o m1 (activeStatus c o)).after
            (.op .Refresh none :: (updateResource c X).events)).after [.get, .newManager] := by
        rw [hD, hE]
        simp only [hue]
      have hk := key _ _ hR (by simp [opsOf, hu.1]) (by simp [statusWrites, hu.2.1])
      have htl := reconcileTail_results c r (updateResource c X).o m1 (activeStatus c o)
      have hrf := resource_write_facts c X (Reconcile c r request).trace
        (by rw [hR]; simp [Outcome.after, resourceWrites, resourceWrites_append, htl.2])
      refine ⟨by simp [hk.1], by simp [hk.1], fun _ => hk, fun _ hc => ?_⟩
      have hsome := hrf.2.2.2.1.1 hue
      rw [hc] at hsome
      cases hsome

/-- Witness for C23: the sample resource, which lacks the finalizer, with a
tool whose every command succeeds and a store that accepts every write. -/
theorem steady_state_path_witness :
    (opsOf (Reconcile steadyCluster sampleReconciler sampleRequest).trace =
        [.Refresh, .Reconcile] ∧
      statusWrites (Reconcile steadyCluster sampleReconciler sampleRequest).trace ≠ [] ∧
      (∀ q ∈ statusWrites (Reconcile steadyCluster sampleReconciler sampleRequest).trace,
        holdsCondition q.1 ConditionDeployed StatusTrue ReasonUpdateSuccessful "" ∧
        (((StatusFor steadyCluster.fromUnstructured freshResource).Conditions.map
            (fun x => x.CondType)).Nodup →
          ∀ x ∈ q.1.Conditions, x.CondType ≠ ConditionConfigFailed)) ∧
      (∃ q ∈ statusWrites (Reconcile steadyCluster sampleReconciler sampleRequest).trace,
        q.2 = (Reconcile steadyCluster sampleReconciler sampleRequest).err) ∧
      ((Reconcile steadyCluster sampleReconciler sampleRequest).err = none ↔
        (persistedStatus
          (Reconcile steadyCluster sampleReconciler sampleRequest).trace).isSome = true) ∧
      (Reconcile steadyCluster sampleReconciler sampleRequest).result =
        { RequeueAfter := sampleReconciler.ReconcilePeriod }) ∧
      (Reconcile steadyCluster sampleReconciler sampleRequest).err = none ∧
      persistedStatus (Reconcile steadyCluster sampleReconciler sampleRequest).trace =
        some ⟨[⟨ConditionInitialized, StatusTrue, "", "", 100⟩,
               ⟨ConditionDeployed, StatusTrue, ReasonUpdateSuccessful, "", 101⟩], none⟩ :=
  ⟨(steady_state_path steadyCluster sampleReconciler sampleRequest freshResource
      sampleManager { sampleManager with existsFlag := true } rfl rfl rfl rfl rfl rfl).2.2.1
      (Or.inr (by decide)),
   by decide, by decide⟩

end Terraform

namespace Terraform

/-- C21, as the code behaves.  First, the sample resource lacks the finalizer,
`Refresh` succeeds with `Exists() = true` and `IsUpdateRequired() = true`, and
the store refuses the resource write that adds the finalizer: `Reconcile`
returns the error of the write and `Update` is never invoked.  Second, the
stored status holds two `ConfigFailed` conditions: `Update` and every write
succeed, and the status that is persisted still holds a `ConfigFailed`
condition. -/
theorem update_skipped_when_finalizer_write_fails :
    (GetDeletionTimestamp readOnlyCluster.parseTime freshResource = none ∧
        (manager.Refresh sampleManager (readOnlyCluster.tool .Refresh)).2 = none ∧
        (manager.Refresh sampleManager (readOnlyCluster.tool .Refresh)).1.Exists = true ∧
        (manager.Refresh sampleManager (readOnlyCluster.tool .Refresh)).1.IsUpdateRequired =
          true ∧
        opsOf (Reconcile readOnlyCluster sampleReconciler sampleRequest).trace = [.Refresh] ∧
        (opsOf (Reconcile readOnlyCluster sampleReconciler sampleRequest).trace).count
          .Update = 0 ∧
        (Reconcile readOnlyCluster sampleReconciler sampleRequest).err =
          some (.msg "store unavailable")) ∧
      (GetDeletionTimestamp (convertingCluster twiceFailedResource updateTool).parseTime
          twiceFailedResource = none ∧
        opResults (Reconcile (convertingCluster twiceFailedResource updateTool)
          sampleReconciler sampleRequest).trace = [(.Refresh, none), (.Update, none)] ∧
        (Reconcile (convertingCluster twiceFailedResource updateTool) sampleReconciler
          sampleRequest).err = none ∧
        persistedStatus (Reconcile (convertingCluster twiceFailedResource updateTool)
          sampleReconciler sampleRequest).trace =
          some ⟨[⟨ConditionConfigFailed, StatusTrue, ReasonUpdateError, "second", 0⟩,
                 ⟨ConditionDeployed, StatusTrue, ReasonUpdateSuccessful,
                  "Configuration change updated", 101⟩], none⟩) := by
  decide

/-- C21 (Scenario B), amended: when the resource has no deletion timestamp and
`Refresh` succeeds with `Exists() = true` and `IsUpdateRequired() = true`,
`Create` is not invoked.  When the resource carries the finalizer or the
resource write that adds it succeeds, `Update` is invoked exactly once, after
`Refresh`; if `Update` succeeds, a status write is attempted, every status
handed to it holds `Deployed/True/UpdateSuccessful` and, the status that
`updateHandler` reads (the stored one, or the one of the object that the
finalizer write returned) holding at most one condition per type, no
`ConfigFailed` condition, the returned error is the error of a status write and
is nil exactly when a status was persisted, and the result asks for a requeue
after the reconcile period.  When the resource lacks the finalizer and no
resource write succeeds, `Update` is not invoked, no status write is attempted
and the error of the resource write is returned with the empty result. -/
theorem update_path (c : Cluster) (r : TerraformReconciler) (request : Request)
    (o : GoMap) (m m1 : manager)
    (hget : c.Get request.Namespace request.Name = .ok o)
    (hm : NewManager c.parseInto c.fromUnstructured o r.OverrideValues = (some m, none))
    (hdel : GetDeletionTimestamp c.parseTime o = none)
    (href : manager.Refresh m (c.tool .Refresh) = (m1, none))
    (hex : m1.Exists = true) (hupd : m1.IsUpdateRequired = true) :
    ManagerOp.Create ∉ opsOf (Reconcile c r request).trace ∧
      ((contains (GetFinalizers o) finalizer = true ∨
          (persistedResource (Reconcile c r request).trace).isSome = true) →
        opsOf (Reconcile c r request).trace = [.Refresh, .Update] ∧
        (opsOf (Reconcile c r request).trace).count .Update = 1 ∧
        ((manager.Update m1 (c.tool .Update)).2 = none →
          statusWrites (Reconcile c r request).trace ≠ [] ∧
          (∀ q ∈ statusWrites (Reconcile c r request).trace,
            holdsCondition q.1 ConditionDeployed StatusTrue ReasonUpdateSuccessful
              "Configuration change updated") ∧
          (contains (GetFinalizers o) finalizer = true →
            ((StatusFor c.fromUnstructured o).Conditions.map (fun x => x.CondType)).Nodup →
            ∀ q ∈ statusWrites (Reconcile c r request).trace,
              ∀ x ∈ q.1.Conditions, x.CondType ≠ ConditionConfigFailed) ∧
          (contains (GetFinalizers o) finalizer = false →
            ((StatusFor c.fromUnstructured
              (updateResource c (AddFinalizer (activeObject c o) finalizer)).o).Conditions.map
              (fun x => x.CondType)).Nodup →
            ∀ q ∈ statusWrites (Reconcile c r request).trace,
              ∀ x ∈ q.1.Conditions, x.CondType ≠ ConditionConfigFailed) ∧
          (∃ q ∈ statusWrites (Reconcile c r request).trace,
            q.2 = (Reconcile c r request).err) ∧
          ((Reconcile c r request).err = none ↔
            (persistedStatus (Reconcile c r request).trace).isSome = true) ∧
          (Reconcile c r request).result = { RequeueAfter := r.ReconcilePeriod })) ∧
      (contains (GetFinalizers o) finalizer = false →
        persistedResource (Reconcile c r request).trace = none →
        opsOf (Reconcile c r request).trace = [.Refresh] ∧
        statusWrites (Reconcile c r request).trace = [] ∧
        (Reconcile c r request).result = {} ∧
        (Reconcile c r request).err ≠ none ∧
        ∃ p ∈ resourceWrites (Reconcile c r request).trace,
          p.2 = (Reconcile c r request).err) := by
  have hD := Reconcile_dispatch c r request o m hget hm
  simp only [hdel, Option.isSome_none, Bool.false_eq_true, if_false] at hD
  have hE := reconcileActive_exists c r o m m1 href hex
  -- what the update handler contributes, after a prefix `pre`
  have key : ∀ (o2 : GoMap) (pre : List Event),
      Reconcile c r request =
        ((updateHandler c r o2 m1).after pre).after [.get, .newManager] →
      opsOf pre = [.Refresh] → statusWrites pre = [] →
      opsOf (Reconcile c r request).trace = [.Refresh, .Update] ∧
        (opsOf (Reconcile c r request).trace).count .Update = 1 ∧
        ((manager.Update m1 (c.tool .Update)).2 = none →
          statusWrites (Reconcile c r request).trace ≠ [] ∧
          (∀ q ∈ statusWrites (Reconcile c r request).trace,
            holdsCondition q.1 ConditionDeployed StatusTrue ReasonUpdateSuccessful
              "Configuration change updated") ∧
          (((StatusFor c.fromUnstructured o2).Conditions.map (fun x => x.CondType)).Nodup →
            ∀ q ∈ statusWrites (Reconcile c r request).trace,
              ∀ x ∈ q.1.Conditions, x.CondType ≠ ConditionConfigFailed) ∧
          (∃ q ∈ statusWrites (Reconcile c r request).trace,
            q.2 = (Reconcile c r request).err) ∧
          ((Reconcile c r request).err = none ↔
            (persistedStatus (Reconcile c r request).trace).isSome = true) ∧
          (Reconcile c r request).result = { RequeueAfter := r.ReconcilePeriod }) := by
    intro o2 pre hR hpre hpre2
    have hut := updateHandler_trace c r o2 m1
    have hops : opsOf (Reconcile c r request).trace = [.Refresh, .Update] := by
      rw [hR]
      simp [Outcome.after, opsOf_append, opsOf, hpre, hut.2.1]
    refine ⟨hops, by simp [hops], fun hok => ?_⟩
    rw [updateHandler_ok c r o2 m1 hok] at hR
    generalize hst2 : (((StatusFor c.fromUnstructured o2).RemoveCondition
      ConditionConfigFailed).SetCondition (c.Now 1)
      ⟨ConditionDeployed, StatusTrue, ReasonUpdateSuccessful,
       "Configuration change updated", 0⟩) = st2 at hR
    have hf := status_write_facts c o2 st2 (Reconcile c r request).trace
      (by rw [hR]; simp [Outcome.after, statusWrites_append, statusWrites, hpre2,
        (overrideEvents_quiet r).2.2])
    have herr : (Reconcile c r request).err = (updateResourceStatus c o2 st2).err := by
      rw [hR]
      rfl
    refine ⟨hf.1, ?_, ?_, ?_, ?_, by rw [hR]; rfl⟩
    · intro q hq
      rw [hf.2.1 q hq, ← hst2]
      exact holdsCondition_set _ _ _ _ _ _
    · intro hn q hq
      rw [hf.2.1 q hq, ← hst2]
      exact no_failed_after_success _ _ _ (by decide) hn
    · rw [herr]
      exact hf.2.2.1
    · rw [herr]
      exact hf.2.2.2.1
  by_cases hf : contains (GetFinalizers o) finalizer = true
  · rw [if_pos hf, reconcileTail_update c r _ m1 _ hupd] at hE
    have hk := key _ [.op .Refresh none] (by rw [hD, hE]) rfl rfl
    refine ⟨by simp [hk.1], fun _ => ⟨hk.1, hk.2.1, fun hok => ?_⟩, fun hc => ?_⟩
    · obtain ⟨h1, h2, h3, h4, h5, h6⟩ := hk.2.2 hok
      refine ⟨h1, h2, fun _ hn => h3 (activeObject_status_nodup c o hn), fun hc => ?_, h4, h5, h6⟩
      rw [hf] at hc
      cases hc
    · rw [hf] at hc
      cases hc
  · rw [if_neg hf] at hE
    generalize hX : AddFinalizer (activeObject c o) finalizer = X at hE ⊢
    have hu := updateResource_trace c X
    cases hue : (updateResource c X).err with
    | some e =>
      have hR : Reconcile c r request =
          ⟨{}, some e,
           [Event.get, Event.newManager] ++
             Event.op ManagerOp.Refresh none :: (updateResource c X).events⟩ := by
        rw [hD, hE]
        simp only [hue]
        rfl
      have hrf := resource_write_facts c X (Reconcile c r request).trace
        (by rw [hR]; simp [resourceWrites])
      have hops : opsOf (Reconcile c r request).trace = [.Refresh] := by
        rw [hR]
        simp [opsOf, hu.1]
      have hpr : persistedResource (Reconcile c r request).trace = none :=
        hrf.2.2.2.2.1 (by rw [hue]; simp)
      refine ⟨by simp [hops], ?_, fun _ _ => ⟨hops, ?_, by rw [hR], ?_, ?_⟩⟩
      · rintro (hc | hc)
        · exact absurd hc hf
        · rw [hpr] at hc
          cases hc
      · rw [hR]
        simp [statusWrites, hu.2.1]
      · rw [hR]
        simp
      · obtain ⟨p, hp, hpe⟩ := hrf.2.2.1
        exact ⟨p, hp, by rw [hpe, hue, hR]⟩
    | none =>
      rw [reconcileTail_update c r _ m1 _ hupd] at hE
      have hR : Reconcile c r request =
          ((updateHandler c r (updateResource c X).o m1).after
            (.op .Refresh none :: (updateResource c X).events)).after [.get, .newManager] := by
        rw [hD, hE]
        simp only [hue]
      have hk := key _ _ hR (by simp [opsOf, hu.1]) (by simp [statusWrites, hu.2.1])
      have hut := updateHandler_trace c r (updateResource c X).o m1
      have hrf := resource_write_facts c X (Reconcile c r request).trace
        (by rw [hR]; simp [Outcome.after, resourceWrites, resourceWrites_append, hut.2.2])
      refine ⟨by simp [hk.1], fun _ => ⟨hk.1, hk.2.1, fun hok => ?_⟩, fun _ hc => ?_⟩
      · obtain ⟨h1, h2, h3, h4, h5, h6⟩ := hk.2.2 hok
        exact ⟨h1, h2, fun hc => absurd hc hf, fun _ hn => h3 hn, h4, h5, h6⟩
      · have hsome := hrf.2.2.2.1.1 hue
        rw [hc] at hsome
        cases hsome

/-- Witness for C21: the sample resource, which lacks the finalizer, with a
tool whose plan run exits with two, in a cluster whose store accepts every
write. -/
theorem update_path_witness :
    (statusWrites (Reconcile updateCluster sampleReconciler sampleRequest).trace ≠ [] ∧
      (∀ q ∈ statusWrites (Reconcile updateCluster sampleReconciler sampleRequest).trace,
        holdsCondition q.1 ConditionDeployed StatusTrue ReasonUpdateSuccessful
          "Configuration change updated") ∧
      (contains (GetFinalizers freshResource) finalizer = true →
        ((StatusFor updateCluster.fromUnstructured freshResource).Conditions.map
          (fun x => x.CondType)).Nodup →
        ∀ q ∈ statusWrites (Reconcile updateCluster sampleReconciler sampleRequest).trace,
          ∀ x ∈ q.1.Conditions, x.CondType ≠ ConditionConfigFailed) ∧
      (contains (GetFinalizers freshResource) finalizer = false →
        ((StatusFor updateCluster.fromUnstructured
          (updateResource updateCluster
            (AddFinalizer (activeObject updateCluster freshResource) finalizer)).o).Conditions.map
          (fun x => x.CondType)).Nodup →
        ∀ q ∈ statusWrites (Reconcile updateCluster sampleReconciler sampleRequest).trace,
          ∀ x ∈ q.1.Conditions, x.CondType ≠ ConditionConfigFailed) ∧
      (∃ q ∈ statusWrites (Reconcile updateCluster sampleReconciler sampleRequest).trace,
        q.2 = (Reconcile updateCluster sampleReconciler sampleRequest).err) ∧
      ((Reconcile updateCluster sampleReconciler sampleRequest).err = none ↔
        (persistedStatus
          (Reconcile updateCluster sampleReconciler sampleRequest).trace).isSome = true) ∧
      (Reconcile updateCluster sampleReconciler sampleRequest).result =
        { RequeueAfter := sampleReconciler.ReconcilePeriod }) ∧
      opsOf (Reconcile updateCluster sampleReconciler sampleRequest).trace =
        [.Refresh, .Update] ∧
      (Reconcile updateCluster sampleReconciler sampleRequest).err = none ∧
      persistedStatus (Reconcile updateCluster sampleReconciler sampleRequest).trace =
        some ⟨[⟨ConditionDeployed, StatusTrue, ReasonUpdateSuccessful,
                "Configuration change updated", 101⟩], none⟩ :=
  ⟨((update_path updateCluster sampleReconciler sampleRequest freshResource sampleManager
      { sampleManager with existsFlag := true, isUpdateRequired := true }
      rfl rfl rfl rfl rfl rfl).2.1 (Or.inr (by decide))).2.2 (by decide),
   by decide, by decide, by decide⟩

end Terraform

namespace Terraform

/-! ## Reconciler: the creation path -/

theorem createHandler_ok_eq (c : Cluster) (r : TerraformReconciler) (o : GoMap) (m : manager)
    (h : (manager.Create m (c.tool .Create)).2 = none) :
    createHandler c r o m =
      match (updateResource c
          (AddFinalizer (syncStatus (statusAliased o) o
            ((StatusFor c.fromUnstructured o).RemoveCondition ConditionConfigFailed))
            finalizer)).err with
      | some e =>
        ⟨{}, some e,
         overrideEvents r ++ .op .Create none ::
           (updateResource c
             (AddFinalizer (syncStatus (statusAliased o) o
               ((StatusFor c.fromUnstructured o).RemoveCondition ConditionConfigFailed))
               finalizer)).events⟩
      | none =>
        ⟨{ RequeueAfter := r.ReconcilePeriod },
         (updateResourceStatus c
           (updateResource c
             (AddFinalizer (syncStatus (statusAliased o) o
               ((StatusFor c.fromUnstructured o).RemoveCondition ConditionConfigFailed))
               finalizer)).o
           (((StatusFor c.fromUnstructured o).RemoveCondition ConditionConfigFailed).SetCondition
             (c.Now 1) ⟨ConditionDeployed, StatusTrue, ReasonCreateSuccessful, "", 0⟩)).err,
         overrideEvents r ++ .op .Create none ::
           ((updateResource c
             (AddFinalizer (syncStatus (statusAliased o) o
               ((StatusFor c.fromUnstructured o).RemoveCondition ConditionConfigFailed))
               finalizer)).events ++
            (updateResourceStatus c
              (updateResource c
                (AddFinalizer (syncStatus (statusAliased o) o
                  ((StatusFor c.fromUnstructured o).RemoveCondition ConditionConfigFailed))
                  finalizer)).o
              (((StatusFor c.fromUnstructured o).RemoveCondition
                ConditionConfigFailed).SetCondition
                (c.Now 1)
                ⟨ConditionDeployed, StatusTrue, ReasonCreateSuccessful, "", 0⟩)).events)⟩ := by
  unfold createHandler
  simp only [h]

/-- C20, as the code behaves: the stored status holds two `ConfigFailed`
conditions, `Refresh` reports that the deployment does not exist, `Create` and
both writes succeed, and the status that is persisted still holds a
`ConfigFailed` condition. -/
theorem creation_keeps_ConfigFailed :
    GetDeletionTimestamp (convertingCluster twiceFailedResource freshTool).parseTime
        twiceFailedResource = none ∧
      opResults (Reconcile (convertingCluster twiceFailedResource freshTool) sampleReconciler
        sampleRequest).trace = [(.Refresh, none), (.Create, none)] ∧
      (Reconcile (convertingCluster twiceFailedResource freshTool) sampleReconciler
        sampleRequest).err = none ∧
      (persistedResource (Reconcile (convertingCluster twiceFailedResource freshTool)
        sampleReconciler sampleRequest).trace).map GetFinalizers = some [finalizer] ∧
      persistedStatus (Reconcile (convertingCluster twiceFailedResource freshTool)
        sampleReconciler sampleRequest).trace =
        some ⟨[⟨ConditionConfigFailed, StatusTrue, ReasonUpdateError, "second", 0⟩,
               ⟨ConditionDeployed, StatusTrue, ReasonCreateSuccessful, "", 101⟩], none⟩ := by
  decide

/-- C20 (Scenario A), amended: when the resource has no deletion timestamp and
`Refresh` succeeds and reports that the deployment does not exist, the manager
operations invoked are `Refresh` and then `Create`, once each, and neither
`Update` nor `Delete`.  When `Create` succeeds, a resource write is attempted
and every object handed to it carries the finalizer (metadata being a mapping
or absent).  When that write succeeds, a status write is attempted, every
status handed to it holds `Deployed/True/CreateSuccessful` and, the stored
status holding at most one condition per type, no `ConfigFailed` condition, the
returned error is the error of a status write and is nil exactly when a status
was persisted, and the result asks for a requeue after the reconcile period.
When no resource write succeeds, no status write is attempted and the error of
the resource write is returned with the empty result. -/
theorem creation_path (c : Cluster) (r : TerraformReconciler) (request : Request)
    (o : GoMap) (m m1 : manager) (hget : c.Get request.Namespace request.Name = .ok o)
    (hm : NewManager c.parseInto c.fromUnstructured o r.OverrideValues = (some m, none))
    (hdel : GetDeletionTimestamp c.parseTime o = none)
    (href : manager.Refresh m (c.tool .Refresh) = (m1, none))
    (hex : m1.Exists = false) :
    opsOf (Reconcile c r request).trace = [.Refresh, .Create] ∧
      (opsOf (Reconcile c r request).trace).count .Create = 1 ∧
      ManagerOp.Update ∉ opsOf (Reconcile c r request).trace ∧
      ManagerOp.Delete ∉ opsOf (Reconcile c r request).trace ∧
      ((manager.Create m1 (c.tool .Create)).2 = none →
        resourceWrites (Reconcile c r request).trace ≠ [] ∧
        (∀ p ∈ resourceWrites (Reconcile c r request).trace,
          (∀ v, mapGet o "metadata" = some v → ∃ md, v = .map md) →
          contains (GetFinalizers p.1) finalizer = true) ∧
        ((persistedResource (Reconcile c r request).trace).isSome = true →
          statusWrites (Reconcile c r request).trace ≠ [] ∧
          (∀ q ∈ statusWrites (Reconcile c r request).trace,
            holdsCondition q.1 ConditionDeployed StatusTrue ReasonCreateSuccessful "" ∧
            (((StatusFor c.fromUnstructured o).Conditions.map (fun x => x.CondType)).Nodup →
              ∀ x ∈ q.1.Conditions, x.CondType ≠ ConditionConfigFailed)) ∧
          (∃ q ∈ statusWrites (Reconcile c r request).trace,
            q.2 = (Reconcile c r request).err) ∧
          ((Reconcile c r request).err = none ↔
            (persistedStatus (Reconcile c r request).trace).isSome = true) ∧
          (Reconcile c r request).result = { RequeueAfter := r.ReconcilePeriod } ∧
          (Reconcile c r request).result.RequeueAfter = r.ReconcilePeriod ∧
          (Reconcile c r request).result.Requeue = false) ∧
        (persistedResource (Reconcile c r request).trace = none →
          statusWrites (Reconcile c r request).trace = [] ∧
          (Reconcile c r request).result = {} ∧
          (Reconcile c r request).err ≠ none ∧
          ∃ p ∈ resourceWrites (Reconcile c r request).trace,
            p.2 = (Reconcile c r request).err)) := by
  have hD := Reconcile_dispatch c r request o m hget hm
  simp only [hdel, Option.isSome_none, Bool.false_eq_true, if_false] at hD
  have hE := reconcileActive_create c r o m m1 href hex
  have hres := createHandler_results c r (activeObject c o) m1
  have hops : opsOf (Reconcile c r request).trace = [.Refresh, .Create] := by
    rw [hD, hE, opsOf_eq_map]
    simp [Outcome.after, opResults_append, opResults, hres]
  refine ⟨hops, by simp [hops], by simp [hops], by simp [hops], fun hok => ?_⟩
  rw [createHandler_ok_eq c r (activeObject c o) m1 hok] at hE
  generalize hst1 : (StatusFor c.fromUnstructured (activeObject c o)).RemoveCondition
    ConditionConfigFailed = st1 at hE
  generalize hY : syncStatus (statusAliased (activeObject c o)) (activeObject c o) st1 = Y at hE
  have hYmd : mapGet Y "metadata" = mapGet o "metadata" := by
    rw [← hY, mapGet_syncStatus_metadata, activeObject_metadata]
  have hu := updateResource_trace c (AddFinalizer Y finalizer)
  have hov := overrideEvents_quiet r
  have hfinal : ∀ p : GoMap × Option GoError, p.1 = AddFinalizer Y finalizer →
      (∀ v, mapGet o "metadata" = some v → ∃ md, v = .map md) →
      contains (GetFinalizers p.1) finalizer = true := by
    intro p hp hmd
    rw [hp]
    exact GetFinalizers_AddFinalizer Y finalizer (by rw [hYmd]; exact hmd)
  cases hue : (updateResource c (AddFinalizer Y finalizer)).err with
  | some e =>
    have hR : Reconcile c r request =
        ⟨{}, some e,
         [Event.get, Event.newManager] ++ ([Event.op ManagerOp.Refresh none] ++
           (overrideEvents r ++ Event.op ManagerOp.Create none ::
             (updateResource c (AddFinalizer Y finalizer)).events))⟩ := by
      rw [hD, hE]
      simp only [hue]
      rfl
    have hrf := resource_write_facts c (AddFinalizer Y finalizer) (Reconcile c r request).trace
      (by rw [hR]; simp [resourceWrites, resourceWrites_append, hov.2.1])
    have hpr : persistedResource (Reconcile c r request).trace = none :=
      hrf.2.2.2.2.1 (by rw [hue]; simp)
    refine ⟨hrf.1, fun p hp => hfinal p (hrf.2.1 p hp), fun hc => ?_, fun _ => ⟨?_, ?_, ?_, ?_⟩⟩
    · rw [hpr] at hc
      cases hc
    · rw [hR]
      simp [statusWrites, statusWrites_append, hov.2.2, hu.2.1]
    · rw [hR]
    · rw [hR]
      simp
    · obtain ⟨p, hp, hpe⟩ := hrf.2.2.1
      exact ⟨p, hp, by rw [hpe, hue, hR]⟩
  | none =>
    generalize hst2 : st1.SetCondition (c.Now 1)
      ⟨ConditionDeployed, StatusTrue, ReasonCreateSuccessful, "", 0⟩ = st2 at hE
    have hw := updateResourceStatus_trace c (updateResource c (AddFinalizer Y finalizer)).o st2
    have hR : Reconcile c r request =
        ⟨{ RequeueAfter := r.ReconcilePeriod },
         (updateResourceStatus c (updateResource c (AddFinalizer Y finalizer)).o st2).err,
         [Event.get, Event.newManager] ++ ([Event.op ManagerOp.Refresh none] ++
           (overrideEvents r ++ Event.op ManagerOp.Create none ::
             ((updateResource c (AddFinalizer Y finalizer)).events ++
               (updateResourceStatus c (updateResource c (AddFinalizer Y finalizer)).o
                 st2).events)))⟩ := by
      rw [hD, hE]
      simp only [hue]
      rfl
    have hrf := resource_write_facts c (AddFinalizer Y finalizer) (Reconcile c r request).trace
      (by rw [hR]; simp [resourceWrites, resourceWrites_append, hov.2.1, hw.2.1])
    have hsf := status_write_facts c (updateResource c (AddFinalizer Y finalizer)).o st2
      (Reconcile c r request).trace
      (by rw [hR]; simp [statusWrites, statusWrites_append, hov.2.2, hu.2.1])
    have herr : (Reconcile c r request).err =
        (updateResourceStatus c (updateResource c (AddFinalizer Y finalizer)).o st2).err := by
      rw [hR]
    refine ⟨hrf.1, fun p hp => hfinal p (hrf.2.1 p hp),
      fun _ => ⟨hsf.1, ?_, ?_, ?_, by rw [hR], by rw [hR], by rw [hR]⟩, fun hc => ?_⟩
    · intro q hq
      rw [hsf.2.1 q hq, ← hst2, ← hst1]
      exact ⟨holdsCondition_set _ _ _ _ _ _,
        fun hn => no_failed_after_success _ _ _ (by decide) (activeObject_status_nodup c o hn)⟩
    · rw [herr]
      exact hsf.2.2.1
    · rw [herr]
      exact hsf.2.2.2.1
    · have hsome := hrf.2.2.2.1.1 hue
      rw [hc] at hsome
      cases hsome

/-- Witness for C20: the sample resource with a tool that reports that the
deployment does not exist, in a cluster whose store accepts every write. -/
theorem creation_path_witness :
    resourceWrites (Reconcile freshCluster sampleReconciler sampleRequest).trace ≠ [] ∧
      (∀ p ∈ resourceWrites (Reconcile freshCluster sampleReconciler sampleRequest).trace,
        contains (GetFinalizers p.1) finalizer = true) ∧
      (statusWrites (Reconcile freshCluster sampleReconciler sampleRequest).trace ≠ [] ∧
        (∀ q ∈ statusWrites (Reconcile freshCluster sampleReconciler sampleRequest).trace,
          holdsCondition q.1 ConditionDeployed StatusTrue ReasonCreateSuccessful "" ∧
          (((StatusFor freshCluster.fromUnstructured freshResource).Conditions.map
              (fun x => x.CondType)).Nodup →
            ∀ x ∈ q.1.Conditions, x.CondType ≠ ConditionConfigFailed)) ∧
        (∃ q ∈ statusWrites (Reconcile freshCluster sampleReconciler sampleRequest).trace,
          q.2 = (Reconcile freshCluster sampleReconciler sampleRequest).err) ∧
        ((Reconcile freshCluster sampleReconciler sampleRequest).err = none ↔
          (persistedStatus
            (Reconcile freshCluster sampleReconciler sampleRequest).trace).isSome = true) ∧
        (Reconcile freshCluster sampleReconciler sampleRequest).result =
          { RequeueAfter := sampleReconciler.ReconcilePeriod } ∧
        (Reconcile freshCluster sampleReconciler sampleRequest).result.RequeueAfter =
          sampleReconciler.ReconcilePeriod ∧
        (Reconcile freshCluster sampleReconciler sampleRequest).result.Requeue = false) ∧
      opsOf (Reconcile freshCluster sampleReconciler sampleRequest).trace =
        [.Refresh, .Create] ∧
      (Reconcile freshCluster sampleReconciler sampleRequest).err = none ∧
      (persistedResource (Reconcile freshCluster sampleReconciler sampleRequest).trace).map
        GetFinalizers = some [finalizer] ∧
      persistedStatus (Reconcile freshCluster sampleReconciler sampleRequest).trace =
        some ⟨[⟨ConditionDeployed, StatusTrue, ReasonCreateSuccessful, "", 101⟩], none⟩ :=
  have h := (creation_path freshCluster sampleReconciler sampleRequest freshResource
    sampleManager sampleManager rfl rfl rfl rfl rfl).2.2.2.2 (by decide)
  ⟨h.1,
   fun p hp => h.2.1 p hp (fun v hv => by
     simp only [freshResource, mapGet, if_true, Option.some.injEq] at hv
     exact ⟨_, hv.symm⟩),
   h.2.2.1 (by decide), by decide, by decide, by decide, by decide⟩

end Terraform

namespace Terraform

/-! ## Reconciler: the deletion path -/

theorem deleteHandler_ok_eq (c : Cluster) (r : TerraformReconciler) (o : GoMap) (m : manager)
    (st3 : TFConfigStatus)
    (hst : ({ (((StatusFor c.fromUnstructured o).RemoveCondition
        ConditionConfigFailed).SetCondition (c.Now 0)
        ⟨ConditionDeployed, StatusFalse, ReasonDeleteSuccessful, "", 0⟩) with
        DeployedConfig := none } : TFConfigStatus) = st3)
    (hfin : contains (GetFinalizers o) finalizer = true)
    (h : (manager.Delete m (c.tool .Delete)).2 = none) :
    deleteHandler c r o m =
      match (updateResourceStatus c o st3).err with
      | some e => ⟨{}, some e, .op .Delete none :: (updateResourceStatus c o st3).events⟩
      | none =>
        match (updateResource c
            (RemoveFinalizer (updateResourceStatus c o st3).o finalizer)).err with
        | some e =>
          ⟨{}, some e,
           .op .Delete none ::
             ((updateResourceStatus c o st3).events ++
               (updateResource c
                 (RemoveFinalizer (updateResourceStatus c o st3).o finalizer)).events)⟩
        | none =>
          ⟨{}, (waitForDeletion c).1,
           .op .Delete none ::
             ((updateResourceStatus c o st3).events ++
               (updateResource c
                 (RemoveFinalizer (updateResourceStatus c o st3).o finalizer)).events ++
               (waitForDeletion c).2)⟩ := by
  unfold deleteHandler
  simp only [hfin, Bool.not_true, Bool.false_eq_true, if_false, h, hst]

/-- C19, as the code behaves.  First, a resource that carries a deletion
timestamp and the finalizer, and has no `spec`, makes `Reconcile` return the
error of the manager construction without invoking `Delete`.  Second, the
stored status holds two `ConfigFailed` conditions: `Delete` and both writes
succeed, the resource is confirmed absent, and the status that is persisted
still holds a `ConfigFailed` condition. -/
theorem deleting_with_finalizer_without_spec :
    ((GetDeletionTimestamp (sampleCluster deletingWithFinalizerWithoutSpec okTool).parseTime
          deletingWithFinalizerWithoutSpec).isSome = true ∧
        contains (GetFinalizers deletingWithFinalizerWithoutSpec) finalizer = true ∧
        opsOf (Reconcile (sampleCluster deletingWithFinalizerWithoutSpec okTool)
          sampleReconciler ⟨"ns", "x"⟩).trace = [] ∧
        (Reconcile (sampleCluster deletingWithFinalizerWithoutSpec okTool) sampleReconciler
          ⟨"ns", "x"⟩).err = some (.msg "failed to get spec: expected map")) ∧
      ((GetDeletionTimestamp (convertingCluster twiceFailedDeleting okTool).parseTime
          twiceFailedDeleting).isSome = true ∧
        contains (GetFinalizers twiceFailedDeleting) finalizer = true ∧
        opResults (Reconcile (convertingCluster twiceFailedDeleting okTool) sampleReconciler
          sampleRequest).trace = [(.Delete, none)] ∧
        (Reconcile (convertingCluster twiceFailedDeleting okTool) sampleReconciler
          sampleRequest).err = none ∧
        (persistedResource (Reconcile (convertingCluster twiceFailedDeleting okTool)
          sampleReconciler sampleRequest).trace).map GetFinalizers = some [] ∧
        persistedStatus (Reconcile (convertingCluster twiceFailedDeleting okTool)
          sampleReconciler sampleRequest).trace =
          some ⟨[⟨ConditionConfigFailed, StatusTrue, ReasonUpdateError, "second", 0⟩,
                 ⟨ConditionDeployed, StatusFalse, ReasonDeleteSuccessful, "", 100⟩],
                none⟩) := by
  decide

/-- C19 (Scenario C), amended: for every fetched resource with a deletion
timestamp and the finalizer for which the manager is built, `Delete` is the one
manager operation invoked and the result is empty.  When `Delete` succeeds, a
status write is attempted and every status handed to it has no deployed
configuration, holds `Deployed/False/DeleteSuccessful` and, the stored status
holding at most one condition per type, no `ConfigFailed` condition.  When no
status is persisted, no resource write is attempted and the error of the status
write is returned.  When a status is persisted, a resource write is attempted
and no object handed to it carries the finalizer; when no resource write
succeeds its error is returned; when one succeeds, `Reconcile` returns success
exactly when a poll finds the resource gone before the time is over, and the
timeout error when every poll still finds it. -/
theorem deletion_with_finalizer (c : Cluster) (r : TerraformReconciler) (request : Request)
    (o : GoMap) (m : manager) (hget : c.Get request.Namespace request.Name = .ok o)
    (hm : NewManager c.parseInto c.fromUnstructured o r.OverrideValues = (some m, none))
    (hdel : (GetDeletionTimestamp c.parseTime o).isSome = true)
    (hfin : contains (GetFinalizers o) finalizer = true) :
    opsOf (Reconcile c r request).trace = [.Delete] ∧
      (Reconcile c r request).result = {} ∧
      ((manager.Delete m (c.tool .Delete)).2 = none →
        statusWrites (Reconcile c r request).trace ≠ [] ∧
        (∀ q ∈ statusWrites (Reconcile c r request).trace,
          q.1.DeployedConfig = none ∧
          holdsCondition q.1 ConditionDeployed StatusFalse ReasonDeleteSuccessful "" ∧
          (((StatusFor c.fromUnstructured o).Conditions.map (fun x => x.CondType)).Nodup →
            ∀ x ∈ q.1.Conditions, x.CondType ≠ ConditionConfigFailed)) ∧
        (persistedStatus (Reconcile c r request).trace = none →
          resourceWrites (Reconcile c r request).trace = [] ∧
          (Reconcile c r request).err ≠ none ∧
          ∃ q ∈ statusWrites (Reconcile c r request).trace,
            q.2 = (Reconcile c r request).err) ∧
        ((persistedStatus (Reconcile c r request).trace).isSome = true →
          resourceWrites (Reconcile c r request).trace ≠ [] ∧
          (∀ p ∈ resourceWrites (Reconcile c r request).trace,
            contains (GetFinalizers p.1) finalizer = false) ∧
          (persistedResource (Reconcile c r request).trace = none →
            (Reconcile c r request).err ≠ none ∧
            ∃ p ∈ resourceWrites (Reconcile c r request).trace,
              p.2 = (Reconcile c r request).err) ∧
          ((persistedResource (Reconcile c r request).trace).isSome = true →
            ((Reconcile c r request).err = none ↔
              ∃ k, k ≤ c.PollBudget ∧
                (∃ e, c.PollGet k = .error e ∧ c.IsNotFound e = true) ∧
                ∀ j, j < k → ∃ obj, c.PollGet j = .ok obj) ∧
            ((∀ k, k ≤ c.PollBudget → ∃ obj, c.PollGet k = .ok obj) →
              (Reconcile c r request).err = some ErrWaitTimeout)))) := by
  have hD := Reconcile_dispatch c r request o m hget hm
  simp only [hdel, if_true] at hD
  have hops : opsOf (Reconcile c r request).trace = [.Delete] := by
    rw [hD]
    simp [Outcome.after, opsOf_append, opsOf, (deleteHandler_spec c r o m hfin).1]
  have hres : (Reconcile c r request).result = {} := by
    rw [hD]
    exact (deleteHandler_spec c r o m hfin).2.1
  refine ⟨hops, hres, fun hok => ?_⟩
  generalize hst : ({ (((StatusFor c.fromUnstructured o).RemoveCondition
      ConditionConfigFailed).SetCondition (c.Now 0)
      ⟨ConditionDeployed, StatusFalse, ReasonDeleteSuccessful, "", 0⟩) with
      DeployedConfig := none } : TFConfigStatus) = st3
  rw [deleteHandler_ok_eq c r o m st3 hst hfin hok] at hD
  have hw := updateResourceStatus_trace c o st3
  have hstatus : ∀ q : TFConfigStatus × Option GoError, q.1 = st3 →
      q.1.DeployedConfig = none ∧
        holdsCondition q.1 ConditionDeployed StatusFalse ReasonDeleteSuccessful "" ∧
        (((StatusFor c.fromUnstructured o).Conditions.map (fun x => x.CondType)).Nodup →
          ∀ x ∈ q.1.Conditions, x.CondType ≠ ConditionConfigFailed) := by
    intro q hq
    rw [hq, ← hst]
    exact ⟨rfl, holdsCondition_set _ _ _ _ _ _,
      fun hn => no_failed_after_success _ (c.Now 0) _ (by decide) hn⟩
  cases hwe : (updateResourceStatus c o st3).err with
  | some e =>
    have hR : Reconcile c r request =
        ⟨{}, some e,
         [Event.get, Event.newManager] ++
           Event.op ManagerOp.Delete none :: (updateResourceStatus c o st3).events⟩ := by
      rw [hD]
      simp only [hwe]
      rfl
    have hsf := status_write_facts c o st3 (Reconcile c r request).trace
      (by rw [hR]; simp [statusWrites])
    have hps : persistedStatus (Reconcile c r request).trace = none :=
      hsf.2.2.2.2.1 (by rw [hwe]; simp)
    refine ⟨hsf.1, fun q hq => hstatus q (hsf.2.1 q hq), fun _ => ⟨?_, ?_, ?_⟩, fun hc => ?_⟩
    · rw [hR]
      simp [resourceWrites, hw.2.1]
    · rw [hR]
      simp
    · obtain ⟨q, hq, hqe⟩ := hsf.2.2.1
      exact ⟨q, hq, by rw [hqe, hwe, hR]⟩
    · rw [hps] at hc
      cases hc
  | none =>
    generalize hX : RemoveFinalizer (updateResourceStatus c o st3).o finalizer = X at hD
    have hu := updateResource_trace c X
    have hXfin : ∀ p : GoMap × Option GoError, p.1 = X →
        contains (GetFinalizers p.1) finalizer = false := by
      intro p hp
      rw [hp, ← hX]
      exact GetFinalizers_RemoveFinalizer _ _
    cases hue : (updateResource c X).err with
    | some e =>
      have hR : Reconcile c r request =
          ⟨{}, some e,
           [Event.get, Event.newManager] ++
             Event.op ManagerOp.Delete none ::
               ((updateResourceStatus c o st3).events ++ (updateResource c X).events)⟩ := by
        rw [hD]
        simp only [hwe, hue]
        rfl
      have hsf := status_write_facts c o st3 (Reconcile c r request).trace
        (by rw [hR]; simp [statusWrites, statusWrites_append, hu.2.1])
      have hrf := resource_write_facts c X (Reconcile c r request).trace
        (by rw [hR]; simp [resourceWrites, resourceWrites_append, hw.2.1])
      have hps := hsf.2.2.2.1.1 hwe
      have hpr : persistedResource (Reconcile c r request).trace = none :=
        hrf.2.2.2.2.1 (by rw [hue]; simp)
      refine ⟨hsf.1, fun q hq => hstatus q (hsf.2.1 q hq), fun hc => ?_,
        fun _ => ⟨hrf.1, fun p hp => hXfin p (hrf.2.1 p hp), fun _ => ⟨?_, ?_⟩, fun hc => ?_⟩⟩
      · rw [hc] at hps
        cases hps
      · rw [hR]
        simp
      · obtain ⟨p, hp, hpe⟩ := hrf.2.2.1
        exact ⟨p, hp, by rw [hpe, hue, hR]⟩
      · rw [hpr] at hc
        cases hc
    | none =>
      have hp := waitLoop_trace c c.PollBudget 0
      have hR : Reconcile c r request =
          ⟨{}, (waitForDeletion c).1,
           [Event.get, Event.newManager] ++
             Event.op ManagerOp.Delete none ::
               ((updateResourceStatus c o st3).events ++ (updateResource c X).events ++
                 (waitForDeletion c).2)⟩ := by
        rw [hD]
        simp only [hwe, hue]
        rfl
      have hsf := status_write_facts c o st3 (Reconcile c r request).trace
        (by rw [hR]; simp [statusWrites, statusWrites_append, hu.2.1, waitForDeletion, hp.2.2])
      have hrf := resource_write_facts c X (Reconcile c r request).trace
        (by rw [hR]; simp [resourceWrites, resourceWrites_append, hw.2.1, waitForDeletion,
          hp.2.1])
      have hps := hsf.2.2.2.1.1 hwe
      have hpr := hrf.2.2.2.1.1 hue
      have herr : (Reconcile c r request).err = (waitForDeletion c).1 := by
        rw [hR]
      refine ⟨hsf.1, fun q hq => hstatus q (hsf.2.1 q hq), fun hc => ?_,
        fun _ => ⟨hrf.1, fun p hp => hXfin p (hrf.2.1 p hp), fun hc => ?_, fun _ => ⟨?_, ?_⟩⟩⟩
      · rw [hc] at hps
        cases hps
      · rw [hc] at hpr
        cases hpr
      · rw [herr]
        unfold waitForDeletion
        rw [waitLoop_success_iff]
        simp
      · intro hall
        rw [herr]
        unfold waitForDeletion
        exact waitLoop_timeout c c.PollBudget 0 (by simpa using hall)

/-- Witness for C19: a resource under deletion with the finalizer and an empty
`spec`, in a cluster where everything succeeds and the first poll finds the
resource gone. -/
theorem deletion_with_finalizer_witness :
    statusWrites (Reconcile deletingCluster sampleReconciler sampleRequest).trace ≠ [] ∧
      (∀ q ∈ statusWrites (Reconcile deletingCluster sampleReconciler sampleRequest).trace,
        q.1.DeployedConfig = none ∧
        holdsCondition q.1 ConditionDeployed StatusFalse ReasonDeleteSuccessful "" ∧
        (((StatusFor deletingCluster.fromUnstructured deletingWithFinalizer).Conditions.map
            (fun x => x.CondType)).Nodup →
          ∀ x ∈ q.1.Conditions, x.CondType ≠ ConditionConfigFailed)) ∧
      resourceWrites (Reconcile deletingCluster sampleReconciler sampleRequest).trace ≠ [] ∧
      (∀ p ∈ resourceWrites (Reconcile deletingCluster sampleReconciler sampleRequest).trace,
        contains (GetFinalizers p.1) finalizer = false) ∧
      (((Reconcile deletingCluster sampleReconciler sampleRequest).err = none ↔
          ∃ k, k ≤ deletingCluster.PollBudget ∧
            (∃ e, deletingCluster.PollGet k = .error e ∧
              deletingCluster.IsNotFound e = true) ∧
            ∀ j, j < k → ∃ obj, deletingCluster.PollGet j = .ok obj) ∧
        ((∀ k, k ≤ deletingCluster.PollBudget → ∃ obj, deletingCluster.PollGet k = .ok obj) →
          (Reconcile deletingCluster sampleReconciler sampleRequest).err =
            some ErrWaitTimeout)) ∧
      opsOf (Reconcile deletingCluster sampleReconciler sampleRequest).trace = [.Delete] ∧
      (Reconcile deletingCluster sampleReconciler sampleRequest).err = none ∧
      (persistedResource (Reconcile deletingCluster sampleReconciler sampleRequest).trace).map
        GetFinalizers = some [] ∧
      persistedStatus (Reconcile deletingCluster sampleReconciler sampleRequest).trace =
        some ⟨[⟨ConditionDeployed, StatusFalse, ReasonDeleteSuccessful, "", 100⟩], none⟩ :=
  have h := (deletion_with_finalizer deletingCluster sampleReconciler sampleRequest
    deletingWithFinalizer sampleManager rfl rfl (by decide) (by decide)).2.2 (by decide)
  ⟨h.1, h.2.1, (h.2.2.2 (by decide)).1, (h.2.2.2 (by decide)).2.1,
   (h.2.2.2 (by decide)).2.2.2 (by decide), by decide, by decide, by decide, by decide⟩

end Terraform
